import Mathlib

/-!
# Clipboard history service of vicinae

A shallow embedding of `src/server/src/services/clipboard/clipboard-service.cpp`, and of
the multi-selection of `src/server/src/extensions/clipboard/history/clipboard-history-view.cpp`,
and theorems about them.

Conventions of the embedding:

* `QString` is a Lean `String`; `QByteArray` is a list of bytes (`List Nat`).
* Library and operating-system calls whose code is not part of the sources
  (`Utils::isTextMimeType`, `QString::fromUtf8`, `std::filesystem`, `QMimeDatabase`,
  `QUrl`, `QImage`, ...) are fields of the record `Platform`.
* `QCryptographicHash::Md5` is the real MD5 of RFC 1321.
* The database class `ClipboardDatabase` is not part of the sources; its operations are
  modelled from the specification (section 4.5) on the record `Store`.
-/

namespace Vicinae

/-! ## Qt strings and byte arrays -/

abbrev QString := String

abbrev QByteArray := List Nat

/-- The test `QChar::isSpace` of Qt 6: the ASCII white space, U+0085, U+00A0 and the
characters of the Unicode categories Zs, Zl and Zp. -/
def QChar.isSpace (c : Char) : Bool :=
  let u := c.toNat
  u == 0x20 || (0x09 ≤ u && u ≤ 0x0d) ||
    (u > 127 && (u == 0x85 || u == 0xa0 || u == 0x1680 || (0x2000 ≤ u && u ≤ 0x200a) ||
      u == 0x2028 || u == 0x2029 || u == 0x202f || u == 0x205f || u == 0x3000))

/-- The method `QString::trimmed`: white space removed from both ends. -/
def QString.trimmed (s : QString) : QString :=
  String.mk ((s.data.dropWhile QChar.isSpace).reverse.dropWhile QChar.isSpace).reverse

/-- The method `QString::startsWith`. -/
def QString.startsWith (s p : QString) : Bool := p.data.isPrefixOf s.data

/-- The method `QString::contains` for a string pattern. -/
def QString.contains (s p : QString) : Bool := s.data.tails.any (fun t => p.data.isPrefixOf t)

/-- The UTF-8 bytes of one character. -/
def utf8EncodeChar (c : Char) : QByteArray :=
  let v := c.toNat
  if v ≤ 0x7f then [v]
  else if v ≤ 0x7ff then [0xc0 + v / 64, 0x80 + v % 64]
  else if v ≤ 0xffff then [0xe0 + v / 4096, 0x80 + (v / 64) % 64, 0x80 + v % 64]
  else [0xf0 + v / 262144, 0x80 + (v / 4096) % 64, 0x80 + (v / 64) % 64, 0x80 + v % 64]

/-- The method `QString::toUtf8`. -/
def QString.toUtf8 (s : QString) : QByteArray := s.data.flatMap utf8EncodeChar

/-- The UTF-16 code units of one character, the `QChar`s a `QString` stores. -/
def utf16EncodeChar (c : Char) : List Nat :=
  let v := c.toNat
  if v < 0x10000 then [v] else [0xd800 + (v - 0x10000) / 0x400, 0xdc00 + (v - 0x10000) % 0x400]

/-- The `QChar` sequence of a `QString`. -/
def QString.utf16 (s : QString) : List Nat := s.data.flatMap utf16EncodeChar

/-- The algorithm `std::ranges::lexicographical_compare` on two code-unit ranges. -/
def lexicographical_compare : List Nat → List Nat → Bool
  | [], [] => false
  | [], _ :: _ => true
  | _ :: _, [] => false
  | a :: as, b :: bs =>
    if a < b then true else if b < a then false else lexicographical_compare as bs

/-- The test `ascii_isspace` used by `QByteArray::trimmed` and `QByteArray::simplified`. -/
def asciiIsSpace (b : Nat) : Bool := b == 0x20 || (0x09 ≤ b && b ≤ 0x0d)

/-- The method `QByteArray::trimmed`. -/
def QByteArray.trimmed (b : QByteArray) : QByteArray :=
  ((b.dropWhile asciiIsSpace).reverse.dropWhile asciiIsSpace).reverse

/-! ## MD5 (`QCryptographicHash::Md5`), RFC 1321 -/

namespace QCryptographicHash

def md5K : List Nat := [
  0xd76aa478, 0xe8c7b756, 0x242070db, 0xc1bdceee, 0xf57c0faf, 0x4787c62a, 0xa8304613, 0xfd469501,
  0x698098d8, 0x8b44f7af, 0xffff5bb1, 0x895cd7be, 0x6b901122, 0xfd987193, 0xa679438e, 0x49b40821,
  0xf61e2562, 0xc040b340, 0x265e5a51, 0xe9b6c7aa, 0xd62f105d, 0x02441453, 0xd8a1e681, 0xe7d3fbc8,
  0x21e1cde6, 0xc33707d6, 0xf4d50d87, 0x455a14ed, 0xa9e3e905, 0xfcefa3f8, 0x676f02d9, 0x8d2a4c8a,
  0xfffa3942, 0x8771f681, 0x6d9d6122, 0xfde5380c, 0xa4beea44, 0x4bdecfa9, 0xf6bb4b60, 0xbebfbc70,
  0x289b7ec6, 0xeaa127fa, 0xd4ef3085, 0x04881d05, 0xd9d4d039, 0xe6db99e5, 0x1fa27cf8, 0xc4ac5665,
  0xf4292244, 0x432aff97, 0xab9423a7, 0xfc93a039, 0x655b59c3, 0x8f0ccc92, 0xffeff47d, 0x85845dd1,
  0x6fa87e4f, 0xfe2ce6e0, 0xa3014314, 0x4e0811a1, 0xf7537e82, 0xbd3af235, 0x2ad7d2bb, 0xeb86d391]

def md5S : List Nat := [
  7, 12, 17, 22, 7, 12, 17, 22, 7, 12, 17, 22, 7, 12, 17, 22,
  5, 9, 14, 20, 5, 9, 14, 20, 5, 9, 14, 20, 5, 9, 14, 20,
  4, 11, 16, 23, 4, 11, 16, 23, 4, 11, 16, 23, 4, 11, 16, 23,
  6, 10, 15, 21, 6, 10, 15, 21, 6, 10, 15, 21, 6, 10, 15, 21]

/-- Reduction to an unsigned 32-bit word. -/
def w32 (x : Nat) : Nat := x % 4294967296

/-- Left rotation of a 32-bit word. -/
def rotl32 (x c : Nat) : Nat := w32 (x <<< c) ||| (x >>> (32 - c))

/-- Bitwise complement of a 32-bit word. -/
def not32 (x : Nat) : Nat := x ^^^ 0xffffffff

/-- The little-endian 32-bit word of four bytes. -/
def leWord : List Nat → Nat
  | [b0, b1, b2, b3] => b0 + 256 * b1 + 65536 * b2 + 16777216 * b3
  | _ => 0

/-- The first `n` little-endian bytes of `x`. -/
def leBytes (n : Nat) (x : Nat) : List Nat :=
  (List.range n).map (fun i => (x >>> (8 * i)) % 256)

/-- One of the 64 operations of the MD5 compression function. -/
def md5Round (m : List Nat) (st : Nat × Nat × Nat × Nat) (i : Nat) : Nat × Nat × Nat × Nat :=
  let (a, b, c, d) := st
  let (f, g) :=
    if i < 16 then ((b &&& c) ||| (not32 b &&& d), i)
    else if i < 32 then ((d &&& b) ||| (not32 d &&& c), (5 * i + 1) % 16)
    else if i < 48 then (b ^^^ c ^^^ d, (3 * i + 5) % 16)
    else (c ^^^ (b ||| not32 d), (7 * i) % 16)
  let f1 := w32 (f + a + md5K.getD i 0 + m.getD g 0)
  (d, w32 (b + rotl32 f1 (md5S.getD i 0)), b, c)

/-- The MD5 compression of one 64-byte block. -/
def md5Block (st : Nat × Nat × Nat × Nat) (block : List Nat) : Nat × Nat × Nat × Nat :=
  let m := (List.range 16).map (fun j => leWord ((block.drop (4 * j)).take 4))
  let (a, b, c, d) := (List.range 64).foldl (md5Round m) st
  (w32 (st.1 + a), w32 (st.2.1 + b), w32 (st.2.2.1 + c), w32 (st.2.2.2 + d))

/-- The MD5 padding: a one bit, zeros, and the bit length on 64 bits. -/
def md5Pad (msg : List Nat) : List Nat :=
  let n := msg.length
  let zeros := (119 - n % 64) % 64
  msg ++ [0x80] ++ List.replicate zeros 0 ++ leBytes 8 ((8 * n) % 18446744073709551616)

/-- The compression of the first `k` blocks of `bytes`. -/
def md5Blocks : Nat → List Nat → Nat × Nat × Nat × Nat → Nat × Nat × Nat × Nat
  | 0, _, st => st
  | k + 1, bytes, st => md5Blocks k (bytes.drop 64) (md5Block st (bytes.take 64))

/-- The call `QCryptographicHash::hash(data, QCryptographicHash::Md5)`: the 16-byte digest. -/
def md5 (msg : QByteArray) : QByteArray :=
  let p := md5Pad msg
  let (a, b, c, d) := md5Blocks (p.length / 64) p (0x67452301, 0xefcdab89, 0x98badcfe, 0x10325476)
  leBytes 4 a ++ leBytes 4 b ++ leBytes 4 c ++ leBytes 4 d

/-- One lower-case hexadecimal digit. -/
def hexDigit (n : Nat) : Char := "0123456789abcdef".data.getD n '0'

/-- The method `QByteArray::toHex`; the digits are kept as a `QString`. -/
def toHex (b : QByteArray) : QString :=
  String.mk (b.flatMap (fun x => [hexDigit (x / 16 % 16), hexDigit (x % 16)]))

end QCryptographicHash

/-! ## Selections and offers -/

/-- One MIME representation of a selection (`ClipboardDataOffer`). -/
structure ClipboardDataOffer where
  mimeType : QString
  data : QByteArray
  deriving DecidableEq, Repr

/-- One clipboard snapshot (`ClipboardSelection`). -/
structure ClipboardSelection where
  offers : List ClipboardDataOffer
  sourceApp : Option QString := none
  deriving DecidableEq, Repr

/-- The result of `QUrl` parsing, as far as the service looks at it. -/
structure QUrl where
  isLocalFile : Bool
  scheme : QString
  host : QString
  deriving DecidableEq, Repr

/-- The library and operating-system calls of the service whose code is outside the
sources. Every theorem below holds for every such record unless it states a hypothesis
on one of the fields. -/
structure Platform where
  /-- The helper `Utils::isTextMimeType`. -/
  isTextMimeType : QString → Bool
  /-- The constant `Clipboard::CONCEALED_MIME_TYPE`. -/
  CONCEALED_MIME_TYPE : QString
  /-- The decoder `QString::fromUtf8`, also the conversion of a `QByteArray` to a `QString`. -/
  fromUtf8 : QByteArray → QString
  /-- The call `std::filesystem::exists`. -/
  fsExists : QString → Bool
  /-- The call `std::filesystem::is_regular_file`. -/
  fsIsRegularFile : QString → Bool
  /-- The name of `QMimeDatabase::mimeTypeForFile`. -/
  mimeTypeForFile : QString → QString
  /-- Opening a file read-only and `readAll`; `none` when it cannot be opened. -/
  readFile : QString → Option QByteArray
  /-- The test `QUrl(text).isLocalFile()`. -/
  urlIsLocalFile : QString → Bool
  /-- The call `QUrl::fromEncoded(data, QUrl::StrictMode)`. -/
  urlFromEncoded : QByteArray → QUrl
  /-- The size `QImageReader` reports for image bytes, when it is valid. -/
  imageSize : QByteArray → Option (Int × Int)
  /-- Whether `QImage::fromData` yields a non-null image. -/
  imageValid : QByteArray → Bool

/-! ## `sanitizeSelection` -/

/-- The comparator given to `std::ranges::sort`: the MIME types compared `QChar` by
`QChar`. -/
def mimeLess (a b : ClipboardDataOffer) : Bool :=
  lexicographical_compare (QString.utf16 a.mimeType) (QString.utf16 b.mimeType)

/-- Insertion of `x` into a sorted run, after every element that is not greater. -/
def sortInsert (x : ClipboardDataOffer) : List ClipboardDataOffer → List ClipboardDataOffer
  | [] => [x]
  | y :: ys => if mimeLess x y then x :: y :: ys else y :: sortInsert x ys

/-- The call `std::ranges::sort(offers, mimeLess)`. The standard leaves the relative order
of offers with equal MIME types open; this is the insertion sort the C++ library runs on
ranges of at most 16 elements, which keeps that order. On longer ranges the library may
order offers with equal MIME types otherwise. -/
def sortOffers (l : List ClipboardDataOffer) : List ClipboardDataOffer :=
  l.foldl (fun acc x => sortInsert x acc) []

/-- The algorithm `std::ranges::adjacent_find`: the index of the first element equal to
its successor, the length when there is none. -/
def adjacentFind (eq : ClipboardDataOffer → ClipboardDataOffer → Bool) :
    List ClipboardDataOffer → Nat
  | a :: b :: rest => if eq a b then 0 else adjacentFind eq (b :: rest) + 1
  | [_] => 1
  | [] => 0

/-- The assignment `*i = std::move(*j)` on offers. Move assignment of `QString` and
`QByteArray` swaps the two values, so the two offers trade places. -/
def moveAssign (l : List ClipboardDataOffer) (i j : Nat) : List ClipboardDataOffer :=
  match l[i]?, l[j]? with
  | some x, some y => (l.set i y).set j x
  | _, _ => l

/-- The loop `while (++first != last) if (!eq(*dest, *first)) *++dest = std::move(*first);`
of `std::ranges::unique`, with `k` elements left to visit. -/
def uniqueLoop (eq : ClipboardDataOffer → ClipboardDataOffer → Bool) :
    Nat → List ClipboardDataOffer → Nat → Nat → List ClipboardDataOffer
  | 0, l, _, _ => l
  | k + 1, l, dest, first =>
    match l[dest]?, l[first + 1]? with
    | some x, some y =>
      if !eq x y then uniqueLoop eq k (moveAssign l (dest + 1) (first + 1)) (dest + 1) (first + 1)
      else uniqueLoop eq k l dest (first + 1)
    | _, _ => l

/-- The call `std::ranges::unique(offers, eq)` with its result dropped, as in the source:
the range it returns is not erased, so the vector keeps its length. -/
def uniqueOffers (eq : ClipboardDataOffer → ClipboardDataOffer → Bool)
    (l : List ClipboardDataOffer) : List ClipboardDataOffer :=
  let first := adjacentFind eq l
  if first = l.length then l else uniqueLoop eq (l.length - first - 2) l first (first + 1)

/-- The scan for a text offer holding the absolute path of an existing regular file; the
empty string when there is none. -/
def detectFilePath (P : Platform) : List ClipboardDataOffer → QString
  | [] => ""
  | offer :: rest =>
    if P.isTextMimeType offer.mimeType && !offer.data.isEmpty then
      let text := QString.trimmed (P.fromUtf8 offer.data)
      if QString.startsWith text "/" && !QString.contains text "://" then
        if P.fsExists text && P.fsIsRegularFile text then text
        else detectFilePath P rest
      else detectFilePath P rest
    else detectFilePath P rest

/-- The method `ClipboardService::sanitizeSelection`; `autoPathToUri` is the member
`m_autoPathToUri`. -/
def sanitizeSelection (P : Platform) (autoPathToUri : Bool) (selection : ClipboardSelection) :
    ClipboardSelection :=
  let offers := uniqueOffers (fun a b => a.mimeType == b.mimeType) (sortOffers selection.offers)
  if !autoPathToUri then { selection with offers := offers }
  else
    let alreadyHasFileUri := offers.any (fun offer =>
      offer.mimeType == "text/uri-list" &&
        QString.startsWith (QString.trimmed (P.fromUtf8 offer.data)) "file://")
    if alreadyHasFileUri then { selection with offers := offers }
    else
      let detectedFilePath := detectFilePath P offers
      if detectedFilePath != "" then
        let fileUri : QString := "file://" ++ detectedFilePath
        let offers := offers.map (fun offer =>
          if P.isTextMimeType offer.mimeType then { offer with data := QString.toUtf8 fileUri }
          else offer)
        let offers := offers ++ [{ mimeType := "text/uri-list", data := QString.toUtf8 fileUri }]
        let mimeType := P.mimeTypeForFile detectedFilePath
        if QString.startsWith mimeType "image/" then
          let hasImageData := offers.any (fun offer => QString.startsWith offer.mimeType "image/")
          if !hasImageData then
            match P.readFile detectedFilePath with
            | some bytes => { selection with offers := offers ++ [{ mimeType := mimeType, data := bytes }] }
            | none => { selection with offers := offers }
          else { selection with offers := offers }
        else { selection with offers := offers }
      else { selection with offers := offers }

/-! ## Classification of offers and selections -/

/-- The closed classification `ClipboardOfferKind`. -/
inductive ClipboardOfferKind where
  | Text
  | Link
  | Image
  | File
  | Unknown
  deriving DecidableEq, Repr

/-- The split of a string at every `\r\n`, empty parts included. The second argument is the
part read so far, in reverse. -/
def splitCRLF : List Char → List Char → List (List Char)
  | [], cur => [cur.reverse]
  | '\r' :: '\n' :: cs, cur => cur.reverse :: splitCRLF cs []
  | c :: cs, cur => splitCRLF cs (c :: cur)

/-- The call `text.split("\r\n", Qt::SkipEmptyParts)`. -/
def QString.splitCRLFSkipEmpty (text : QString) : List QString :=
  ((splitCRLF text.data []).filter (fun part => !part.isEmpty)).map String.mk

/-- The method `ClipboardService::getKind`. -/
def getKind (P : Platform) (offer : ClipboardDataOffer) : ClipboardOfferKind :=
  if offer.mimeType == "text/uri-list" then
    let uris := QString.splitCRLFSkipEmpty (P.fromUtf8 offer.data)
    match uris with
    | [uri] => if P.urlIsLocalFile uri then .File else .Text
    | _ => .Text
  else if QString.startsWith offer.mimeType "image/" then .Image
  else if offer.mimeType == "text/html" then .Text
  else if P.isTextMimeType offer.mimeType then
    let url := P.urlFromEncoded offer.data
    if url.isLocalFile then .File
    else if !url.scheme.data.isEmpty then .Link
    else .Text
  else .Unknown

/-- The static table `plainTextMimeTypes` of `getSelectionPreferredMimeType`. -/
def plainTextMimeTypes : List QString :=
  ["text/uri-list", "text/plain;charset=utf-8", "text/plain", "UTF8_STRING", "STRING", "TEXT",
    "COMPOUND_TEXT"]

/-- The method `ClipboardService::getSelectionPreferredMimeType`. -/
def getSelectionPreferredMimeType (selection : ClipboardSelection) : QString :=
  match plainTextMimeTypes.findSome? (fun mime =>
      selection.offers.find? (fun offer => offer.mimeType == mime && !offer.data.isEmpty)) with
  | some it => it.mimeType
  | none =>
    match selection.offers.find? (fun offer =>
        QString.startsWith offer.mimeType "image/" && !offer.data.isEmpty) with
    | some imageIt => imageIt.mimeType
    | none =>
      match selection.offers.find? (fun offer =>
          offer.mimeType == "text/html" && !offer.data.isEmpty) with
      | some htmlIt => htmlIt.mimeType
      | none =>
        match selection.offers.find? (fun offer =>
            !QString.startsWith offer.mimeType "text/_moz_html" && !offer.data.isEmpty) with
        | some fallbackIt => fallbackIt.mimeType
        | none =>
          match selection.offers with
          | front :: _ => front.mimeType
          | [] => ""

/-- The method `ClipboardService::computeSelectionHash`: the MD5 digest of the offers'
MD5 digests, fed to the hash in offer order. -/
def computeSelectionHash (selection : ClipboardSelection) : QByteArray :=
  QCryptographicHash.md5 (selection.offers.flatMap (fun offer => QCryptographicHash.md5 offer.data))

/-- The value of a 32-bit `int` that holds `x` modulo 2^32. -/
def toInt32 (x : Nat) : Int :=
  let r := x % 4294967296
  if r < 2147483648 then (r : Int) else (r : Int) - 4294967296

/-- The conversion of an `int` to the 64-bit `size_t`. -/
def toSizeT (x : Int) : Nat := (x % 18446744073709551616).toNat

/-- The method `ClipboardService::isClearSelection`. The accumulator of `std::accumulate`
has the type of its initial value `0`, an `int`; the lambda adds in `size_t`. -/
def isClearSelection (selection : ClipboardSelection) : Bool :=
  selection.offers.foldl
    (fun (acc : Int) item => toInt32 ((toSizeT acc + item.data.length) % 18446744073709551616)) 0 == 0

/-- The method `QByteArray::simplified`: white space trimmed at both ends and every inner
run of white space replaced by one space. -/
def QByteArray.simplified (b : QByteArray) : QByteArray :=
  List.intercalate [0x20] ((b.splitOnP asciiIsSpace).filter (fun w => !w.isEmpty))

/-- The method `ClipboardService::getOfferTextPreview`. -/
def getOfferTextPreview (P : Platform) (offer : ClipboardDataOffer) : QString :=
  match getKind P offer with
  | .Text | .Link | .File => P.fromUtf8 ((QByteArray.simplified offer.data).take 50)
  | .Image =>
    match P.imageSize offer.data with
    | some (w, h) => "Image (" ++ toString w ++ "x" ++ toString h ++ ")"
    | none => "Image"
  | .Unknown => "Unknown"

/-- The set `IGNORED_MIME_TYPES`. -/
def IGNORED_MIME_TYPES (P : Platform) : List QString := [P.CONCEALED_MIME_TYPE]

/-- The set `PASSWORD_MIME_TYPES`. -/
def PASSWORD_MIME_TYPES : List QString := ["x-kde-passwordManagerHint"]

/-- The method `ClipboardService::isConcealedSelection`. -/
def isConcealedSelection (P : Platform) (selection : ClipboardSelection) : Bool :=
  selection.offers.any (fun offer => (IGNORED_MIME_TYPES P).contains offer.mimeType)

/-- The method `ClipboardService::isPasswordSelection`. -/
def isPasswordSelection (selection : ClipboardSelection) : Bool :=
  selection.offers.any (fun offer => PASSWORD_MIME_TYPES.contains offer.mimeType)

/-! ## The store: index database and blob directory -/

/-- The encryption mode of a stored offer (`ClipboardEncryptionType`). -/
inductive ClipboardEncryptionType where
  | None
  | Local
  deriving DecidableEq, Repr

/-- The encryption module (`ClipboardEncrypter`), whose code is outside the sources: both
operations may fail. -/
structure ClipboardEncrypter where
  encrypt : QByteArray → Option QByteArray
  decrypt : QByteArray → Option QByteArray

/-- The argument of `ClipboardDatabase::insertSelection`. -/
structure InsertSelectionPayload where
  id : QString
  offerCount : Int
  hash : QString
  preferredMimeType : QString
  kind : ClipboardOfferKind
  source : Option QString
  deriving DecidableEq, Repr

/-- The argument of `ClipboardDatabase::insertOffer` (`InsertClipboardOfferPayload`); an
offer row of the index holds the same fields. -/
structure InsertClipboardOfferPayload where
  id : QString
  selectionId : QString
  mimeType : QString
  textPreview : QString
  md5sum : QString
  encryption : ClipboardEncryptionType
  size : Nat
  urlHost : Option QString := none
  deriving DecidableEq, Repr

/-- A selection row of the index. -/
structure SelectionRow where
  id : QString
  offerCount : Int
  hash : QString
  preferredMimeType : QString
  kind : ClipboardOfferKind
  source : Option QString
  updatedAt : Nat
  pinnedAt : Nat
  keywords : QString
  deriving DecidableEq, Repr

/-- Modelled from the spec: the class `ClipboardDatabase` (clipboard-db.hpp) is missing from
the sources. The persistent state is the selection rows, the offer rows and the full-text
entries of the index, together with the blob directory `m_dataDir`, a map from file name
to content. -/
structure Store where
  selections : List SelectionRow
  offers : List InsertClipboardOfferPayload
  indexed : List (QString × QByteArray)
  blobs : List (QString × QByteArray)
  deriving DecidableEq, Repr

/-- Modelled from the spec: `ClipboardDatabase::tryBubbleUpSelection` is missing from the
sources. It touches the updated-at time of the row that matches and reports whether one
matched. The service passes the dedup hash (saveSelection) or a selection id
(copySelectionRecord), so a row matches on either. -/
def Store.tryBubbleUpSelection (st : Store) (now : Nat) (key : QString) : Store × Bool :=
  if st.selections.any (fun row => row.hash == key || row.id == key) then
    ({ st with selections := st.selections.map (fun row =>
        if row.hash == key || row.id == key then { row with updatedAt := now } else row) }, true)
  else (st, false)

/-- Modelled from the spec: `ClipboardDatabase::insertSelection` is missing from the sources.
It adds one selection row, not pinned, created and updated now. -/
def Store.insertSelection (st : Store) (now : Nat) (p : InsertSelectionPayload) : Store :=
  { st with selections := st.selections ++ [{
      id := p.id, offerCount := p.offerCount, hash := p.hash,
      preferredMimeType := p.preferredMimeType, kind := p.kind, source := p.source,
      updatedAt := now, pinnedAt := 0, keywords := "" }] }

/-- Modelled from the spec: `ClipboardDatabase::indexSelectionContent` is missing from the
sources. It adds the content to the full-text index of the selection. -/
def Store.indexSelectionContent (st : Store) (selectionId : QString) (content : QByteArray) :
    Store :=
  { st with indexed := st.indexed ++ [(selectionId, content)] }

/-- Modelled from the spec: `ClipboardDatabase::insertOffer` is missing from the sources. It
adds one offer row. -/
def Store.insertOffer (st : Store) (dto : InsertClipboardOfferPayload) : Store :=
  { st with offers := st.offers ++ [dto] }

/-- Writing a file of the blob directory: its former content is replaced. -/
def Store.writeBlob (st : Store) (name : QString) (content : QByteArray) : Store :=
  { st with blobs := st.blobs.filter (fun f => f.1 != name) ++ [(name, content)] }

/-- What one run of `saveSelection` gets from outside: the clock of the database, the
identifiers `Crypto::UUID::v4()` draws, and which of the fallible calls succeed (`i` is
the position of the offer in the selection). The value `written i bytes` is the content of
the blob file of offer `i` after `targetFile.write(bytes)`: `bytes` when the write
succeeds, anything else when it fails. -/
structure Oracle where
  now : Nat
  selectionId : QString
  offerId : Nat → QString
  insertSelectionOk : Bool
  indexOk : Nat → Bool
  insertOfferOk : Nat → Bool
  openOk : Nat → Bool
  written : Nat → QByteArray → QByteArray
  commitOk : Bool

/-- The members of `ClipboardService` that steer ingestion. -/
structure ClipboardService where
  m_monitoring : Bool
  m_ignorePasswords : Bool
  m_autoPathToUri : Bool
  m_recordAllOffers : Bool
  m_encrypter : Option ClipboardEncrypter

/-- The entry carried by the `itemInserted` signal (`ClipboardHistoryEntry`), as far as
`saveSelection` fills it; a default-constructed entry has empty fields. -/
structure ClipboardHistoryEntry where
  id : QString := ""
  pinnedAt : Nat := 0
  updatedAt : Nat := 0
  mimeType : QString := ""
  md5sum : QString := ""
  textPreview : QString := ""
  deriving DecidableEq, Repr

/-- The signals the service emits. -/
inductive Signal where
  | itemInserted (entry : ClipboardHistoryEntry)
  | selectionUpdated
  | monitoringChanged (value : Bool)
  | selectionRemoved (selectionId : QString)
  deriving DecidableEq, Repr

/-- The state of the loop over the offers inside the transaction of `saveSelection`. -/
structure OfferLoopState where
  db : Store
  insertedEntry : ClipboardHistoryEntry

/-- The body of the loop `for (const auto &offer : selection.offers)` of the transaction,
for the offer at position `i`. The flag is `false` when the lambda returns `false` at this
offer, `true` when the loop goes on. The source drops the result of `targetFile.write`, so
a failed write changes the content of the file and nothing else. -/
def saveOffer (P : Platform) (svc : ClipboardService) (o : Oracle) (selectionId : QString)
    (preferredMimeType : QString) (i : Nat) (offer : ClipboardDataOffer) (s : OfferLoopState) :
    Bool × OfferLoopState :=
  let kind := getKind P offer
  let isIndexableText := kind == .Text || kind == .Link
  let textPreview := getOfferTextPreview P offer
  let indexing := isIndexableText && !offer.data.isEmpty
  if indexing && !o.indexOk i then (false, s)
  else
    let db := if indexing then s.db.indexSelectionContent selectionId offer.data else s.db
    let md5sum := QCryptographicHash.toHex (QCryptographicHash.md5 offer.data)
    let offerId := o.offerId i
    let encryption : ClipboardEncryptionType :=
      if svc.m_encrypter.isSome then .Local else .None
    let dto : InsertClipboardOfferPayload := {
      id := offerId, selectionId := selectionId, mimeType := offer.mimeType,
      textPreview := textPreview, md5sum := md5sum, encryption := encryption,
      size := offer.data.length }
    let dto :=
      if kind == .Link then
        let url := P.urlFromEncoded offer.data
        if QString.startsWith url.scheme "http" then { dto with urlHost := some url.host }
        else dto
      else dto
    if !o.insertOfferOk i then (false, { s with db := db })
    else
      let db := db.insertOffer dto
      if !o.openOk i then (true, { s with db := db })
      else
        let db := db.writeBlob offerId []
        let entry : ClipboardHistoryEntry :=
          if offer.mimeType == preferredMimeType then
            { id := selectionId, pinnedAt := 0, updatedAt := 0, mimeType := offer.mimeType,
              md5sum := md5sum, textPreview := textPreview }
          else s.insertedEntry
        match svc.m_encrypter with
        | some encrypter =>
          match encrypter.encrypt offer.data with
          | some encrypted =>
            (true, { db := db.writeBlob offerId (o.written i encrypted), insertedEntry := entry })
          | none => (false, { s with db := db })
        | none =>
          (true, { db := db.writeBlob offerId (o.written i offer.data), insertedEntry := entry })

/-- The loop `for (const auto &offer : selection.offers)` of the transaction, from the
offer at position `i` on. The result is the value the lambda returns (`false` on the first
failure) and the state reached. -/
def saveOffers (P : Platform) (svc : ClipboardService) (o : Oracle) (selectionId : QString)
    (preferredMimeType : QString) :
    Nat → List ClipboardDataOffer → OfferLoopState → Bool × OfferLoopState
  | _, [], s => (true, s)
  | i, offer :: rest, s =>
    match saveOffer P svc o selectionId preferredMimeType i offer s with
    | (true, s) => saveOffers P svc o selectionId preferredMimeType (i + 1) rest s
    | (false, s) => (false, s)

/-- The body of the lambda given to `cdb.transaction` in `saveSelection`. -/
def saveTransactionBody (P : Platform) (svc : ClipboardService) (o : Oracle)
    (selection : ClipboardSelection) (preferredMimeType : QString)
    (preferredKind : ClipboardOfferKind) (selectionHash : QString) (s : OfferLoopState) :
    Bool × OfferLoopState :=
  let (db, bubbled) := s.db.tryBubbleUpSelection o.now selectionHash
  if bubbled then (true, { s with db := db })
  else
    let selectionId := o.selectionId
    if !o.insertSelectionOk then (false, s)
    else
      let db := s.db.insertSelection o.now {
        id := selectionId, offerCount := toInt32 selection.offers.length, hash := selectionHash,
        preferredMimeType := preferredMimeType, kind := preferredKind,
        source := selection.sourceApp }
      saveOffers P svc o selectionId preferredMimeType 0 selection.offers { s with db := db }

/-- Modelled from the spec: `ClipboardDatabase::transaction` is missing from the sources.
The index changes of the body are kept when the body returns `true` and the commit
succeeds, and are all undone otherwise; blob files written by the body stay on disk either
way. -/
def Store.transaction (st : Store) (commitOk : Bool)
    (body : OfferLoopState → Bool × OfferLoopState) (entry : ClipboardHistoryEntry) :
    Store × ClipboardHistoryEntry :=
  let (ok, s) := body { db := st, insertedEntry := entry }
  if ok && commitOk then (s.db, s.insertedEntry)
  else ({ st with blobs := s.db.blobs }, s.insertedEntry)

/-- The slot `ClipboardService::saveSelection`: the store after the call and the signals
emitted. -/
def saveSelection (P : Platform) (svc : ClipboardService) (o : Oracle) (st : Store)
    (selection : ClipboardSelection) : Store × List Signal :=
  if !svc.m_monitoring then (st, [])
  else
    let selection := sanitizeSelection P svc.m_autoPathToUri selection
    if isConcealedSelection P selection then (st, [])
    else if svc.m_ignorePasswords && isPasswordSelection selection then (st, [])
    else if isClearSelection selection then (st, [])
    else
      let preferredMimeType := getSelectionPreferredMimeType selection
      match selection.offers.find? (fun offer => offer.mimeType == preferredMimeType) with
      | none => (st, [])
      | some preferredOffer =>
        let preferredKind := getKind P preferredOffer
        if preferredKind == .Unknown then (st, [])
        else
          let selectionHash := QCryptographicHash.toHex (QCryptographicHash.md5 preferredOffer.data)
          if preferredKind == .Text && (QByteArray.trimmed preferredOffer.data).isEmpty then (st, [])
          else
            let (st', insertedEntry) := st.transaction o.commitOk
              (saveTransactionBody P svc o selection preferredMimeType preferredKind selectionHash)
              {}
            (st', [Signal.itemInserted insertedEntry])

/-- The row `dto` that the loop body of `saveSelection` hands to `insertOffer` for the offer
at position `i`. -/
def offerRow (P : Platform) (svc : ClipboardService) (o : Oracle) (selectionId : QString)
    (i : Nat) (offer : ClipboardDataOffer) : InsertClipboardOfferPayload :=
  let kind := getKind P offer
  let encryption : ClipboardEncryptionType :=
    if svc.m_encrypter.isSome then .Local else .None
  let dto : InsertClipboardOfferPayload := {
    id := o.offerId i, selectionId := selectionId, mimeType := offer.mimeType,
    textPreview := getOfferTextPreview P offer,
    md5sum := QCryptographicHash.toHex (QCryptographicHash.md5 offer.data),
    encryption := encryption, size := offer.data.length }
  if kind == .Link then
    let url := P.urlFromEncoded offer.data
    if QString.startsWith url.scheme "http" then { dto with urlHost := some url.host }
    else dto
  else dto

/-- The rows handed to `insertOffer` for the offers from position `i` on, in order. -/
def offerRows (P : Platform) (svc : ClipboardService) (o : Oracle) (selectionId : QString) :
    Nat → List ClipboardDataOffer → List InsertClipboardOfferPayload
  | _, [] => []
  | i, offer :: rest =>
    offerRow P svc o selectionId i offer :: offerRows P svc o selectionId (i + 1) rest

/-- What the loop body writes to the blob file of an offer: the bytes of the offer, or their
encryption when there is an encrypter (nothing when encryption fails). -/
def storedBytes (svc : ClipboardService) (data : QByteArray) : Option QByteArray :=
  match svc.m_encrypter with
  | some encrypter => encrypter.encrypt data
  | none => some data

/-! ## Write-back: payloads for the live clipboard -/

/-- One setter call on a `QMimeData` object. An image is kept as the bytes it was decoded
from, a URL as the text it was built from. -/
inductive MimeCall where
  | setData (mimeType : QString) (data : QByteArray)
  | setText (text : QString)
  | setHtml (html : QString)
  | setUrls (urls : List QString)
  | setImageData (image : QByteArray)
  deriving DecidableEq, Repr

/-- A `QMimeData` object, as the setter calls made on it since `new QMimeData`, in order. -/
abbrev QMimeData := List MimeCall

/-- The format a setter call writes: `setText` writes `text/plain`, `setHtml` writes
`text/html`, `setUrls` writes `text/uri-list`, `setImageData` writes
`application/x-qt-image`. -/
def MimeCall.format : MimeCall → QString
  | .setData mimeType _ => mimeType
  | .setText _ => "text/plain"
  | .setHtml _ => "text/html"
  | .setUrls _ => "text/uri-list"
  | .setImageData _ => "application/x-qt-image"

/-- The method `QMimeData::hasFormat`: setters add or replace a format and never remove
one. -/
def QMimeData.hasFormat (d : QMimeData) (mimeType : QString) : Bool :=
  d.any (fun call => call.format == mimeType)

/-- The method `QMimeData::hasImage`. -/
def QMimeData.hasImage (d : QMimeData) : Bool := QMimeData.hasFormat d "application/x-qt-image"

/-- The backend (`AbstractClipboardServer`), as far as write-back uses it. -/
structure AbstractClipboardServer where
  id : QString
  setClipboardContent : QMimeData → Bool

/-- The options of a copy (`Clipboard::CopyOptions`). -/
structure CopyOptions where
  concealed : Bool := false
  deriving DecidableEq, Repr

/-- The content variant `Clipboard::Content`. -/
inductive Content where
  | NoData
  | Html (html : QString) (text : Option QString)
  | File (path : QString)
  | Text (text : QString)
  | Selection (selection : ClipboardSelection)
  | SelectionRecordHandle (id : QString)
  deriving DecidableEq, Repr

/-- What a copy operation did: its return value, the payload it gave to
`setClipboardContent` when it called the backend, the store afterwards and the signals
emitted. -/
structure CopyOutcome where
  result : Bool
  handed : Option QMimeData
  store : Store
  signals : List Signal
  deriving DecidableEq, Repr

/-- The call `text.split(QRegularExpression("[\r\n]+"), Qt::SkipEmptyParts)`. -/
def QString.splitLines (text : QString) : List QString :=
  ((text.data.splitOnP (fun c => c == '\r' || c == '\n')).filter
    (fun part => !part.isEmpty)).map String.mk

/-- The method `QString::simplified`. -/
def QString.simplified (s : QString) : QString :=
  String.mk (List.intercalate [' ']
    ((s.data.splitOnP QChar.isSpace).filter (fun w => !w.isEmpty)))

/-- The method `QString::toHtmlEscaped`. -/
def QString.toHtmlEscaped (s : QString) : QString :=
  String.mk (s.data.flatMap (fun c =>
    if c == '<' then "&lt;".data
    else if c == '>' then "&gt;".data
    else if c == '&' then "&amp;".data
    else if c == '"' then "&quot;".data
    else [c]))

/-- Removal of every match of the regular expression `<[^>]*>`; the flag tells whether the
scan is inside a match. A `<` opens a match when some `>` follows it. -/
def removeTagsAux : Bool → List Char → List Char
  | _, [] => []
  | true, c :: cs => if c == '>' then removeTagsAux false cs else removeTagsAux true cs
  | false, c :: cs =>
    if c == '<' && cs.contains '>' then removeTagsAux true cs else c :: removeTagsAux false cs

/-- The call `text.remove(QRegularExpression("<[^>]*>"))`. -/
def QString.removeTags (s : QString) : QString := String.mk (removeTagsAux false s.data)

/-- The method `QStringList::join`. -/
def QString.join (sep : QString) (parts : List QString) : QString :=
  String.mk (List.intercalate sep.data (parts.map String.data))

/-- One digit of the base64 alphabet. -/
def base64Digit (n : Nat) : Char :=
  "ABCDEFGHIJKLMNOPQRSTUVWXYZabcdefghijklmnopqrstuvwxyz0123456789+/".data.getD n 'A'

/-- The method `QByteArray::toBase64`, as the characters of the result. -/
def toBase64 : QByteArray → List Char
  | a :: b :: c :: rest =>
    base64Digit (a / 4) :: base64Digit (a % 4 * 16 + b / 16) ::
      base64Digit (b % 16 * 4 + c / 64) :: base64Digit (c % 64) :: toBase64 rest
  | [a, b] =>
    [base64Digit (a / 4), base64Digit (a % 4 * 16 + b / 16), base64Digit (b % 16 * 4), '=']
  | [a] => [base64Digit (a / 4), base64Digit (a % 4 * 16), '=', '=']
  | [] => []

/-- The method `ClipboardService::copyQMimeData`. -/
def copyQMimeData (P : Platform) (server : AbstractClipboardServer) (st : Store)
    (data : QMimeData) (options : CopyOptions) : CopyOutcome :=
  let data := if options.concealed then data ++ [.setData P.CONCEALED_MIME_TYPE [49]] else data
  { result := server.setClipboardContent data, handed := some data, store := st, signals := [] }

/-- The method `ClipboardService::copyFile`. -/
def copyFile (P : Platform) (server : AbstractClipboardServer) (st : Store) (path : QString)
    (options : CopyOptions) : CopyOutcome :=
  copyQMimeData P server st [.setData "text/uri-list" (QString.toUtf8 ("file://" ++ path))] options

/-- The method `ClipboardService::copyHtml`. -/
def copyHtml (P : Platform) (server : AbstractClipboardServer) (st : Store) (html : QString)
    (text : Option QString) (options : CopyOptions) : CopyOutcome :=
  let mimeData : QMimeData := [.setData "text/html" (QString.toUtf8 html)]
  let mimeData := match text with
    | some text => mimeData ++ [.setData "text/plain" (QString.toUtf8 text)]
    | none => mimeData
  copyQMimeData P server st mimeData options

/-- The method `ClipboardService::copyText`. -/
def copyText (P : Platform) (server : AbstractClipboardServer) (st : Store) (text : QString)
    (options : CopyOptions) : CopyOutcome :=
  let mimeData : QMimeData := [.setData "text/plain" (QString.toUtf8 text)]
  let mimeData :=
    if options.concealed then mimeData ++ [.setData P.CONCEALED_MIME_TYPE [49]] else mimeData
  copyQMimeData P server st mimeData options

/-- The body of the loop over the offers in `copySelection`. -/
def copySelectionOffer (P : Platform) (mimeData : QMimeData) (offer : ClipboardDataOffer) :
    QMimeData :=
  if offer.mimeType == "application/x-qt-image" then mimeData
  else if QString.startsWith offer.mimeType "image/" && !QMimeData.hasImage mimeData then
    if !P.imageValid offer.data then mimeData ++ [.setData offer.mimeType offer.data]
    else mimeData ++ [.setData offer.mimeType offer.data, .setImageData offer.data]
  else if offer.mimeType == "text/uri-list" then
    let mimeData := mimeData ++ [.setData offer.mimeType offer.data]
    let uriData := QString.trimmed (P.fromUtf8 offer.data)
    let urls := QString.splitLines uriData
    if !urls.isEmpty then mimeData ++ [.setUrls urls] else mimeData
  else if P.isTextMimeType offer.mimeType then mimeData ++ [.setText (P.fromUtf8 offer.data)]
  else mimeData ++ [.setData offer.mimeType offer.data]

/-- The method `ClipboardService::copySelection`. -/
def copySelection (P : Platform) (server : AbstractClipboardServer) (st : Store)
    (selection : ClipboardSelection) (options : CopyOptions) : CopyOutcome :=
  if selection.offers.isEmpty then { result := false, handed := none, store := st, signals := [] }
  else copyQMimeData P server st (selection.offers.foldl (copySelectionOffer P) []) options

/-- The typed failures of `decryptOffer` (`OfferDecryptionError`). -/
inductive OfferDecryptionError where
  | DecryptionRequired
  | DecryptionFailed
  deriving DecidableEq, Repr

/-- The method `ClipboardService::decryptOffer`. -/
def decryptOffer (svc : ClipboardService) (data : QByteArray) (type : ClipboardEncryptionType) :
    Except OfferDecryptionError QByteArray :=
  match type with
  | .Local =>
    match svc.m_encrypter with
    | none => .error .DecryptionRequired
    | some encrypter =>
      match encrypter.decrypt data with
      | none => .error .DecryptionFailed
      | some decryption => .ok decryption
  | .None => .ok data

/-- Modelled from the spec: `ClipboardDatabase::findSelection` is missing from the sources.
It yields the offer rows of the selection with the given id, in the order they were
inserted, and nothing when no selection row has that id. -/
def Store.findSelection (st : Store) (id : QString) : Option (List InsertClipboardOfferPayload) :=
  if st.selections.any (fun row => row.id == id) then
    some (st.offers.filter (fun offer => offer.selectionId == id))
  else none

/-- Opening a file of the blob directory read-only and `readAll`; `none` when there is no
such file. -/
def Store.readBlob (st : Store) (name : QString) : Option QByteArray :=
  (st.blobs.find? (fun f => f.1 == name)).map Prod.snd

/-- The loop over the stored offers in `retrieveSelectionById`: an unreadable blob is
skipped, an undecryptable one ends the retrieval with nothing. -/
def retrieveOffers (svc : ClipboardService) (st : Store) :
    List InsertClipboardOfferPayload → List ClipboardDataOffer → Option (List ClipboardDataOffer)
  | [], populated => some populated
  | offer :: rest, populated =>
    match st.readBlob offer.id with
    | none => retrieveOffers svc st rest populated
    | some bytes =>
      match decryptOffer svc bytes offer.encryption with
      | .error _ => none
      | .ok data => retrieveOffers svc st rest (populated ++ [{ mimeType := offer.mimeType, data := data }])

/-- The method `ClipboardService::retrieveSelectionById`. -/
def retrieveSelectionById (svc : ClipboardService) (st : Store) (id : QString) :
    Option ClipboardSelection :=
  match st.findSelection id with
  | none => none
  | some offers =>
    match retrieveOffers svc st offers [] with
    | none => none
    | some populated => some { offers := populated }

/-- The method `ClipboardService::copySelectionRecord`; `now` is the clock of the
database. -/
def copySelectionRecord (P : Platform) (server : AbstractClipboardServer)
    (svc : ClipboardService) (now : Nat) (st : Store) (id : QString) (options : CopyOptions) :
    CopyOutcome :=
  match retrieveSelectionById svc st id with
  | none => { result := false, handed := none, store := st, signals := [] }
  | some selection =>
    let (st, bubbled) := st.tryBubbleUpSelection now id
    if !bubbled then { result := false, handed := none, store := st, signals := [] }
    else
      let out := copySelection P server st selection options
      { out with signals := Signal.selectionUpdated :: out.signals }

/-- The method `ClipboardService::copyContent`: the visitor over the content variant. -/
def copyContent (P : Platform) (server : AbstractClipboardServer) (svc : ClipboardService)
    (now : Nat) (st : Store) (content : Content) (options : CopyOptions) : CopyOutcome :=
  match content with
  | .NoData => { result := false, handed := none, store := st, signals := [] }
  | .Html html text => copyHtml P server st html text options
  | .File path => copyFile P server st path options
  | .Text text => copyText P server st text options
  | .Selection selection => copySelection P server st selection options
  | .SelectionRecordHandle id => copySelectionRecord P server svc now st id options

/-- The variables of one selection in the first pass of `buildCompositeSelection`, with
the list `fileUris` shared by all selections. -/
structure SelectionScan where
  selectionText : QString := ""
  selectionHtml : QString := ""
  selectionImageData : QByteArray := []
  selectionImageMime : QString := ""
  selectionFileUri : QString := ""
  fileUris : List QString

/-- The body of the loop over the offers of one selection in `buildCompositeSelection`. -/
def scanOffer (P : Platform) (s : SelectionScan) (offer : ClipboardDataOffer) : SelectionScan :=
  if offer.mimeType == "text/uri-list" && !offer.data.isEmpty then
    let uriData := QString.trimmed (P.fromUtf8 offer.data)
    (QString.splitLines uriData).foldl (fun s uri =>
      if QString.startsWith uri "file://" then
        { s with selectionFileUri := uri, fileUris := s.fileUris ++ [uri] }
      else s) s
  else if P.isTextMimeType offer.mimeType && !offer.data.isEmpty then
    { s with selectionText := P.fromUtf8 offer.data }
  else if offer.mimeType == "text/html" && !offer.data.isEmpty then
    { s with selectionHtml := P.fromUtf8 offer.data }
  else if QString.startsWith offer.mimeType "image/" && !offer.data.isEmpty then
    { s with selectionImageData := offer.data, selectionImageMime := offer.mimeType }
  else s

/-- The variables of `buildCompositeSelection` that live across selections. The counter
`imageCount` is an `int` in the source; it is not reduced modulo 2^32 here. -/
structure CompositeState where
  combinedText : QString
  combinedHtml : QString
  fileUris : List QString
  imageCount : Nat
  singleImageData : QByteArray
  singleImageMime : QString

/-- The body of the loop over the selections in `buildCompositeSelection`. -/
def compositeStep (P : Platform) (c : CompositeState) (sel : ClipboardSelection) :
    CompositeState :=
  let s := sel.offers.foldl (scanOffer P) { fileUris := c.fileUris }
  let c := { c with fileUris := s.fileUris }
  let c :=
    if !s.selectionImageData.isEmpty then
      let base64 := String.mk (toBase64 s.selectionImageData)
      let c := { c with
        combinedHtml := c.combinedHtml ++ "<img src=\"data:" ++ s.selectionImageMime ++
          ";base64," ++ base64 ++ "\" style=\"max-width:100%;\"/>",
        imageCount := c.imageCount + 1 }
      if c.imageCount == 1 then
        { c with singleImageData := s.selectionImageData, singleImageMime := s.selectionImageMime }
      else c
    else c
  if !s.selectionText.data.isEmpty && !QString.startsWith s.selectionText "file://" then
    let combinedText := if !c.combinedText.data.isEmpty then c.combinedText ++ "\n" else c.combinedText
    { c with
      combinedText := combinedText ++ s.selectionText,
      combinedHtml := c.combinedHtml ++ "<p>" ++ QString.toHtmlEscaped s.selectionText ++ "</p>" }
  else if !s.selectionHtml.data.isEmpty then
    let c := { c with combinedHtml := c.combinedHtml ++ s.selectionHtml }
    let strippedText := QString.simplified (QString.removeTags s.selectionHtml)
    if !strippedText.data.isEmpty then
      let combinedText := if !c.combinedText.data.isEmpty then c.combinedText ++ "\n" else c.combinedText
      { c with combinedText := combinedText ++ strippedText }
    else c
  else c

/-- The method `ClipboardService::buildCompositeSelection`. -/
def buildCompositeSelection (P : Platform) (selections : List ClipboardSelection) : QMimeData :=
  let c := selections.foldl (compositeStep P)
    { combinedText := "", combinedHtml := "<div style=\"font-family: sans-serif;\">",
      fileUris := [], imageCount := 0, singleImageData := [], singleImageMime := "" }
  let combinedHtml := c.combinedHtml ++ "</div>"
  let composite : QMimeData := []
  let composite :=
    if !c.fileUris.isEmpty then
      composite ++ [.setData "text/uri-list" (QString.toUtf8 (QString.join "\r\n" c.fileUris)),
        .setUrls c.fileUris]
    else composite
  let composite :=
    if !c.combinedText.data.isEmpty then composite ++ [.setText (QString.trimmed c.combinedText)]
    else if !c.fileUris.isEmpty then composite ++ [.setText (QString.join "\n" c.fileUris)]
    else composite
  let composite := composite ++ [.setHtml combinedHtml]
  if c.imageCount == 1 && c.combinedText.data.isEmpty && selections.length == 1 then
    if P.imageValid c.singleImageData then
      composite ++ [.setImageData c.singleImageData, .setData c.singleImageMime c.singleImageData]
    else composite
  else composite

/-- The state of the loop over the selections in `buildCompositeSelection` when it ends. -/
def compositeScan (P : Platform) (selections : List ClipboardSelection) : CompositeState :=
  selections.foldl (compositeStep P)
    { combinedText := "", combinedHtml := "<div style=\"font-family: sans-serif;\">",
      fileUris := [], imageCount := 0, singleImageData := [], singleImageMime := "" }

/-- The loop over the ids in `copyMultipleSelections`: the selections that could be
retrieved, in the order of the ids. -/
def retrieveAll (svc : ClipboardService) (st : Store) (ids : List QString) :
    List ClipboardSelection :=
  ids.filterMap (retrieveSelectionById svc st)

/-- The method `ClipboardService::copyMultipleSelections`. -/
def copyMultipleSelections (P : Platform) (server : AbstractClipboardServer)
    (svc : ClipboardService) (st : Store) (ids : List QString) (options : CopyOptions) :
    CopyOutcome :=
  let selections := retrieveAll svc st ids
  if selections.isEmpty then { result := false, handed := none, store := st, signals := [] }
  else copyQMimeData P server st (buildCompositeSelection P selections) options

/-! ## Monitoring life cycle -/

/-- A life-cycle call on the backend (`m_clipboardServer`). -/
inductive ServerCall where
  | start
  | stop
  | isAlive
  deriving DecidableEq, Repr

/-- What the backend answers to the life-cycle calls made during one call of the service;
each is made at most once. The code of the backends is outside the sources. -/
structure ServerReplies where
  start : Bool
  stop : Bool
  isAlive : Bool
  deriving DecidableEq, Repr

/-- One line written with `qInfo()` or `qWarning()`: the text before the backend id. -/
inductive LogLine where
  | info (text : QString)
  | warning (text : QString)
  deriving DecidableEq, Repr

/-- What a life-cycle operation did: the service afterwards, the backend calls made, in
order, the signals emitted and the lines logged. -/
structure LifecycleOutcome where
  service : ClipboardService
  calls : List ServerCall
  signals : List Signal
  log : List LogLine

/-- The method `ClipboardService::setMonitoring`. -/
def setMonitoring (svc : ClipboardService) (replies : ServerReplies) (value : Bool) :
    LifecycleOutcome :=
  if svc.m_monitoring == value then { service := svc, calls := [], signals := [], log := [] }
  else
    let (calls, log) :=
      if value then
        ([ServerCall.start],
          [LogLine.info "Starting clipboard server",
            if replies.start then LogLine.info "started successfully."
            else LogLine.warning "Failed to start clipboard server"])
      else
        ([ServerCall.stop],
          [LogLine.info "Stopping clipboard server",
            if replies.stop then LogLine.info "stopped successfully."
            else LogLine.warning "Failed to stop clipboard server"])
    { service := { svc with m_monitoring := value }, calls := calls,
      signals := [Signal.monitoringChanged value], log := log }

/-- The method `ClipboardService::monitoring`. -/
def monitoring (svc : ClipboardService) : Bool := svc.m_monitoring

/-- The slot `ClipboardService::checkServerHealth`, one cycle of the health-check timer. -/
def checkServerHealth (svc : ClipboardService) (replies : ServerReplies) : LifecycleOutcome :=
  if !svc.m_monitoring then { service := svc, calls := [], signals := [], log := [] }
  else if !replies.isAlive then
    { service := svc, calls := [ServerCall.isAlive, ServerCall.stop, ServerCall.start],
      signals := [],
      log := [LogLine.warning "is not alive, attempting restart...",
        if replies.start then LogLine.info "restarted successfully."
        else LogLine.warning "Failed to restart clipboard server"] }
  else { service := svc, calls := [ServerCall.isAlive], signals := [], log := [] }

/-! ## Single-offer retrieval and removal -/

/-- Modelled from the spec: `ClipboardDatabase::findPreferredOffer` is missing from the
sources. It yields the offer row of the selection whose MIME type is the preferred MIME
type recorded on the selection row, and nothing when there is no such selection or offer. -/
def Store.findPreferredOffer (st : Store) (selectionId : QString) :
    Option InsertClipboardOfferPayload :=
  match st.selections.find? (fun row => row.id == selectionId) with
  | none => none
  | some row =>
    st.offers.find? (fun offer =>
      offer.selectionId == selectionId && offer.mimeType == row.preferredMimeType)

/-- The method `ClipboardService::getMainOfferData`. The statement `return {};` of a
function that returns `std::expected<QByteArray, OfferDecryptionError>` yields a value, the
empty byte array, not an error. -/
def getMainOfferData (svc : ClipboardService) (st : Store) (selectionId : QString) :
    Except OfferDecryptionError QByteArray :=
  match st.findPreferredOffer selectionId with
  | none => .ok []
  | some offer =>
    match st.readBlob offer.id with
    | none => .ok []
    | some bytes => decryptOffer svc bytes offer.encryption

/-- Modelled from the spec: `ClipboardDatabase::removeSelection` is missing from the sources.
It deletes the selection row, its offer rows and its full-text entries, and returns the
ids of the offer rows it deleted. -/
def Store.removeSelection (st : Store) (selectionId : QString) : Store × List QString :=
  ({ st with
      selections := st.selections.filter (fun row => row.id != selectionId),
      offers := st.offers.filter (fun offer => offer.selectionId != selectionId),
      indexed := st.indexed.filter (fun entry => entry.1 != selectionId) },
    (st.offers.filter (fun offer => offer.selectionId == selectionId)).map
      InsertClipboardOfferPayload.id)

/-- The call `fs::remove` on a file of the blob directory; a missing file is no error. -/
def Store.removeBlob (st : Store) (name : QString) : Store :=
  { st with blobs := st.blobs.filter (fun f => f.1 != name) }

/-- The method `ClipboardService::removeSelection`: its return value, the store afterwards
and the signals emitted. -/
def removeSelection (st : Store) (selectionId : QString) : Bool × Store × List Signal :=
  let (db, offers) := st.removeSelection selectionId
  (true, offers.foldl (fun files offer => files.removeBlob offer) db,
    [Signal.selectionRemoved selectionId])

/-! ## Paste -/

/-- The window manager (`WindowManager`), as far as `pasteContent` asks it: the answer of
`provider()->supportsPaste()`. -/
structure WindowManager where
  supportsPaste : Bool
  deriving DecidableEq, Repr

/-- What `pasteContent` did: the copy it made, its return value, and the delays of the
single-shot timers it armed. The callback of such a timer asks the window manager to send
the paste keystroke to the focused window. -/
structure PasteOutcome where
  copy : CopyOutcome
  result : Bool
  timers : List Nat
  deriving DecidableEq, Repr

/-- The method `ClipboardService::pasteContent`; `pasteDelay` is the value of
`Environment::pasteDelay()`. -/
def pasteContent (P : Platform) (server : AbstractClipboardServer) (svc : ClipboardService)
    (wm : WindowManager) (pasteDelay : Nat) (now : Nat) (st : Store) (content : Content)
    (options : CopyOptions) : PasteOutcome :=
  let copy := copyContent P server svc now st content options
  if !copy.result then { copy := copy, result := false, timers := [] }
  else if !wm.supportsPaste then { copy := copy, result := false, timers := [] }
  else { copy := copy, result := true, timers := [pasteDelay] }

/-! ## Multi-selection of the history view -/

/-- The member `m_multiSelectedIds` of `ClipboardHistoryModel`. -/
structure ClipboardHistoryModel where
  m_multiSelectedIds : List QString
  deriving DecidableEq, Repr

/-- The method `ClipboardHistoryModel::setMultiSelectedIds`. -/
def ClipboardHistoryModel.setMultiSelectedIds (_m : ClipboardHistoryModel) (ids : List QString) :
    ClipboardHistoryModel :=
  { m_multiSelectedIds := ids }

/-- The method `ClipboardHistoryModel::isMultiSelected`. -/
def ClipboardHistoryModel.isMultiSelected (m : ClipboardHistoryModel) (id : QString) : Bool :=
  m.m_multiSelectedIds.contains id

/-- The members of `ClipboardHistoryView` that multi-selection reads and writes;
`leftText` is the left text of the status toolbar. -/
structure ClipboardHistoryView where
  m_selectedIds : List QString
  m_multiSelectMode : Bool
  m_model : ClipboardHistoryModel
  leftText : QString
  deriving DecidableEq, Repr

/-- The method `ClipboardHistoryView::updateMultiSelectStatusText`. -/
def updateMultiSelectStatusText (v : ClipboardHistoryView) : ClipboardHistoryView :=
  if v.m_multiSelectMode then
    if v.m_selectedIds.isEmpty then
      { v with leftText := "Multi-select: Press Space to select items" }
    else
      { v with leftText :=
          "Multi-select: " ++ toString v.m_selectedIds.length ++ " item(s) selected" }
  else v

/-- The method `ClipboardHistoryView::toggleItemSelection`: `std::find`, then `erase` of
the element found or `push_back`. -/
def toggleItemSelection (v : ClipboardHistoryView) (id : QString) : ClipboardHistoryView :=
  let ids :=
    if v.m_selectedIds.contains id then v.m_selectedIds.erase id else v.m_selectedIds ++ [id]
  { v with m_selectedIds := ids, m_model := v.m_model.setMultiSelectedIds ids }

/-- The method `ClipboardHistoryView::isItemSelected`. -/
def isItemSelected (v : ClipboardHistoryView) (id : QString) : Bool :=
  v.m_selectedIds.contains id

/-- The method `ClipboardHistoryView::clearMultiSelection`. -/
def clearMultiSelection (v : ClipboardHistoryView) : ClipboardHistoryView :=
  let v := updateMultiSelectStatusText { v with m_selectedIds := [] }
  { v with m_model := v.m_model.setMultiSelectedIds v.m_selectedIds }

/-- One call on the multi-selection of the view. -/
inductive SelectionCall where
  | toggle (id : QString)
  | clear
  deriving DecidableEq, Repr

/-- The view after one call. -/
def SelectionCall.apply (v : ClipboardHistoryView) : SelectionCall → ClipboardHistoryView
  | .toggle id => toggleItemSelection v id
  | .clear => clearMultiSelection v

/-- The view after a sequence of calls, made in list order. -/
def runCalls (v : ClipboardHistoryView) (calls : List SelectionCall) : ClipboardHistoryView :=
  calls.foldl SelectionCall.apply v

/-! ## The claims in the words of the specification -/

/-- The offer `saveSelection` takes as the preferred one (`preferredOfferIt`): the first
offer whose MIME type is the preferred MIME type. -/
def preferredOffer (selection : ClipboardSelection) : Option ClipboardDataOffer :=
  selection.offers.find? (fun offer => offer.mimeType == getSelectionPreferredMimeType selection)

/-- The first four stages of the priority order, as the specification words them, over a
list of candidate offers: the first type of the fixed text list that some offer has; else
the type of the first image offer; else `text/html` if offered; else the type of the first
offer that is no `text/_moz_html` alias. -/
def priorityStages (offers : List ClipboardDataOffer) : Option QString :=
  (plainTextMimeTypes.find? (fun mime => offers.any (fun offer => offer.mimeType == mime))) <|>
  ((offers.find? (fun offer => QString.startsWith offer.mimeType "image/")).map
    ClipboardDataOffer.mimeType) <|>
  (if offers.any (fun offer => offer.mimeType == "text/html") then some "text/html" else none) <|>
  ((offers.find? (fun offer => !QString.startsWith offer.mimeType "text/_moz_html")).map
    ClipboardDataOffer.mimeType)

/-- The preferred MIME type as the specification states it: the priority stages over all
offers, else the first offer. -/
def preferredBySpec (offers : List ClipboardDataOffer) : Option QString :=
  priorityStages offers <|> offers.head?.map ClipboardDataOffer.mimeType

/-- The preferred MIME type, amended: the priority stages look only at offers with
non-empty data; the last resort is the first offer, empty or not. -/
def preferredAmended (offers : List ClipboardDataOffer) : Option QString :=
  priorityStages (offers.filter (fun offer => !offer.data.isEmpty)) <|>
    offers.head?.map ClipboardDataOffer.mimeType

/-- Step 2 of ingestion in the words of the specification: whether a sanitized selection
is rejected. -/
def rejectedByStep2 (P : Platform) (ignorePasswords : Bool) (selection : ClipboardSelection) :
    Bool :=
  selection.offers.all (fun offer => offer.data.length == 0) ||
  selection.offers.any (fun offer => offer.mimeType == P.CONCEALED_MIME_TYPE) ||
  (ignorePasswords &&
    selection.offers.any (fun offer => offer.mimeType == "x-kde-passwordManagerHint")) ||
  (match preferredOffer selection with
    | some offer =>
      getKind P offer == .Unknown ||
        (getKind P offer == .Text && (QByteArray.trimmed offer.data).isEmpty)
    | none => false)

/-- Whether a selection offers every format of a payload: what a backend reports after the
payload was put on the live clipboard. -/
def offersPayload (selection : ClipboardSelection) (payload : QMimeData) : Bool :=
  payload.all (fun call => selection.offers.any (fun offer => offer.mimeType == call.format))

/-- The offer `retrieveSelectionById` builds from a stored offer row whose blob can be read
and decrypted; nothing for a row without such a blob. -/
def readableOffer (svc : ClipboardService) (st : Store) (row : InsertClipboardOfferPayload) :
    Option ClipboardDataOffer :=
  match st.readBlob row.id with
  | none => none
  | some bytes =>
    match decryptOffer svc bytes row.encryption with
    | .ok data => some { mimeType := row.mimeType, data := data }
    | .error _ => none

/-- The texts `t_1..t_n` of a list of selections: the decoded data of their offers, in
selection and offer order. -/
def offeredTexts (P : Platform) (selections : List ClipboardSelection) : List QString :=
  (selections.flatMap ClipboardSelection.offers).map (fun offer => P.fromUtf8 offer.data)

/-- The paragraph fragments `<p>escaped t</p>` of a list of texts, one after the other. -/
def paragraphs (texts : List QString) : QString :=
  String.join (texts.map (fun t => "<p>" ++ QString.toHtmlEscaped t ++ "</p>"))

/-- The `file://` URIs found in one offer: the lines of a non-empty `text/uri-list` offer
that start with `file://`. -/
def offerFileUris (P : Platform) (offer : ClipboardDataOffer) : List QString :=
  if offer.mimeType == "text/uri-list" && !offer.data.isEmpty then
    (QString.splitLines (QString.trimmed (P.fromUtf8 offer.data))).filter
      (fun uri => QString.startsWith uri "file://")
  else []

/-- The `file://` URIs found in a list of selections, in selection and offer order. -/
def fileUrisOf (P : Platform) (selections : List ClipboardSelection) : List QString :=
  selections.flatMap (fun sel => sel.offers.flatMap (offerFileUris P))

/-- An image offer as the composite takes it: non-empty data under an `image/` type that
is no text type. -/
def isImageOffer (P : Platform) (offer : ClipboardDataOffer) : Bool :=
  QString.startsWith offer.mimeType "image/" && !offer.data.isEmpty &&
    !P.isTextMimeType offer.mimeType

/-- The image offer of a selection that the composite keeps: the last one. -/
def keptImage (P : Platform) (sel : ClipboardSelection) : Option ClipboardDataOffer :=
  (sel.offers.filter (isImageOffer P)).getLast?

/-- A text offer as the composite takes it: non-empty data under a text type other than
`text/uri-list`. -/
def isTextOffer (P : Platform) (offer : ClipboardDataOffer) : Bool :=
  P.isTextMimeType offer.mimeType && !offer.data.isEmpty && offer.mimeType != "text/uri-list"

/-- The text of a selection that the composite keeps: the decoded data of its last text
offer, the empty text when it has none. -/
def keptText (P : Platform) (sel : ClipboardSelection) : QString :=
  (((sel.offers.filter (isTextOffer P)).getLast?).map (fun offer => P.fromUtf8 offer.data)).getD ""

/-- An HTML offer as the composite takes it: non-empty data under `text/html`, when that
is no text type. -/
def isHtmlOffer (P : Platform) (offer : ClipboardDataOffer) : Bool :=
  offer.mimeType == "text/html" && !offer.data.isEmpty && !P.isTextMimeType offer.mimeType

/-- The HTML of a selection that the composite keeps: the decoded data of its last HTML
offer, the empty text when it has none. -/
def keptHtml (P : Platform) (sel : ClipboardSelection) : QString :=
  (((sel.offers.filter (isHtmlOffer P)).getLast?).map (fun offer => P.fromUtf8 offer.data)).getD ""

/-- Whether the text and HTML offers of a selection give the composite a plain text: the
kept text is not empty and does not start with `file://`, or the kept HTML is not empty
and leaves text once its tags are removed and its white space is simplified. -/
def contributesText (P : Platform) (sel : ClipboardSelection) : Bool :=
  (!(keptText P sel).data.isEmpty && !QString.startsWith (keptText P sel) "file://") ||
  (!(keptHtml P sel).data.isEmpty &&
    !(QString.simplified (QString.removeTags (keptHtml P sel))).data.isEmpty)

/-- How often an id was toggled since the last clear, over a sequence of calls. -/
def togglesSinceClear (calls : List SelectionCall) (id : QString) : Nat :=
  calls.foldl (fun n call =>
    match call with
    | .clear => 0
    | .toggle other => if other == id then n + 1 else n) 0

/-! ## Concrete inputs -/

/-- Seven-bit decoding: each byte below 128 is its ASCII character, any other byte reads
as U+FFFD. On ASCII input this is `QString::fromUtf8`. -/
def asciiFromUtf8 (b : QByteArray) : QString :=
  String.mk (b.map (fun x => if x < 128 then Char.ofNat x else Char.ofNat 0xfffd))

/-- A platform with two regular files: the PNG image `/tmp/shot.png` and the file `b` in
the directory `/a:`. -/
def demoPlatform : Platform where
  isTextMimeType m := m == "text/plain" || m == "text/plain;charset=utf-8" || m == "UTF8_STRING"
  CONCEALED_MIME_TYPE := "vicinae/concealed"
  fromUtf8 := asciiFromUtf8
  fsExists p := p == "/tmp/shot.png" || p == "/a://b" || p == "/a:" || p == "/tmp"
  fsIsRegularFile p := p == "/tmp/shot.png" || p == "/a://b"
  mimeTypeForFile p := if p == "/tmp/shot.png" then "image/png" else "application/octet-stream"
  readFile p := if p == "/tmp/shot.png" then some [0x89, 0x50, 0x4e, 0x47] else
    if p == "/a://b" then some [] else none
  urlIsLocalFile u := QString.startsWith u "file:"
  urlFromEncoded b :=
    if QString.startsWith (asciiFromUtf8 b) "file:" then ⟨true, "file", ""⟩
    else if QString.startsWith (asciiFromUtf8 b) "https://" then ⟨false, "https", "example.org"⟩
    else ⟨false, "", ""⟩
  imageSize _ := none
  imageValid _ := false

/-- A selection with the single offer `text/plain` holding the path `/tmp/shot.png`. -/
def pathSelection : ClipboardSelection :=
  { offers := [{ mimeType := "text/plain", data := QString.toUtf8 "/tmp/shot.png" }] }

/-- A selection offering `text/plain` twice, with different bytes. -/
def twiceSelection : ClipboardSelection :=
  { offers := [{ mimeType := "text/plain", data := [120] }, { mimeType := "text/plain", data := [121] }] }

/-- A selection with the single offer `text/plain` holding the path `/a://b`. -/
def colonSelection : ClipboardSelection :=
  { offers := [{ mimeType := "text/plain", data := QString.toUtf8 "/a://b" }] }

/-- The offers `text/plain: "x"` and `text/uri-list: "file:///y"`. -/
def uriAndTextSelection : ClipboardSelection :=
  { offers := [{ mimeType := "text/plain", data := QString.toUtf8 "x" },
               { mimeType := "text/uri-list", data := QString.toUtf8 "file:///y" }] }

/-- An empty `text/plain` offer next to a one-byte `image/png` offer. -/
def emptyTextSelection : ClipboardSelection :=
  { offers := [{ mimeType := "text/plain", data := [] }, { mimeType := "image/png", data := [1] }] }

/-- A monitoring service that ignores passwords, converts paths and does not encrypt. -/
def demoService : ClipboardService :=
  { m_monitoring := true, m_ignorePasswords := true, m_autoPathToUri := true,
    m_recordAllOffers := false, m_encrypter := none }

/-- The same service while stopped. -/
def stoppedService : ClipboardService := { demoService with m_monitoring := false }

/-- A run in which every fallible call succeeds, at time `now`, drawing identifiers that
start with `tag`. -/
def demoOracle (now : Nat) (tag : QString) : Oracle :=
  { now := now, selectionId := tag ++ "-selection",
    offerId := fun i => tag ++ "-offer-" ++ String.mk [Char.ofNat (97 + i)],
    insertSelectionOk := true, indexOk := fun _ => true, insertOfferOk := fun _ => true,
    openOk := fun _ => true, written := fun _ bytes => bytes, commitOk := true }

/-- A store with no rows and no blobs. -/
def emptyStore : Store := { selections := [], offers := [], indexed := [], blobs := [] }

/-- The single offer `text/plain: "a"`. -/
def letterSelection : ClipboardSelection :=
  { offers := [{ mimeType := "text/plain", data := [97] }] }

/-- The offers `text/html: "<b>a</b>"` and `text/plain: "a"`. -/
def letterHtmlSelection : ClipboardSelection :=
  { offers := [{ mimeType := "text/html", data := QString.toUtf8 "<b>a</b>" },
               { mimeType := "text/plain", data := [97] }] }

/-- A clipboard clear: one `text/plain` offer without data. -/
def clearSelection : ClipboardSelection :=
  { offers := [{ mimeType := "text/plain", data := [] }] }

/-- A backend that accepts every payload. -/
def demoServer : AbstractClipboardServer := { id := "x11", setClipboardContent := fun _ => true }

/-- The selection a backend reports after the concealed copy of the text `pw`. -/
def concealedSelection : ClipboardSelection :=
  { offers := [{ mimeType := "text/plain", data := QString.toUtf8 "pw" },
               { mimeType := "vicinae/concealed", data := [49] }] }

/-- A backend that is down and whose `start()` fails. -/
def failingStart : ServerReplies := { start := false, stop := true, isAlive := false }

/-- An encrypter that flips bits of every byte; decryption undoes encryption. -/
def xorEncrypter : ClipboardEncrypter :=
  { encrypt := fun b => some (b.map (fun x => x ^^^ 90)),
    decrypt := fun b => some (b.map (fun x => x ^^^ 90)) }

/-- An encrypter whose key does not decrypt anything. -/
def wrongKeyEncrypter : ClipboardEncrypter :=
  { encrypt := fun b => some (b.map (fun x => x ^^^ 90)), decrypt := fun _ => none }

/-- The monitoring service with encryption enabled. -/
def encryptingService : ClipboardService := { demoService with m_encrypter := some xorEncrypter }

/-- The run `demoOracle 100 "first"`, except that the blob file of the first offer cannot
be opened for writing. -/
def blockedOracle : Oracle := { demoOracle 100 "first" with openOk := fun i => i != 0 }

/-- A store holding the selection `s` with two offer rows; the blob of the first row is
missing from the blob directory. -/
def partialStore : Store :=
  { selections := [
      { id := "s", offerCount := 2, hash := "h", preferredMimeType := "text/plain",
        kind := ClipboardOfferKind.Text, source := none, updatedAt := 1, pinnedAt := 0,
        keywords := "" }],
    offers := [
      { id := "offer-a", selectionId := "s", mimeType := "text/html", textPreview := "",
        md5sum := "", encryption := ClipboardEncryptionType.None, size := 3 },
      { id := "offer-b", selectionId := "s", mimeType := "text/plain", textPreview := "a",
        md5sum := "", encryption := ClipboardEncryptionType.None, size := 1 }],
    indexed := [],
    blobs := [("offer-b", [97])] }

/-- The store `partialStore` after the last blob file was lost. -/
def blobless : Store := { partialStore with blobs := [] }

/-- The run `demoOracle 100 "first"`, except that the commit of the transaction fails. -/
def refusedCommit : Oracle := { demoOracle 100 "first" with commitOk := false }

/-- The run `demoOracle 100 "first"`, except that the row of the second offer cannot be
inserted. -/
def rejectedOffer : Oracle := { demoOracle 100 "first" with insertOfferOk := fun i => i != 1 }

/-- The view when it opens: nothing selected. -/
def emptyView : ClipboardHistoryView :=
  { m_selectedIds := [], m_multiSelectMode := false, m_model := { m_multiSelectedIds := [] },
    leftText := "" }

/-- A window manager that cannot paste. -/
def noPasteManager : WindowManager := { supportsPaste := false }

/-- A window manager that can paste. -/
def pasteManager : WindowManager := { supportsPaste := true }

/-- The decoder `QString::fromUtf8`: well-formed sequences of one to four bytes decode to
their character; any byte that does not start one decodes to U+FFFD and decoding goes on
at the next byte. The first argument bounds the number of steps. -/
def decodeUtf8 : Nat → QByteArray → List Char
  | 0, _ => []
  | _ + 1, [] => []
  | fuel + 1, a :: rest =>
    if a < 0x80 then Char.ofNat a :: decodeUtf8 fuel rest
    else if 0xc2 ≤ a && a < 0xe0 then
      match rest with
      | b :: rest2 =>
        if 0x80 ≤ b && b < 0xc0 then
          Char.ofNat ((a - 0xc0) * 64 + (b - 0x80)) :: decodeUtf8 fuel rest2
        else Char.ofNat 0xfffd :: decodeUtf8 fuel rest
      | [] => [Char.ofNat 0xfffd]
    else if 0xe0 ≤ a && a < 0xf0 then
      match rest with
      | b :: c :: rest3 =>
        let v := (a - 0xe0) * 4096 + (b - 0x80) * 64 + (c - 0x80)
        if 0x80 ≤ b && b < 0xc0 && 0x80 ≤ c && c < 0xc0 && 0x800 ≤ v &&
            !(0xd800 ≤ v && v < 0xe000) then
          Char.ofNat v :: decodeUtf8 fuel rest3
        else Char.ofNat 0xfffd :: decodeUtf8 fuel rest
      | _ => Char.ofNat 0xfffd :: decodeUtf8 fuel rest
    else if 0xf0 ≤ a && a < 0xf5 then
      match rest with
      | b :: c :: d :: rest4 =>
        let v := (a - 0xf0) * 262144 + (b - 0x80) * 4096 + (c - 0x80) * 64 + (d - 0x80)
        if 0x80 ≤ b && b < 0xc0 && 0x80 ≤ c && c < 0xc0 && 0x80 ≤ d && d < 0xc0 &&
            0x10000 ≤ v && v < 0x110000 then
          Char.ofNat v :: decodeUtf8 fuel rest4
        else Char.ofNat 0xfffd :: decodeUtf8 fuel rest
      | _ => Char.ofNat 0xfffd :: decodeUtf8 fuel rest
    else Char.ofNat 0xfffd :: decodeUtf8 fuel rest

/-- The platform `demoPlatform` with the UTF-8 decoder in place of the seven-bit one. -/
def utf8Platform : Platform :=
  { demoPlatform with fromUtf8 := fun b => String.mk (decodeUtf8 b.length b) }

/-- A `text/plain` offer holding thirty times the letter `é` (two bytes each). -/
def accentedOffer : ClipboardDataOffer :=
  { mimeType := "text/plain", data := (List.replicate 30 [0xc3, 0xa9]).flatten }

/-- A `text/plain` offer holding forty-nine times the letter `a` and then the letter `é`:
its fiftieth and fifty-first byte are the two bytes of `é`. -/
def cutOffer : ClipboardDataOffer :=
  { mimeType := "text/plain", data := List.replicate 49 97 ++ [0xc3, 0xa9] }

/-- The platform `demoPlatform` on which `httpx://` URLs parse as well, with the scheme
`httpx`. -/
def schemePlatform : Platform :=
  { demoPlatform with
    urlFromEncoded := fun b =>
      if QString.startsWith (asciiFromUtf8 b) "httpx://" then ⟨false, "httpx", "example.org"⟩
      else demoPlatform.urlFromEncoded b }

/-- A selection with the single offer `text/plain: "httpx://example.org"`. -/
def httpxSelection : ClipboardSelection :=
  { offers := [{ mimeType := "text/plain", data := QString.toUtf8 "httpx://example.org" }] }

/-- A selection with the single offer `text/plain: "https://example.org"`. -/
def httpsSelection : ClipboardSelection :=
  { offers := [{ mimeType := "text/plain", data := QString.toUtf8 "https://example.org" }] }

/-- Four offers of 2^30 bytes each: 2^32 bytes in all. -/
def gigabytesSelection : ClipboardSelection :=
  { offers := [{ mimeType := "application/octet-stream", data := List.replicate 1073741824 0 },
               { mimeType := "application/octet-stream", data := List.replicate 1073741824 0 },
               { mimeType := "application/octet-stream", data := List.replicate 1073741824 0 },
               { mimeType := "application/octet-stream", data := List.replicate 1073741824 0 }] }

/-- The platform `demoPlatform` on which the bytes `[1]` and `[2]` decode to valid
images. -/
def imagePlatform : Platform :=
  { demoPlatform with imageValid := fun b => b == [1] || b == [2] }

/-- One selection offering the same image as `image/png` and as `image/jpeg`. -/
def twoFormatsSelection : ClipboardSelection :=
  { offers := [{ mimeType := "image/png", data := [1] },
               { mimeType := "image/jpeg", data := [2] }] }

/-- One selection offering the single image `image/png`, with bytes that do not decode. -/
def brokenImageSelection : ClipboardSelection :=
  { offers := [{ mimeType := "image/png", data := [3] }] }

/-- The single offer `text/plain: " a"`, a letter after a blank. -/
def indentedSelection : ClipboardSelection :=
  { offers := [{ mimeType := "text/plain", data := [32, 97] }] }

/-- The single offer `text/plain: "b"`. -/
def secondLetterSelection : ClipboardSelection :=
  { offers := [{ mimeType := "text/plain", data := [98] }] }

/-- A `text/uri-list` offer with two file URIs around a web URL, next to an image. -/
def filesSelection : ClipboardSelection :=
  { offers := [{ mimeType := "text/uri-list",
                 data := QString.toUtf8 "file:///x\r\nhttps://example.org\r\nfile:///y" },
               { mimeType := "image/png", data := [1] }] }

/-- One selection offering an image and, as `text/html`, the word `x` in bold. -/
def imageAndHtmlSelection : ClipboardSelection :=
  { offers := [{ mimeType := "image/png", data := [1] },
               { mimeType := "text/html", data := QString.toUtf8 "<b>x</b>" }] }

/-- One selection offering an image and, as `text/html`, a line break and nothing else. -/
def imageAndTagSelection : ClipboardSelection :=
  { offers := [{ mimeType := "image/png", data := [1] },
               { mimeType := "text/html", data := QString.toUtf8 "<br>" }] }
/-! ## Sanitizer -/

theorem sortOffers_singleton (x : ClipboardDataOffer) : sortOffers [x] = [x] := rfl

theorem uniqueOffers_singleton (eq : ClipboardDataOffer → ClipboardDataOffer → Bool)
    (x : ClipboardDataOffer) : uniqueOffers eq [x] = [x] := by
  simp [uniqueOffers, adjacentFind]

theorem toUtf8_append (a b : QString) :
    QString.toUtf8 (a ++ b) = QString.toUtf8 a ++ QString.toUtf8 b := by
  simp [QString.toUtf8, String.data_append]

theorem toUtf8_fileScheme : QString.toUtf8 "file://" = [102, 105, 108, 101, 58, 47, 47] := by
  decide

/-- C1 (defect of the code). Sanitizing the path selection appends the URI offer and the
image offer behind the sorted offers; sanitizing the result again sorts them to other
places, so the second pass does not return the selection it was given. -/
theorem sanitizeSelection_second_pass_reorders :
    (sanitizeSelection demoPlatform true pathSelection).offers.map ClipboardDataOffer.mimeType
      = ["text/plain", "text/uri-list", "image/png"] ∧
    (sanitizeSelection demoPlatform true
        (sanitizeSelection demoPlatform true pathSelection)).offers.map ClipboardDataOffer.mimeType
      = ["image/png", "text/plain", "text/uri-list"] ∧
    sanitizeSelection demoPlatform true (sanitizeSelection demoPlatform true pathSelection)
      ≠ sanitizeSelection demoPlatform true pathSelection := by
  decide

/-- C2 (defect of the code). A selection that offers `text/plain` twice comes out of
`sanitizeSelection` with both offers: the range `std::ranges::unique` returns is never
erased. -/
theorem sanitizeSelection_keeps_duplicates :
    (sanitizeSelection demoPlatform false twiceSelection).offers
      = [{ mimeType := "text/plain", data := [120] }, { mimeType := "text/plain", data := [121] }] := by
  decide

/-- C3, the claim as stated fails: `/a://b` is the absolute path of an existing regular
file and the only offer is a text offer holding it, yet the sanitized selection has no
`text/uri-list` offer and still holds the bare path. -/
theorem sanitizeSelection_skips_path_with_scheme_separator :
    (demoPlatform.isTextMimeType "text/plain" = true ∧
      demoPlatform.fsExists "/a://b" = true ∧ demoPlatform.fsIsRegularFile "/a://b" = true ∧
      colonSelection.offers = [{ mimeType := "text/plain", data := QString.toUtf8 "/a://b" }]) ∧
    (∀ offer ∈ (sanitizeSelection demoPlatform true colonSelection).offers,
      offer.mimeType ≠ "text/uri-list") ∧
    (∃ offer ∈ (sanitizeSelection demoPlatform true colonSelection).offers,
      offer.data = QString.toUtf8 "/a://b") := by
  decide

theorem startsWith_slash_data {path : QString} (h : QString.startsWith path "/" = true) :
    ∃ rest, path.data = '/' :: rest := by
  unfold QString.startsWith at h
  cases hp : path.data with
  | nil => rw [hp] at h; simp at h
  | cons c rest =>
    rw [hp] at h
    have hc : '/' = c := by simpa using h
    exact ⟨rest, by rw [hc]⟩

/-- C3, amended. With conversion enabled, a single text offer that holds the absolute path
of an existing regular file, where the path has no `://`, no white space at either end, and
the file does not contain its own path, is sanitized to a selection with a `text/uri-list`
offer whose data starts with `file://`, and no offer holds the bare path any more. -/
theorem sanitizeSelection_path_to_uri (P : Platform) (mime path : QString)
    (source : Option QString)
    (hText : P.isTextMimeType mime = true)
    (hDecode : P.fromUtf8 (QString.toUtf8 path) = path)
    (hAbs : QString.startsWith path "/" = true)
    (hTrim : QString.trimmed path = path)
    (hScheme : QString.contains path "://" = false)
    (hExists : P.fsExists path = true)
    (hRegular : P.fsIsRegularFile path = true)
    (hBytes : P.readFile path ≠ some (QString.toUtf8 path)) :
    (∃ offer ∈ (sanitizeSelection P true
        { offers := [{ mimeType := mime, data := QString.toUtf8 path }],
          sourceApp := source }).offers,
      offer.mimeType = "text/uri-list" ∧ QString.toUtf8 "file://" <+: offer.data) ∧
    (∀ offer ∈ (sanitizeSelection P true
        { offers := [{ mimeType := mime, data := QString.toUtf8 path }],
          sourceApp := source }).offers,
      offer.data ≠ QString.toUtf8 path) := by
  obtain ⟨rest, hdata⟩ := startsWith_slash_data hAbs
  have hne : (QString.toUtf8 path).isEmpty = false := by
    simp [QString.toUtf8, hdata, utf8EncodeChar]
  have hnoUri : QString.startsWith path "file://" = false := by
    simp [QString.startsWith, hdata, List.isPrefixOf]
  have hpath : (path != "") = true := by
    have : path ≠ "" := by
      intro h
      rw [h] at hdata
      simp at hdata
    simpa using this
  have huri : QString.toUtf8 ("file://" ++ path) ≠ QString.toUtf8 path := by
    intro h
    have := congrArg List.length h
    rw [toUtf8_append, toUtf8_fileScheme] at this
    simp at this
    omega
  have hpre : QString.toUtf8 "file://" <+: QString.toUtf8 ("file://" ++ path) := by
    rw [toUtf8_append]
    exact List.prefix_append _ _
  have hdet : detectFilePath P [{ mimeType := mime, data := QString.toUtf8 path }] = path := by
    simp [detectFilePath, hText, hne, hDecode, hTrim, hAbs, hScheme, hExists, hRegular]
  simp only [sanitizeSelection, sortOffers_singleton, uniqueOffers_singleton, hdet, hpath,
    List.any_cons, List.any_nil, hDecode, hTrim, hnoUri, Bool.and_false, Bool.or_false,
    Bool.not_true, Bool.not_false, if_true, if_false, List.map_cons, List.map_nil, hText,
    Bool.false_eq_true, ↓reduceIte]
  split
  · split
    · split
      · rename_i bytes hread
        refine ⟨⟨⟨"text/uri-list", QString.toUtf8 ("file://" ++ path)⟩, by simp, rfl, hpre⟩, ?_⟩
        intro offer hmem
        simp only [List.mem_append, List.mem_cons, List.mem_singleton, List.not_mem_nil,
          or_false, List.cons_append, List.nil_append] at hmem
        rcases hmem with h | h | h
        · rw [h]; exact huri
        · rw [h]; exact huri
        · rw [h]
          intro hb
          apply hBytes
          rw [hread]
          simpa using hb
      · refine ⟨⟨⟨"text/uri-list", QString.toUtf8 ("file://" ++ path)⟩, by simp, rfl, hpre⟩, ?_⟩
        intro offer hmem
        simp only [List.mem_append, List.mem_cons, List.mem_singleton, List.not_mem_nil,
          or_false, List.cons_append, List.nil_append] at hmem
        rcases hmem with h | h
        · rw [h]; exact huri
        · rw [h]; exact huri
    · refine ⟨⟨⟨"text/uri-list", QString.toUtf8 ("file://" ++ path)⟩, by simp, rfl, hpre⟩, ?_⟩
      intro offer hmem
      simp only [List.mem_append, List.mem_cons, List.mem_singleton, List.not_mem_nil,
        or_false, List.cons_append, List.nil_append] at hmem
      rcases hmem with h | h
      · rw [h]; exact huri
      · rw [h]; exact huri
  · refine ⟨⟨⟨"text/uri-list", QString.toUtf8 ("file://" ++ path)⟩, by simp, rfl, hpre⟩, ?_⟩
    intro offer hmem
    simp only [List.mem_append, List.mem_cons, List.mem_singleton, List.not_mem_nil,
      or_false, List.cons_append, List.nil_append] at hmem
    rcases hmem with h | h
    · rw [h]; exact huri
    · rw [h]; exact huri

/-- C3, witness: the PNG file `/tmp/shot.png` copied as a bare path. -/
theorem sanitizeSelection_path_to_uri_witness :
    (demoPlatform.fsIsRegularFile "/tmp/shot.png" = true ∧
      QString.contains "/tmp/shot.png" "://" = false) ∧
    (∃ offer ∈ (sanitizeSelection demoPlatform true pathSelection).offers,
      offer.mimeType = "text/uri-list" ∧ QString.toUtf8 "file://" <+: offer.data) ∧
    (∀ offer ∈ (sanitizeSelection demoPlatform true pathSelection).offers,
      offer.data ≠ QString.toUtf8 "/tmp/shot.png") :=
  ⟨by decide, sanitizeSelection_path_to_uri demoPlatform "text/plain" "/tmp/shot.png" none
    (by decide) (by decide) (by decide) (by decide) (by decide) (by decide) (by decide)
    (by decide)⟩

/-! ## Preferred offer -/

theorem find?_isSome_of_mem {α : Type} (p : α → Bool) (l : List α) (x : α) (hx : x ∈ l)
    (hp : p x = true) : ∃ y, l.find? p = some y ∧ p y = true := by
  cases h : l.find? p with
  | none =>
    rw [List.find?_eq_none] at h
    exact absurd hp (h x hx)
  | some y => exact ⟨y, rfl, List.find?_some h⟩

/-- C4. A selection with a `text/uri-list` offer of non-empty data has the preferred MIME
type `text/uri-list`, whatever else it offers. -/
theorem getSelectionPreferredMimeType_uri_list (selection : ClipboardSelection)
    (h : ∃ offer ∈ selection.offers, offer.mimeType = "text/uri-list" ∧ offer.data ≠ []) :
    getSelectionPreferredMimeType selection = "text/uri-list" := by
  obtain ⟨offer, hmem, hmime, hdata⟩ := h
  obtain ⟨it, hfind, hit⟩ := find?_isSome_of_mem
    (fun offer => offer.mimeType == "text/uri-list" && !offer.data.isEmpty)
    selection.offers offer hmem (by simp [hmime, hdata])
  have hitMime : it.mimeType = "text/uri-list" := by
    simp only [Bool.and_eq_true, beq_iff_eq] at hit
    exact hit.1
  simp only [getSelectionPreferredMimeType, plainTextMimeTypes, List.findSome?_cons, hfind]
  exact hitMime

/-- C4, witness: the offers `text/plain: "x"` and `text/uri-list: "file:///y"`. -/
theorem getSelectionPreferredMimeType_uri_list_witness :
    uriAndTextSelection.offers.map ClipboardDataOffer.mimeType = ["text/plain", "text/uri-list"] ∧
    getSelectionPreferredMimeType uriAndTextSelection = "text/uri-list" :=
  ⟨by decide, getSelectionPreferredMimeType_uri_list uriAndTextSelection
    ⟨{ mimeType := "text/uri-list", data := QString.toUtf8 "file:///y" }, by decide, rfl,
      by decide⟩⟩

/-- C5, the claim as stated fails: with an empty `text/plain` offer and an image offer the
stated order picks `text/plain`, the code picks `image/png`. -/
theorem getSelectionPreferredMimeType_skips_empty_offers :
    emptyTextSelection.offers ≠ [] ∧
    preferredBySpec emptyTextSelection.offers = some "text/plain" ∧
    getSelectionPreferredMimeType emptyTextSelection = "image/png" := by
  decide

theorem find?_and_nonEmpty (q : ClipboardDataOffer → Bool) (l : List ClipboardDataOffer) :
    l.find? (fun offer => q offer && !offer.data.isEmpty)
      = (l.filter (fun offer => !offer.data.isEmpty)).find? q := by
  induction l with
  | nil => rfl
  | cons x xs ih =>
    by_cases hd : x.data.isEmpty = true
    · simp [List.find?_cons, List.filter_cons, hd, ih]
    · simp only [Bool.not_eq_true] at hd
      by_cases hq : q x = true
      · simp [List.find?_cons, List.filter_cons, hd, hq]
      · simp only [Bool.not_eq_true] at hq
        simp [List.find?_cons, List.filter_cons, hd, hq, ih]

theorem findSome?_mime_eq_find?_any (N : List ClipboardDataOffer) (mimes : List QString) :
    (mimes.findSome? (fun mime => N.find? (fun offer => offer.mimeType == mime))).map
        ClipboardDataOffer.mimeType
      = mimes.find? (fun mime => N.any (fun offer => offer.mimeType == mime)) := by
  induction mimes with
  | nil => rfl
  | cons m ms ih =>
    cases h : N.find? (fun offer => offer.mimeType == m) with
    | none =>
      have hany : N.any (fun offer => offer.mimeType == m) = false := by
        rw [List.find?_eq_none] at h
        rw [List.any_eq_false]
        exact h
      simp only [List.findSome?_cons, h, List.find?_cons, hany, ih]
    | some it =>
      have hit : (it.mimeType == m) = true :=
        List.find?_some (p := fun (offer : ClipboardDataOffer) => offer.mimeType == m) h
      have hmem : it ∈ N := List.mem_of_find?_eq_some h
      have hany : N.any (fun offer => offer.mimeType == m) = true :=
        List.any_eq_true.mpr ⟨it, hmem, hit⟩
      simp only [List.findSome?_cons, h, List.find?_cons, hany, Option.map_some', Option.some.injEq]
      exact beq_iff_eq.mp hit

/-- C5, amended. For a selection with at least one offer the preferred MIME type is the
one the priority order picks among the offers with non-empty data (text list, first image,
`text/html`, first offer that is no `text/_moz_html` alias), and the type of the first
offer when that picks none. -/
theorem getSelectionPreferredMimeType_eq_preferredAmended (selection : ClipboardSelection)
    (h : selection.offers ≠ []) :
    preferredAmended selection.offers = some (getSelectionPreferredMimeType selection) := by
  unfold getSelectionPreferredMimeType preferredAmended priorityStages
  simp only [find?_and_nonEmpty]
  rw [← findSome?_mime_eq_find?_any]
  cases h1 : plainTextMimeTypes.findSome? (fun mime =>
      (selection.offers.filter (fun offer => !offer.data.isEmpty)).find?
        (fun offer => offer.mimeType == mime)) with
  | some it => simp
  | none =>
    cases h2 : (selection.offers.filter (fun offer => !offer.data.isEmpty)).find?
        (fun offer => QString.startsWith offer.mimeType "image/") with
    | some it => simp
    | none =>
      cases h3 : (selection.offers.filter (fun offer => !offer.data.isEmpty)).find?
          (fun offer => offer.mimeType == "text/html") with
      | some it =>
        have hit : (it.mimeType == "text/html") = true :=
          List.find?_some (p := fun (offer : ClipboardDataOffer) => offer.mimeType == "text/html") h3
        have hany : (selection.offers.filter (fun offer => !offer.data.isEmpty)).any
            (fun offer => offer.mimeType == "text/html") = true :=
          List.any_eq_true.mpr ⟨it, List.mem_of_find?_eq_some h3, hit⟩
        simp [hany, beq_iff_eq.mp hit]
      | none =>
        have hany : (selection.offers.filter (fun offer => !offer.data.isEmpty)).any
            (fun offer => offer.mimeType == "text/html") = false := by
          rw [List.find?_eq_none] at h3
          rw [List.any_eq_false]
          exact h3
        cases h4 : (selection.offers.filter (fun offer => !offer.data.isEmpty)).find?
            (fun offer => !QString.startsWith offer.mimeType "text/_moz_html") with
        | some it => simp [hany]
        | none =>
          simp only [hany]
          cases hoff : selection.offers with
          | nil => exact absurd hoff h
          | cons front rest => simp

/-- C5, witness: the empty `text/plain` offer is passed over for the image. -/
theorem getSelectionPreferredMimeType_eq_preferredAmended_witness :
    preferredAmended emptyTextSelection.offers = some "image/png" ∧
    preferredAmended emptyTextSelection.offers
      = some (getSelectionPreferredMimeType emptyTextSelection) :=
  ⟨by decide, getSelectionPreferredMimeType_eq_preferredAmended emptyTextSelection (by decide)⟩

/-! ## Ingestion -/

theorem saveOffer_selections (P : Platform) (svc : ClipboardService) (o : Oracle)
    (selectionId preferredMimeType : QString) (i : Nat) (offer : ClipboardDataOffer)
    (s : OfferLoopState) :
    (saveOffer P svc o selectionId preferredMimeType i offer s).2.db.selections
      = s.db.selections := by
  unfold saveOffer
  simp only []
  split_ifs <;> (try split) <;> (try split) <;>
    simp [Store.insertOffer, Store.writeBlob, Store.indexSelectionContent]

theorem saveOffers_selections (P : Platform) (svc : ClipboardService) (o : Oracle)
    (selectionId preferredMimeType : QString) (offers : List ClipboardDataOffer) :
    ∀ (i : Nat) (s : OfferLoopState),
      (saveOffers P svc o selectionId preferredMimeType i offers s).2.db.selections
        = s.db.selections := by
  induction offers with
  | nil => intro i s; simp [saveOffers]
  | cons offer rest ih =>
    intro i s
    have hstep := saveOffer_selections P svc o selectionId preferredMimeType i offer s
    unfold saveOffers
    split
    · rename_i s2 heq
      rw [heq] at hstep
      rw [ih]
      exact hstep
    · rename_i s2 heq
      rw [heq] at hstep
      exact hstep

theorem tryBubbleUpSelection_blobs (st : Store) (now : Nat) (key : QString) :
    (st.tryBubbleUpSelection now key).1.blobs = st.blobs ∧
    (st.tryBubbleUpSelection now key).1.offers = st.offers ∧
    (st.tryBubbleUpSelection now key).1.indexed = st.indexed ∧
    (st.tryBubbleUpSelection now key).1.selections.length = st.selections.length := by
  unfold Store.tryBubbleUpSelection
  split_ifs <;> simp

theorem tryBubbleUpSelection_snd (st : Store) (now : Nat) (key : QString) :
    (st.tryBubbleUpSelection now key).2
      = st.selections.any (fun row => row.hash == key || row.id == key) := by
  unfold Store.tryBubbleUpSelection
  split_ifs with h
  · simp only [h]
  · simp only [Bool.not_eq_true] at h
    simp only [h]

/-- What a run of `saveSelection` does to the selection rows: nothing, a bubble-up of the
rows that match the hash of the preferred offer, or one new row with that hash when no row
matched. -/
theorem saveSelection_selections (P : Platform) (svc : ClipboardService) (o : Oracle)
    (st : Store) (s : ClipboardSelection) :
    (saveSelection P svc o st s).1.selections = st.selections ∨
    (∃ p, preferredOffer (sanitizeSelection P svc.m_autoPathToUri s) = some p ∧
      (saveSelection P svc o st s).1.selections
        = (st.tryBubbleUpSelection o.now
            (QCryptographicHash.toHex (QCryptographicHash.md5 p.data))).1.selections) ∨
    (∃ p row, preferredOffer (sanitizeSelection P svc.m_autoPathToUri s) = some p ∧
      st.selections.any (fun r =>
        r.hash == QCryptographicHash.toHex (QCryptographicHash.md5 p.data) ||
        r.id == QCryptographicHash.toHex (QCryptographicHash.md5 p.data)) = false ∧
      row.hash = QCryptographicHash.toHex (QCryptographicHash.md5 p.data) ∧
      row.id = o.selectionId ∧ row.updatedAt = o.now ∧
      (saveSelection P svc o st s).1.selections = st.selections ++ [row]) := by
  unfold saveSelection
  simp only []
  split_ifs
  · exact Or.inl rfl
  · exact Or.inl rfl
  · exact Or.inl rfl
  · exact Or.inl rfl
  · split
    · exact Or.inl rfl
    · rename_i p hp
      split_ifs
      · exact Or.inl rfl
      · exact Or.inl rfl
      · simp only [Store.transaction, saveTransactionBody]
        cases hb : st.selections.any (fun r =>
            r.hash == QCryptographicHash.toHex (QCryptographicHash.md5 p.data) ||
            r.id == QCryptographicHash.toHex (QCryptographicHash.md5 p.data)) with
        | true =>
          have h2 := tryBubbleUpSelection_snd st o.now
            (QCryptographicHash.toHex (QCryptographicHash.md5 p.data))
          rw [hb] at h2
          cases hc : o.commitOk with
          | true =>
            refine Or.inr (Or.inl ⟨p, hp, ?_⟩)
            simp [h2]
          | false =>
            refine Or.inl ?_
            simp [h2]
        | false =>
          have h2 := tryBubbleUpSelection_snd st o.now
            (QCryptographicHash.toHex (QCryptographicHash.md5 p.data))
          rw [hb] at h2
          cases hi : o.insertSelectionOk with
          | false =>
            refine Or.inl ?_
            simp [h2]
          | true =>
            simp only [h2, Bool.false_eq_true, if_false, Bool.not_true]
            split_ifs with hok
            · refine Or.inr (Or.inr ⟨p,
                { id := o.selectionId,
                  offerCount := toInt32 (sanitizeSelection P svc.m_autoPathToUri s).offers.length,
                  hash := QCryptographicHash.toHex (QCryptographicHash.md5 p.data),
                  preferredMimeType :=
                    getSelectionPreferredMimeType (sanitizeSelection P svc.m_autoPathToUri s),
                  kind := getKind P p,
                  source := (sanitizeSelection P svc.m_autoPathToUri s).sourceApp,
                  updatedAt := o.now, pinnedAt := 0, keywords := "" },
                hp, hb, rfl, rfl, rfl, ?_⟩)
              simp only [saveOffers_selections, Store.insertSelection]
            · exact Or.inl rfl

theorem store_with_blobs_self (st : Store) : { st with blobs := st.blobs } = st := by
  cases st
  rfl

theorem isConcealedSelection_eq (P : Platform) (selection : ClipboardSelection) :
    isConcealedSelection P selection
      = selection.offers.any (fun offer => offer.mimeType == P.CONCEALED_MIME_TYPE) := by
  unfold isConcealedSelection IGNORED_MIME_TYPES
  congr 1
  funext offer
  by_cases h : offer.mimeType = P.CONCEALED_MIME_TYPE <;> simp [h]

theorem isPasswordSelection_eq (selection : ClipboardSelection) :
    isPasswordSelection selection
      = selection.offers.any (fun offer => offer.mimeType == "x-kde-passwordManagerHint") := by
  unfold isPasswordSelection PASSWORD_MIME_TYPES
  congr 1
  funext offer
  by_cases h : offer.mimeType = "x-kde-passwordManagerHint" <;> simp [h]

theorem foldl_sizes_of_all_empty (offers : List ClipboardDataOffer)
    (h : ∀ offer ∈ offers, offer.data.length = 0) :
    offers.foldl (fun (acc : Int) item =>
      toInt32 ((toSizeT acc + item.data.length) % 18446744073709551616)) 0 = 0 := by
  induction offers with
  | nil => rfl
  | cons x xs ih =>
    have hx : x.data.length = 0 := h x (List.mem_cons_self _ _)
    have hstep : toInt32 ((toSizeT 0 + x.data.length) % 18446744073709551616) = 0 := by
      rw [hx]
      decide
    rw [List.foldl_cons, hstep]
    exact ih (fun offer hmem => h offer (List.mem_cons_of_mem _ hmem))

theorem isClearSelection_of_all_empty (selection : ClipboardSelection)
    (h : ∀ offer ∈ selection.offers, offer.data.length = 0) :
    isClearSelection selection = true := by
  unfold isClearSelection
  rw [foldl_sizes_of_all_empty _ h]
  rfl

/-- C8. A selection whose sanitized form is rejected by step 2 (all offers empty, a
concealed offer, a password offer while passwords are ignored, a preferred offer of kind
Unknown, or a preferred Text offer that is empty once trimmed) leaves the store as it was
and emits no signal. -/
theorem saveSelection_rejected (P : Platform) (svc : ClipboardService) (o : Oracle)
    (st : Store) (s : ClipboardSelection)
    (h : rejectedByStep2 P svc.m_ignorePasswords
      (sanitizeSelection P svc.m_autoPathToUri s) = true) :
    saveSelection P svc o st s = (st, []) := by
  unfold saveSelection
  simp only []
  split_ifs with hmon hcon hpw hclear
  · rfl
  · rfl
  · rfl
  · rfl
  · split
    · rfl
    · rename_i p hp
      split_ifs with hunk htext
      · rfl
      · rfl
      · exfalso
        have hp' : preferredOffer (sanitizeSelection P svc.m_autoPathToUri s) = some p := hp
        unfold rejectedByStep2 at h
        rw [hp'] at h
        rw [isConcealedSelection_eq] at hcon
        rw [isPasswordSelection_eq] at hpw
        simp only [Bool.or_eq_true, Bool.and_eq_true] at h
        rcases h with ((hall | hc) | hpass) | hkind
        · apply hclear
          apply isClearSelection_of_all_empty
          intro offer hmem
          have := List.all_eq_true.mp hall offer hmem
          simpa using this
        · exact hcon hc
        · apply hpw
          simp only [Bool.and_eq_true]
          exact hpass
        · rcases hkind with hk | hk
          · exact hunk hk
          · apply htext
            simp only [Bool.and_eq_true]
            exact hk

/-- C9. While monitoring is off `saveSelection` changes nothing and emits nothing. -/
theorem saveSelection_not_monitoring (P : Platform) (svc : ClipboardService) (o : Oracle)
    (st : Store) (s : ClipboardSelection) (h : svc.m_monitoring = false) :
    saveSelection P svc o st s = (st, []) := by
  simp [saveSelection, h]

/-- What `saveSelection` does when a stored row already matches the hash of the preferred
offer: the store stays as it is or the matching rows are bubbled up, and they are bubbled
up whenever the selection passes step 2 and the transaction commits. -/
theorem saveSelection_of_match (P : Platform) (svc : ClipboardService) (o : Oracle)
    (st : Store) (s : ClipboardSelection) (p : ClipboardDataOffer)
    (hp : preferredOffer (sanitizeSelection P svc.m_autoPathToUri s) = some p)
    (hmatch : st.selections.any (fun r =>
        r.hash == QCryptographicHash.toHex (QCryptographicHash.md5 p.data) ||
        r.id == QCryptographicHash.toHex (QCryptographicHash.md5 p.data)) = true) :
    ((saveSelection P svc o st s).1 = st ∨
      (saveSelection P svc o st s).1 = (st.tryBubbleUpSelection o.now
        (QCryptographicHash.toHex (QCryptographicHash.md5 p.data))).1) ∧
    (svc.m_monitoring = true →
      rejectedByStep2 P svc.m_ignorePasswords (sanitizeSelection P svc.m_autoPathToUri s) = false →
      isClearSelection (sanitizeSelection P svc.m_autoPathToUri s) = false →
      o.commitOk = true →
      (saveSelection P svc o st s).1 = (st.tryBubbleUpSelection o.now
        (QCryptographicHash.toHex (QCryptographicHash.md5 p.data))).1) := by
  have h2 := tryBubbleUpSelection_snd st o.now
    (QCryptographicHash.toHex (QCryptographicHash.md5 p.data))
  rw [hmatch] at h2
  have hrej : svc.m_monitoring = true →
      rejectedByStep2 P svc.m_ignorePasswords (sanitizeSelection P svc.m_autoPathToUri s) = false →
      isClearSelection (sanitizeSelection P svc.m_autoPathToUri s) = false →
      isConcealedSelection P (sanitizeSelection P svc.m_autoPathToUri s) = false ∧
      (svc.m_ignorePasswords &&
        isPasswordSelection (sanitizeSelection P svc.m_autoPathToUri s)) = false ∧
      (getKind P p == ClipboardOfferKind.Unknown) = false ∧
      (getKind P p == ClipboardOfferKind.Text && (QByteArray.trimmed p.data).isEmpty) = false := by
    intro _ hr _
    unfold rejectedByStep2 at hr
    rw [hp] at hr
    rw [isConcealedSelection_eq, isPasswordSelection_eq]
    simp only [Bool.or_eq_false_iff] at hr
    exact ⟨hr.1.1.2, hr.1.2, hr.2.1, hr.2.2⟩
  have hp' : (sanitizeSelection P svc.m_autoPathToUri s).offers.find? (fun offer =>
      offer.mimeType == getSelectionPreferredMimeType (sanitizeSelection P svc.m_autoPathToUri s))
        = some p := hp
  unfold saveSelection
  simp only [hp']
  split_ifs with hmon hcon hpw hclear hunk htext
  · exact ⟨Or.inl rfl, fun hm => by simp [hm] at hmon⟩
  · exact ⟨Or.inl rfl, fun hm hr hc => by rw [(hrej hm hr hc).1] at hcon; simp at hcon⟩
  · exact ⟨Or.inl rfl, fun hm hr hc => by rw [(hrej hm hr hc).2.1] at hpw; simp at hpw⟩
  · exact ⟨Or.inl rfl, fun hm hr hc => by rw [hc] at hclear; simp at hclear⟩
  · exact ⟨Or.inl rfl, fun hm hr hc => by rw [(hrej hm hr hc).2.2.1] at hunk; simp at hunk⟩
  · exact ⟨Or.inl rfl, fun hm hr hc => by rw [(hrej hm hr hc).2.2.2] at htext; simp at htext⟩
  · simp only [Store.transaction, saveTransactionBody, h2, if_true]
    cases hc : o.commitOk with
    | true => exact ⟨Or.inr (by simp), fun _ _ _ _ => by simp⟩
    | false =>
      refine ⟨Or.inl ?_, fun _ _ _ hco => by simp at hco⟩
      simp only [Bool.and_false, Bool.false_eq_true, if_false,
        (tryBubbleUpSelection_blobs st o.now _).1, store_with_blobs_self]

/-- C8, witness: a clipboard clear is rejected and changes nothing. -/
theorem saveSelection_rejected_witness :
    rejectedByStep2 demoPlatform true (sanitizeSelection demoPlatform true clearSelection) = true ∧
    saveSelection demoPlatform demoService (demoOracle 100 "first") emptyStore clearSelection
      = (emptyStore, []) :=
  ⟨by decide,
    saveSelection_rejected demoPlatform demoService (demoOracle 100 "first") emptyStore
      clearSelection (by decide)⟩

/-- C9, witness: the stopped service drops a plain-text selection. -/
theorem saveSelection_not_monitoring_witness :
    stoppedService.m_monitoring = false ∧
    saveSelection demoPlatform stoppedService (demoOracle 100 "first") emptyStore letterSelection
      = (emptyStore, []) :=
  ⟨rfl,
    saveSelection_not_monitoring demoPlatform stoppedService (demoOracle 100 "first") emptyStore
      letterSelection rfl⟩

set_option maxRecDepth 100000 in
/-- C7, the claim as stated fails: for the single offer `text/plain: "a"` the row records
the MD5 of the preferred offer's bytes, in hexadecimal; `computeSelectionHash` of the
sanitized selection is another digest. -/
theorem saveSelection_hash_is_not_computeSelectionHash :
    (saveSelection demoPlatform demoService (demoOracle 100 "first") emptyStore
        letterSelection).1.selections.map SelectionRow.hash
      = ["0cc175b9c0f1b6a831c399e269772661"] ∧
    QCryptographicHash.toHex (computeSelectionHash
        (sanitizeSelection demoPlatform demoService.m_autoPathToUri letterSelection))
      = "b6ff9a06b7e20bcb2858c5b8ff744aea" := by
  decide

/-- C7, amended. For every selection that `saveSelection` stores, the hash recorded on the
new selection row is the hexadecimal MD5 digest of the bytes of the preferred offer of the
sanitized selection. -/
theorem saveSelection_recorded_hash (P : Platform) (svc : ClipboardService) (o : Oracle)
    (st : Store) (s : ClipboardSelection)
    (hstored : st.selections.length < (saveSelection P svc o st s).1.selections.length) :
    ∃ p row, preferredOffer (sanitizeSelection P svc.m_autoPathToUri s) = some p ∧
      (saveSelection P svc o st s).1.selections = st.selections ++ [row] ∧
      row.hash = QCryptographicHash.toHex (QCryptographicHash.md5 p.data) := by
  rcases saveSelection_selections P svc o st s with h | ⟨p, _, h⟩ | ⟨p, row, hp, _, hh, _, _, h⟩
  · rw [h] at hstored
    exact absurd hstored (Nat.lt_irrefl _)
  · rw [h, (tryBubbleUpSelection_blobs st o.now _).2.2.2] at hstored
    exact absurd hstored (Nat.lt_irrefl _)
  · exact ⟨p, row, hp, h, hh⟩

set_option maxRecDepth 100000 in
/-- C7, witness: storing `text/plain: "a"` in the empty store. -/
theorem saveSelection_recorded_hash_witness :
    emptyStore.selections.length
      < (saveSelection demoPlatform demoService (demoOracle 100 "first") emptyStore
          letterSelection).1.selections.length ∧
    ∃ p row, preferredOffer (sanitizeSelection demoPlatform demoService.m_autoPathToUri
        letterSelection) = some p ∧
      (saveSelection demoPlatform demoService (demoOracle 100 "first") emptyStore
          letterSelection).1.selections = emptyStore.selections ++ [row] ∧
      row.hash = QCryptographicHash.toHex (QCryptographicHash.md5 p.data) :=
  ⟨by decide,
    saveSelection_recorded_hash demoPlatform demoService (demoOracle 100 "first") emptyStore
      letterSelection (by decide)⟩

theorem tryBubbleUpSelection_append_new (st : Store) (rows : List SelectionRow)
    (row : SelectionRow) (now : Nat) (key : QString)
    (hsel : st.selections = rows ++ [row])
    (hold : rows.any (fun r => r.hash == key || r.id == key) = false)
    (hrow : row.hash = key) :
    (st.tryBubbleUpSelection now key).1.selections = rows ++ [{ row with updatedAt := now }] := by
  have hmap : rows.map (fun r =>
      if (r.hash == key || r.id == key) = true then { r with updatedAt := now } else r) = rows := by
    rw [List.any_eq_false] at hold
    conv_rhs => rw [← List.map_id rows]
    apply List.map_congr_left
    intro r hr
    simp [hold r hr]
  unfold Store.tryBubbleUpSelection
  rw [hsel]
  simp only [List.any_append, hold, List.any_cons, hrow, beq_self_eq_true, Bool.true_or,
    List.any_nil, Bool.or_false, Bool.false_or, if_true, List.map_append, hmap, List.map_cons,
    List.map_nil]

/-- C6. When `saveSelection` has stored a first selection, ingesting a second selection
whose preferred offer has the same bytes adds no selection row, no offer row, no index
entry and no blob: the one row with that hash stays the only one, and nothing but its
updated-at time changes; it is set to the time of the second ingestion whenever the second
selection passes step 2 and the transaction commits. -/
theorem saveSelection_dedup (P : Platform) (svc : ClipboardService) (o1 o2 : Oracle)
    (st : Store) (s1 s2 : ClipboardSelection) (p1 p2 : ClipboardDataOffer)
    (hmon : svc.m_monitoring = true)
    (hp1 : preferredOffer (sanitizeSelection P svc.m_autoPathToUri s1) = some p1)
    (hp2 : preferredOffer (sanitizeSelection P svc.m_autoPathToUri s2) = some p2)
    (hbytes : p1.data = p2.data)
    (hstored : st.selections.length < (saveSelection P svc o1 st s1).1.selections.length) :
    ∃ row,
      row.hash = QCryptographicHash.toHex (QCryptographicHash.md5 p1.data) ∧
      (∀ r ∈ st.selections, r.hash ≠ row.hash) ∧
      (saveSelection P svc o1 st s1).1.selections = st.selections ++ [row] ∧
      (saveSelection P svc o2 (saveSelection P svc o1 st s1).1 s2).1.offers
        = (saveSelection P svc o1 st s1).1.offers ∧
      (saveSelection P svc o2 (saveSelection P svc o1 st s1).1 s2).1.indexed
        = (saveSelection P svc o1 st s1).1.indexed ∧
      (saveSelection P svc o2 (saveSelection P svc o1 st s1).1 s2).1.blobs
        = (saveSelection P svc o1 st s1).1.blobs ∧
      ((saveSelection P svc o2 (saveSelection P svc o1 st s1).1 s2).1.selections
          = st.selections ++ [row] ∨
        (saveSelection P svc o2 (saveSelection P svc o1 st s1).1 s2).1.selections
          = st.selections ++ [{ row with updatedAt := o2.now }]) ∧
      (saveSelection P svc o2 (saveSelection P svc o1 st s1).1 s2).1.selections.countP
        (fun r => r.hash == row.hash) = 1 ∧
      (rejectedByStep2 P svc.m_ignorePasswords
          (sanitizeSelection P svc.m_autoPathToUri s2) = false →
        isClearSelection (sanitizeSelection P svc.m_autoPathToUri s2) = false →
        o2.commitOk = true →
        (saveSelection P svc o2 (saveSelection P svc o1 st s1).1 s2).1.selections
          = st.selections ++ [{ row with updatedAt := o2.now }]) := by
  rcases saveSelection_selections P svc o1 st s1 with h | ⟨p, _, h⟩ |
    ⟨p, row, hp, hnone, hh, _, _, hsel⟩
  · rw [h] at hstored
    exact absurd hstored (Nat.lt_irrefl _)
  · rw [h, (tryBubbleUpSelection_blobs st o1.now _).2.2.2] at hstored
    exact absurd hstored (Nat.lt_irrefl _)
  · have hpp : p = p1 := Option.some.inj (hp.symm.trans hp1)
    subst hpp
    generalize (saveSelection P svc o1 st s1).1 = st1 at hsel ⊢
    have hkey : QCryptographicHash.toHex (QCryptographicHash.md5 p2.data) = row.hash := by
      rw [hh, hbytes]
    have hold : ∀ r ∈ st.selections, r.hash ≠ row.hash := by
      intro r hr heq
      have := List.any_eq_false.mp hnone r hr
      rw [hh] at heq
      simp [heq] at this
    have hcount0 : st.selections.countP (fun r => r.hash == row.hash) = 0 := by
      rw [List.countP_eq_zero]
      intro r hr
      simpa using hold r hr
    have hmatch : st1.selections.any (fun r =>
        r.hash == QCryptographicHash.toHex (QCryptographicHash.md5 p2.data) ||
        r.id == QCryptographicHash.toHex (QCryptographicHash.md5 p2.data)) = true := by
      rw [hsel, hkey]
      simp
    have hnone2 : st.selections.any (fun r =>
        r.hash == QCryptographicHash.toHex (QCryptographicHash.md5 p2.data) ||
        r.id == QCryptographicHash.toHex (QCryptographicHash.md5 p2.data)) = false := by
      rw [← hbytes]
      exact hnone
    have hbub := tryBubbleUpSelection_append_new st1 st.selections row o2.now _ hsel hnone2
      hkey.symm
    have hfacts := tryBubbleUpSelection_blobs st1 o2.now
      (QCryptographicHash.toHex (QCryptographicHash.md5 p2.data))
    obtain ⟨hcases, hacc⟩ := saveSelection_of_match P svc o2 st1 s2 p2 hp2 hmatch
    refine ⟨row, hh, hold, hsel, ?_, ?_, ?_, ?_, ?_, ?_⟩
    · rcases hcases with h | h <;> rw [h]
      exact hfacts.2.1
    · rcases hcases with h | h <;> rw [h]
      exact hfacts.2.2.1
    · rcases hcases with h | h <;> rw [h]
      exact hfacts.1
    · rcases hcases with h | h <;> rw [h]
      · exact Or.inl hsel
      · exact Or.inr hbub
    · rcases hcases with h | h <;> rw [h]
      · rw [hsel, List.countP_append, hcount0]
        simp
      · rw [hbub, List.countP_append, hcount0]
        simp
    · intro hr hc hco
      rw [hacc hmon hr hc hco]
      exact hbub

set_option maxRecDepth 100000 in
/-- C6, witness: `text/plain: "a"` is stored at time 100; the selection that offers the
same text next to an HTML offer, ingested at time 200, only moves the stored row to 200. -/
theorem saveSelection_dedup_witness :
    emptyStore.selections.length
      < (saveSelection demoPlatform demoService (demoOracle 100 "first") emptyStore
          letterSelection).1.selections.length ∧
    ∃ row : SelectionRow,
      row.hash = "0cc175b9c0f1b6a831c399e269772661" ∧
      (saveSelection demoPlatform demoService (demoOracle 100 "first") emptyStore
          letterSelection).1.selections = [row] ∧
      (saveSelection demoPlatform demoService (demoOracle 200 "second")
          (saveSelection demoPlatform demoService (demoOracle 100 "first") emptyStore
            letterSelection).1 letterHtmlSelection).1.selections
        = [{ row with updatedAt := 200 }] := by
  refine ⟨by decide, ?_⟩
  obtain ⟨row, hh, _, hsel, _, _, _, _, _, hacc⟩ :=
    saveSelection_dedup demoPlatform demoService (demoOracle 100 "first")
      (demoOracle 200 "second") emptyStore letterSelection letterHtmlSelection
      { mimeType := "text/plain", data := [97] } { mimeType := "text/plain", data := [97] }
      rfl (by decide) (by decide) rfl (by decide)
  refine ⟨row, ?_, ?_, ?_⟩
  · rw [hh]
    decide
  · simpa [emptyStore] using hsel
  · simpa [emptyStore, demoOracle] using hacc (by decide) (by decide) rfl

/-! ## Concealed copies -/

theorem sortInsert_perm (x : ClipboardDataOffer) (l : List ClipboardDataOffer) :
    (sortInsert x l).Perm (x :: l) := by
  induction l with
  | nil => exact List.Perm.refl _
  | cons y ys ih =>
    unfold sortInsert
    split_ifs
    · exact List.Perm.refl _
    · exact (List.Perm.cons y ih).trans (List.Perm.swap x y ys)

theorem foldl_sortInsert_perm (l : List ClipboardDataOffer) :
    ∀ acc : List ClipboardDataOffer,
      (l.foldl (fun acc x => sortInsert x acc) acc).Perm (acc ++ l) := by
  induction l with
  | nil => intro acc; simp
  | cons x xs ih =>
    intro acc
    rw [List.foldl_cons]
    refine (ih (sortInsert x acc)).trans ?_
    refine ((sortInsert_perm x acc).append_right xs).trans ?_
    exact (List.perm_middle).symm

theorem sortOffers_perm (l : List ClipboardDataOffer) : (sortOffers l).Perm l := by
  have := foldl_sortInsert_perm l []
  simpa [sortOffers] using this

theorem list_set_same {α : Type} (l : List α) :
    ∀ (i : Nat) (x : α), l[i]? = some x → l.set i x = l := by
  induction l with
  | nil => intro i x _; rfl
  | cons a as ih =>
    intro i x h
    cases i with
    | zero =>
      simp only [List.getElem?_cons_zero, Option.some.injEq] at h
      simp [h]
    | succ n =>
      simp only [List.getElem?_cons_succ] at h
      simp [ih n x h]

theorem moveAssign_perm (l : List ClipboardDataOffer) (i j : Nat) :
    (moveAssign l i j).Perm l := by
  unfold moveAssign
  cases hi : l[i]? with
  | none => exact List.Perm.refl _
  | some x =>
    cases hj : l[j]? with
    | none => exact List.Perm.refl _
    | some y =>
      simp only []
      obtain ⟨hil, hix⟩ := List.getElem?_eq_some_iff.mp hi
      obtain ⟨hjl, hjy⟩ := List.getElem?_eq_some_iff.mp hj
      by_cases hij : i = j
      · subst hij
        have hxy : x = y := by rw [← hix, ← hjy]
        subst hxy
        rw [List.set_set, list_set_same l i x hi]
      · rw [List.perm_iff_count]
        intro b
        have hjl2 : j < (l.set i y).length := by simpa using hjl
        have hget : (l.set i y)[j] = y := by
          rw [List.getElem_set_ne hij]
          exact hjy
        rw [List.count_set _ _ _ _ hjl2, hget, List.count_set _ _ _ _ hil, hix]
        have hxmem : x ∈ l := by rw [← hix]; exact List.getElem_mem _
        by_cases hxb : (x == b) = true
        · have hpos : 0 < List.count b l := by
            rw [List.count_pos_iff]
            have : x = b := by simpa using hxb
            rw [← this]
            exact hxmem
          by_cases hyb : (y == b) = true <;> simp [hxb, hyb] <;> omega
        · by_cases hyb : (y == b) = true <;> simp [hxb, hyb]

theorem uniqueLoop_perm (eq : ClipboardDataOffer → ClipboardDataOffer → Bool) (k : Nat) :
    ∀ (l : List ClipboardDataOffer) (dest first : Nat),
      (uniqueLoop eq k l dest first).Perm l := by
  induction k with
  | zero => intro l dest first; exact List.Perm.refl _
  | succ k ih =>
    intro l dest first
    unfold uniqueLoop
    split
    · split_ifs
      · exact (ih _ _ _).trans (moveAssign_perm l _ _)
      · exact ih _ _ _
    · exact List.Perm.refl _

theorem uniqueOffers_perm (eq : ClipboardDataOffer → ClipboardDataOffer → Bool)
    (l : List ClipboardDataOffer) : (uniqueOffers eq l).Perm l := by
  unfold uniqueOffers
  simp only []
  split_ifs
  · exact List.Perm.refl _
  · exact uniqueLoop_perm eq _ _ _ _

/-- Sanitizing keeps every MIME type of the selection. -/
theorem sanitizeSelection_keeps_mimeType (P : Platform) (autoPathToUri : Bool)
    (selection : ClipboardSelection) (mimeType : QString)
    (h : ∃ offer ∈ selection.offers, offer.mimeType = mimeType) :
    ∃ offer ∈ (sanitizeSelection P autoPathToUri selection).offers,
      offer.mimeType = mimeType := by
  obtain ⟨offer, hmem, hmime⟩ := h
  have hperm := (uniqueOffers_perm (fun a b => a.mimeType == b.mimeType)
    (sortOffers selection.offers)).trans (sortOffers_perm selection.offers)
  have hbase : offer ∈ uniqueOffers (fun a b => a.mimeType == b.mimeType)
      (sortOffers selection.offers) := hperm.symm.subset hmem
  have hf : ∀ (u : QByteArray) (x : ClipboardDataOffer),
      (if P.isTextMimeType x.mimeType = true then { x with data := u } else x).mimeType
        = x.mimeType := by
    intro u x
    split_ifs <;> rfl
  unfold sanitizeSelection
  simp only []
  split_ifs
  · exact ⟨offer, hbase, hmime⟩
  · exact ⟨offer, hbase, hmime⟩
  · split
    · exact ⟨_, List.mem_append_left _ (List.mem_append_left _ (List.mem_map_of_mem _ hbase)),
        by rw [hf, hmime]⟩
    · exact ⟨_, List.mem_append_left _ (List.mem_map_of_mem _ hbase), by rw [hf, hmime]⟩
  · exact ⟨_, List.mem_append_left _ (List.mem_map_of_mem _ hbase), by rw [hf, hmime]⟩
  · exact ⟨_, List.mem_append_left _ (List.mem_map_of_mem _ hbase), by rw [hf, hmime]⟩
  · exact ⟨offer, hbase, hmime⟩

theorem saveOffer_offers (P : Platform) (svc : ClipboardService) (o : Oracle)
    (selectionId preferredMimeType : QString) (i : Nat) (offer : ClipboardDataOffer)
    (s : OfferLoopState) :
    ∀ row ∈ (saveOffer P svc o selectionId preferredMimeType i offer s).2.db.offers,
      row ∈ s.db.offers ∨ row.mimeType = offer.mimeType := by
  intro row hrow
  unfold saveOffer at hrow
  simp only [] at hrow
  split_ifs at hrow <;> (try split at hrow) <;> (try split at hrow) <;>
    simp only [Store.insertOffer, Store.writeBlob, Store.indexSelectionContent,
      List.mem_append, List.mem_singleton] at hrow <;>
    first
      | exact Or.inl hrow
      | (rcases hrow with h | h
         · exact Or.inl h
         · exact Or.inr (by rw [h]))

theorem saveOffers_offers (P : Platform) (svc : ClipboardService) (o : Oracle)
    (selectionId preferredMimeType : QString) (offers : List ClipboardDataOffer) :
    ∀ (i : Nat) (s : OfferLoopState),
      ∀ row ∈ (saveOffers P svc o selectionId preferredMimeType i offers s).2.db.offers,
        row ∈ s.db.offers ∨ ∃ offer ∈ offers, row.mimeType = offer.mimeType := by
  induction offers with
  | nil => intro i s row hrow; exact Or.inl (by simpa [saveOffers] using hrow)
  | cons offer rest ih =>
    intro i s row hrow
    have hstep := saveOffer_offers P svc o selectionId preferredMimeType i offer s
    unfold saveOffers at hrow
    split at hrow
    · rename_i s2 heq
      rw [heq] at hstep
      rcases ih (i + 1) s2 row hrow with h | ⟨x, hx, hxm⟩
      · rcases hstep row h with h1 | h1
        · exact Or.inl h1
        · exact Or.inr ⟨offer, List.mem_cons_self _ _, h1⟩
      · exact Or.inr ⟨x, List.mem_cons_of_mem _ hx, hxm⟩
    · rename_i s2 heq
      rw [heq] at hstep
      rcases hstep row hrow with h1 | h1
      · exact Or.inl h1
      · exact Or.inr ⟨offer, List.mem_cons_self _ _, h1⟩

/-- Every offer row in the store after `saveSelection` was there before, or carries the
MIME type of an offer of the sanitized selection, which then is not concealed. -/
theorem saveSelection_offers (P : Platform) (svc : ClipboardService) (o : Oracle)
    (st : Store) (s : ClipboardSelection) :
    ∀ row ∈ (saveSelection P svc o st s).1.offers,
      row ∈ st.offers ∨
      (isConcealedSelection P (sanitizeSelection P svc.m_autoPathToUri s) = false ∧
        ∃ offer ∈ (sanitizeSelection P svc.m_autoPathToUri s).offers,
          row.mimeType = offer.mimeType) := by
  intro row hrow
  unfold saveSelection at hrow
  simp only [] at hrow
  split_ifs at hrow with hmon hcon
  · exact Or.inl hrow
  · exact Or.inl hrow
  · exact Or.inl hrow
  · exact Or.inl hrow
  · simp only [Bool.not_eq_true] at hcon
    split at hrow
    · exact Or.inl hrow
    · rename_i p hp
      split_ifs at hrow
      · exact Or.inl hrow
      · exact Or.inl hrow
      · simp only [Store.transaction, saveTransactionBody] at hrow
        cases hb : (st.tryBubbleUpSelection o.now
            (QCryptographicHash.toHex (QCryptographicHash.md5 p.data))).2 with
        | true =>
          simp only [hb, if_true] at hrow
          split_ifs at hrow
          · rw [(tryBubbleUpSelection_blobs st o.now _).2.1] at hrow
            exact Or.inl hrow
          · exact Or.inl hrow
        | false =>
          simp only [hb, Bool.false_eq_true, if_false] at hrow
          split_ifs at hrow
          all_goals first
            | exact Or.inl hrow
            | (rcases saveOffers_offers P svc o _ _ _ _ _ row hrow with h | h
               · exact Or.inl (by simpa [Store.insertSelection] using h)
               · exact Or.inr ⟨hcon, h⟩)

theorem copyQMimeData_concealed (P : Platform) (server : AbstractClipboardServer) (st : Store)
    (data : QMimeData) (options : CopyOptions) (payload : QMimeData)
    (hc : options.concealed = true)
    (h : (copyQMimeData P server st data options).handed = some payload) :
    QMimeData.hasFormat payload P.CONCEALED_MIME_TYPE = true := by
  simp only [copyQMimeData, hc, if_true, Option.some.injEq] at h
  rw [← h]
  simp [QMimeData.hasFormat, MimeCall.format]

theorem copySelection_concealed (P : Platform) (server : AbstractClipboardServer) (st : Store)
    (selection : ClipboardSelection) (options : CopyOptions) (payload : QMimeData)
    (hc : options.concealed = true)
    (h : (copySelection P server st selection options).handed = some payload) :
    QMimeData.hasFormat payload P.CONCEALED_MIME_TYPE = true := by
  unfold copySelection at h
  split_ifs at h
  exact copyQMimeData_concealed P server st _ options payload hc h

theorem copyContent_concealed (P : Platform) (server : AbstractClipboardServer)
    (svc : ClipboardService) (now : Nat) (st : Store) (content : Content)
    (options : CopyOptions) (payload : QMimeData)
    (hc : options.concealed = true)
    (h : (copyContent P server svc now st content options).handed = some payload) :
    QMimeData.hasFormat payload P.CONCEALED_MIME_TYPE = true := by
  cases content with
  | NoData => simp [copyContent] at h
  | Html html text => exact copyQMimeData_concealed P server st _ options payload hc h
  | File path => exact copyQMimeData_concealed P server st _ options payload hc h
  | Text text => exact copyQMimeData_concealed P server st _ options payload hc h
  | Selection selection => exact copySelection_concealed P server st selection options payload hc h
  | SelectionRecordHandle id =>
    simp only [copyContent, copySelectionRecord] at h
    split at h
    · simp at h
    · split_ifs at h
      exact copySelection_concealed P server _ _ options payload hc h

theorem copyMultipleSelections_concealed (P : Platform) (server : AbstractClipboardServer)
    (svc : ClipboardService) (st : Store) (ids : List QString)
    (options : CopyOptions) (payload : QMimeData)
    (hc : options.concealed = true)
    (h : (copyMultipleSelections P server svc st ids options).handed = some payload) :
    QMimeData.hasFormat payload P.CONCEALED_MIME_TYPE = true := by
  unfold copyMultipleSelections at h
  simp only [] at h
  split_ifs at h
  exact copyQMimeData_concealed P server st _ options payload hc h

theorem saveSelection_of_concealed_offer (P : Platform) (svc : ClipboardService) (o : Oracle)
    (st : Store) (selection : ClipboardSelection)
    (h : ∃ offer ∈ selection.offers, offer.mimeType = P.CONCEALED_MIME_TYPE) :
    saveSelection P svc o st selection = (st, []) := by
  have hcon : isConcealedSelection P (sanitizeSelection P svc.m_autoPathToUri selection) = true := by
    rw [isConcealedSelection_eq, List.any_eq_true]
    obtain ⟨offer, hmem, hm⟩ := sanitizeSelection_keeps_mimeType P svc.m_autoPathToUri selection _ h
    exact ⟨offer, hmem, by simp [hm]⟩
  unfold saveSelection
  simp only [hcon, if_true]
  split_ifs <;> rfl

theorem offersPayload_concealed (P : Platform) (selection : ClipboardSelection)
    (payload : QMimeData)
    (hp : QMimeData.hasFormat payload P.CONCEALED_MIME_TYPE = true)
    (h : offersPayload selection payload = true) :
    ∃ offer ∈ selection.offers, offer.mimeType = P.CONCEALED_MIME_TYPE := by
  unfold QMimeData.hasFormat at hp
  obtain ⟨call, hcall, hfmt⟩ := List.any_eq_true.mp hp
  have := List.all_eq_true.mp h call hcall
  obtain ⟨offer, hmem, hm⟩ := List.any_eq_true.mp this
  refine ⟨offer, hmem, ?_⟩
  rw [beq_iff_eq] at hm hfmt
  rw [hm, hfmt]

/-- C10. Every payload that a copy with `concealed = true` hands to the backend, through
`copyContent` (text, HTML, file, selection, stored-selection handle) or through
`copyMultipleSelections` (composite), carries the concealed MIME type; `saveSelection`
of any selection that offers the formats of such a payload leaves the store as it was
and emits nothing; and `saveSelection` never adds an offer row of the concealed MIME type,
so a store without such a row never gets one. -/
theorem concealed_copy_is_never_indexed (P : Platform) :
    (∀ (server : AbstractClipboardServer) (svc : ClipboardService) (now : Nat) (st : Store)
        (content : Content) (options : CopyOptions) (payload : QMimeData),
      options.concealed = true →
      (copyContent P server svc now st content options).handed = some payload →
      QMimeData.hasFormat payload P.CONCEALED_MIME_TYPE = true ∧
      ∀ (svc2 : ClipboardService) (o : Oracle) (st2 : Store) (selection : ClipboardSelection),
        offersPayload selection payload = true →
        saveSelection P svc2 o st2 selection = (st2, [])) ∧
    (∀ (server : AbstractClipboardServer) (svc : ClipboardService) (st : Store)
        (ids : List QString) (options : CopyOptions) (payload : QMimeData),
      options.concealed = true →
      (copyMultipleSelections P server svc st ids options).handed = some payload →
      QMimeData.hasFormat payload P.CONCEALED_MIME_TYPE = true ∧
      ∀ (svc2 : ClipboardService) (o : Oracle) (st2 : Store) (selection : ClipboardSelection),
        offersPayload selection payload = true →
        saveSelection P svc2 o st2 selection = (st2, [])) ∧
    (∀ (svc : ClipboardService) (o : Oracle) (st : Store) (selection : ClipboardSelection),
      (∀ row ∈ st.offers, row.mimeType ≠ P.CONCEALED_MIME_TYPE) →
      ∀ row ∈ (saveSelection P svc o st selection).1.offers,
        row.mimeType ≠ P.CONCEALED_MIME_TYPE) := by
  refine ⟨?_, ?_, ?_⟩
  · intro server svc now st content options payload hc h
    have hp := copyContent_concealed P server svc now st content options payload hc h
    exact ⟨hp, fun svc2 o st2 selection hsel =>
      saveSelection_of_concealed_offer P svc2 o st2 selection
        (offersPayload_concealed P selection payload hp hsel)⟩
  · intro server svc st ids options payload hc h
    have hp := copyMultipleSelections_concealed P server svc st ids options payload hc h
    exact ⟨hp, fun svc2 o st2 selection hsel =>
      saveSelection_of_concealed_offer P svc2 o st2 selection
        (offersPayload_concealed P selection payload hp hsel)⟩
  · intro svc o st selection hinv row hrow
    rcases saveSelection_offers P svc o st selection row hrow with h | ⟨hcon, offer, hmem, hm⟩
    · exact hinv row h
    · intro hrowc
      rw [isConcealedSelection_eq, List.any_eq_false] at hcon
      have := hcon offer hmem
      rw [← hm, hrowc] at this
      simp at this

/-- C10, witness: the concealed copy of the text `pw` hands over a payload with the
concealed MIME type, and the selection a backend reports from it is dropped. -/
theorem concealed_copy_is_never_indexed_witness :
    QMimeData.hasFormat
      [MimeCall.setData "text/plain" (QString.toUtf8 "pw"),
        MimeCall.setData "vicinae/concealed" [49], MimeCall.setData "vicinae/concealed" [49]]
      demoPlatform.CONCEALED_MIME_TYPE = true ∧
    saveSelection demoPlatform demoService (demoOracle 100 "first") emptyStore concealedSelection
      = (emptyStore, []) := by
  have h := (concealed_copy_is_never_indexed demoPlatform).1 demoServer demoService 0
    emptyStore (Content.Text "pw") { concealed := true }
    [MimeCall.setData "text/plain" (QString.toUtf8 "pw"),
      MimeCall.setData "vicinae/concealed" [49], MimeCall.setData "vicinae/concealed" [49]]
    rfl (by decide)
  exact ⟨h.1, h.2 demoService (demoOracle 100 "first") emptyStore concealedSelection (by decide)⟩

/-! ## Monitoring life cycle -/

/-- C11, the claim as stated fails: the service is stopped and the backend's `start()`
fails, yet after `setMonitoring(true)` the service reports that it is monitoring. -/
theorem setMonitoring_ignores_failed_start :
    monitoring stoppedService = false ∧ failingStart.start = false ∧
    (setMonitoring stoppedService failingStart true).calls = [ServerCall.start] ∧
    monitoring (setMonitoring stoppedService failingStart true).service = true := by
  decide

/-- C11, amended. From the stopped state `setMonitoring(true)` calls the backend's
`start()` once, emits the monitoring-changed signal and leaves `monitoring()` true,
whether `start()` succeeds or fails; the outcome of `start()` only chooses the line that
is logged. -/
theorem setMonitoring_from_stopped (svc : ClipboardService) (replies : ServerReplies)
    (h : monitoring svc = false) :
    monitoring (setMonitoring svc replies true).service = true ∧
    (setMonitoring svc replies true).calls = [ServerCall.start] ∧
    (setMonitoring svc replies true).signals = [Signal.monitoringChanged true] ∧
    (setMonitoring svc replies true).log =
      [LogLine.info "Starting clipboard server",
        if replies.start then LogLine.info "started successfully."
        else LogLine.warning "Failed to start clipboard server"] := by
  unfold monitoring at h
  simp [setMonitoring, monitoring, h]

/-- C11, witness: the stopped service and a backend whose `start()` fails. -/
theorem setMonitoring_from_stopped_witness :
    monitoring stoppedService = false ∧
    monitoring (setMonitoring stoppedService failingStart true).service = true ∧
    (setMonitoring stoppedService failingStart true).log =
      [LogLine.info "Starting clipboard server",
        LogLine.warning "Failed to start clipboard server"] :=
  ⟨rfl, (setMonitoring_from_stopped stoppedService failingStart rfl).1,
    (setMonitoring_from_stopped stoppedService failingStart rfl).2.2.2⟩

/-- C12. One health-check cycle of a monitoring service whose backend is not alive calls
`isAlive()`, then `stop()`, then `start()`, each once; a service that is not monitoring
calls nothing and a live backend is only asked `isAlive()`; the monitoring state is the
same afterwards in every case, whatever `start()` returns. -/
theorem checkServerHealth_cycle (svc : ClipboardService) (replies : ServerReplies) :
    (monitoring svc = true → replies.isAlive = false →
      (checkServerHealth svc replies).calls
        = [ServerCall.isAlive, ServerCall.stop, ServerCall.start]) ∧
    (monitoring svc = false → (checkServerHealth svc replies).calls = []) ∧
    (monitoring svc = true → replies.isAlive = true →
      (checkServerHealth svc replies).calls = [ServerCall.isAlive]) ∧
    (checkServerHealth svc replies).service = svc ∧
    (checkServerHealth svc replies).signals = [] := by
  unfold monitoring checkServerHealth
  refine ⟨?_, ?_, ?_, ?_, ?_⟩
  · intro h1 h2; simp [h1, h2]
  · intro h1; simp [h1]
  · intro h1 h2; simp [h1, h2]
  · split_ifs <;> rfl
  · split_ifs <;> rfl

/-- C12, witness: the monitoring service with a dead backend whose restart fails. -/
theorem checkServerHealth_cycle_witness :
    (checkServerHealth demoService failingStart).calls
      = [ServerCall.isAlive, ServerCall.stop, ServerCall.start] ∧
    monitoring (checkServerHealth demoService failingStart).service = true :=
  ⟨(checkServerHealth_cycle demoService failingStart).1 rfl rfl,
    by rw [(checkServerHealth_cycle demoService failingStart).2.2.2.1]; rfl⟩

/-! ## Decryption and retrieval -/

/-- C13. For a locally encrypted offer `decryptOffer` yields `DecryptionRequired` without
an encrypter, `DecryptionFailed` when the encrypter cannot decrypt, and otherwise exactly
the bytes the encrypter decrypted; for encryption mode None it yields the input bytes. -/
theorem decryptOffer_cases (svc : ClipboardService) (data : QByteArray) :
    (svc.m_encrypter = none →
      decryptOffer svc data ClipboardEncryptionType.Local
        = Except.error OfferDecryptionError.DecryptionRequired) ∧
    (∀ encrypter, svc.m_encrypter = some encrypter → encrypter.decrypt data = none →
      decryptOffer svc data ClipboardEncryptionType.Local
        = Except.error OfferDecryptionError.DecryptionFailed) ∧
    (∀ encrypter plain, svc.m_encrypter = some encrypter →
      encrypter.decrypt data = some plain →
      decryptOffer svc data ClipboardEncryptionType.Local = Except.ok plain) ∧
    decryptOffer svc data ClipboardEncryptionType.None = Except.ok data := by
  refine ⟨?_, ?_, ?_, rfl⟩
  · intro h; simp [decryptOffer, h]
  · intro e h hd; simp [decryptOffer, h, hd]
  · intro e p h hd; simp [decryptOffer, h, hd]

/-- C13, witness: bytes written under encryption are refused once encryption is off, and
are decrypted with the encrypter. -/
theorem decryptOffer_cases_witness :
    decryptOffer demoService [59] ClipboardEncryptionType.Local
      = Except.error OfferDecryptionError.DecryptionRequired ∧
    decryptOffer encryptingService [59] ClipboardEncryptionType.Local = Except.ok [97] :=
  ⟨(decryptOffer_cases demoService [59]).1 rfl,
    (decryptOffer_cases encryptingService [59]).2.2.1 xorEncrypter [97] rfl (by decide)⟩

/-- C16, the claim as stated fails: the blob of the first offer of selection `s` cannot be
read, yet `retrieveSelectionById` returns a selection, the one without that offer. -/
theorem retrieveSelectionById_skips_unreadable_blob :
    partialStore.readBlob "offer-a" = none ∧
    retrieveSelectionById demoService partialStore "s"
      = some { offers := [{ mimeType := "text/plain", data := [97] }] } := by
  decide

theorem retrieveOffers_of_undecryptable (svc : ClipboardService) (st : Store)
    (rows : List InsertClipboardOfferPayload) :
    ∀ populated : List ClipboardDataOffer,
      (∃ row ∈ rows, ∃ bytes, st.readBlob row.id = some bytes ∧
        ∃ e, decryptOffer svc bytes row.encryption = Except.error e) →
      retrieveOffers svc st rows populated = none := by
  induction rows with
  | nil => intro populated h; obtain ⟨row, hrow, _⟩ := h; simp at hrow
  | cons r rest ih =>
    intro populated h
    obtain ⟨row, hrow, bytes, hread, e, hdec⟩ := h
    unfold retrieveOffers
    cases hr : st.readBlob r.id with
    | none =>
      simp only []
      rcases List.mem_cons.mp hrow with heq | hmem
      · rw [heq, hr] at hread
        cases hread
      · exact ih populated ⟨row, hmem, bytes, hread, e, hdec⟩
    | some b =>
      simp only []
      cases hd : decryptOffer svc b r.encryption with
      | error e2 => rfl
      | ok data =>
        simp only []
        rcases List.mem_cons.mp hrow with heq | hmem
        · rw [heq, hr] at hread
          cases hread
          rw [heq, hd] at hdec
          cases hdec
        · exact ih _ ⟨row, hmem, bytes, hread, e, hdec⟩

theorem retrieveOffers_of_decryptable (svc : ClipboardService) (st : Store)
    (rows : List InsertClipboardOfferPayload) :
    ∀ populated : List ClipboardDataOffer,
      (∀ row ∈ rows, ∀ bytes, st.readBlob row.id = some bytes →
        ∃ data, decryptOffer svc bytes row.encryption = Except.ok data) →
      retrieveOffers svc st rows populated
        = some (populated ++ rows.filterMap (readableOffer svc st)) := by
  induction rows with
  | nil => intro populated _; simp [retrieveOffers]
  | cons r rest ih =>
    intro populated h
    have hrest : ∀ row ∈ rest, ∀ bytes, st.readBlob row.id = some bytes →
        ∃ data, decryptOffer svc bytes row.encryption = Except.ok data :=
      fun row hmem => h row (List.mem_cons_of_mem _ hmem)
    unfold retrieveOffers
    cases hr : st.readBlob r.id with
    | none =>
      simp only []
      rw [ih populated hrest]
      simp [List.filterMap_cons, readableOffer, hr]
    | some b =>
      obtain ⟨data, hd⟩ := h r (List.mem_cons_self _ _) b hr
      simp only [hd]
      rw [ih _ hrest]
      simp [List.filterMap_cons, readableOffer, hr, hd]

/-- C16, amended. `retrieveSelectionById(id)` returns nothing when no selection has the
id or when the blob of one of its offers can be read but not decrypted. An offer whose
blob cannot be read is skipped: when every readable blob decrypts, the result holds
exactly the offers with a readable blob, decrypted, in stored order. -/
theorem retrieveSelectionById_cases (svc : ClipboardService) (st : Store) (id : QString) :
    (st.findSelection id = none → retrieveSelectionById svc st id = none) ∧
    (∀ rows, st.findSelection id = some rows →
      (∃ row ∈ rows, ∃ bytes, st.readBlob row.id = some bytes ∧
        ∃ e, decryptOffer svc bytes row.encryption = Except.error e) →
      retrieveSelectionById svc st id = none) ∧
    (∀ rows, st.findSelection id = some rows →
      (∀ row ∈ rows, ∀ bytes, st.readBlob row.id = some bytes →
        ∃ data, decryptOffer svc bytes row.encryption = Except.ok data) →
      retrieveSelectionById svc st id
        = some { offers := rows.filterMap (readableOffer svc st) }) := by
  refine ⟨?_, ?_, ?_⟩
  · intro h
    simp [retrieveSelectionById, h]
  · intro rows h hbad
    simp [retrieveSelectionById, h, retrieveOffers_of_undecryptable svc st rows [] hbad]
  · intro rows h hgood
    simp [retrieveSelectionById, h, retrieveOffers_of_decryptable svc st rows [] hgood]

/-- C16, witness: the selection `s` with one missing blob comes back without that offer;
with encryption off a locally encrypted blob makes the whole retrieval fail. -/
theorem retrieveSelectionById_cases_witness :
    retrieveSelectionById demoService partialStore "s"
      = some { offers := partialStore.offers.filterMap (readableOffer demoService partialStore) } ∧
    retrieveSelectionById demoService partialStore "t" = none :=
  ⟨(retrieveSelectionById_cases demoService partialStore "s").2.2 partialStore.offers
      (by decide)
      (fun row hmem bytes _ => by
        simp only [partialStore, List.mem_cons, List.mem_singleton, List.not_mem_nil,
          or_false] at hmem
        rcases hmem with h | h <;> subst h <;> exact ⟨bytes, rfl⟩),
    (retrieveSelectionById_cases demoService partialStore "t").1 (by decide)⟩

/-- C17 (defect of the code). For an id without a stored selection, and for a selection
whose preferred blob is missing, `getMainOfferData` returns a success value, the empty
byte array, where the claim promises a typed failure. -/
theorem getMainOfferData_returns_empty_success :
    emptyStore.findPreferredOffer "missing" = none ∧
    getMainOfferData demoService emptyStore "missing" = Except.ok [] ∧
    blobless.readBlob "offer-b" = none ∧
    getMainOfferData demoService blobless "s" = Except.ok [] :=
  ⟨by decide, rfl, by decide, rfl⟩

/-! ## Removal -/

theorem find?_filter_ne (name other : QString) (l : List (QString × QByteArray)) :
    (l.filter (fun f => f.1 != name)).find? (fun f => f.1 == other)
      = if other = name then none else l.find? (fun f => f.1 == other) := by
  induction l with
  | nil => simp
  | cons f fs ih =>
    by_cases hf : f.1 = name
    · have hkeep : (f.1 != name) = false := by simp [hf]
      have hfl : List.filter (fun f : QString × QByteArray => f.1 != name) (f :: fs)
          = List.filter (fun f : QString × QByteArray => f.1 != name) fs := by
        simp [List.filter_cons, hf]
      rw [hfl, ih]
      by_cases ho : other = name
      · simp [ho]
      · have hne : (f.1 == other) = false := by
          rw [hf]
          simpa using fun h => ho h.symm
        simp only [ho, if_false]
        simp [List.find?_cons, hne]
    · have hkeep : (f.1 != name) = true := by simp [hf]
      have hfl : List.filter (fun f : QString × QByteArray => f.1 != name) (f :: fs)
          = f :: List.filter (fun f : QString × QByteArray => f.1 != name) fs := by
        simp [List.filter_cons, hf]
      rw [hfl]
      by_cases hfo : f.1 = other
      · have ho : ¬ other = name := fun h => hf (hfo.trans h)
        have heq : (f.1 == other) = true := by simp [hfo]
        simp [List.find?_cons, heq, ho]
      · have hne : (f.1 == other) = false := by simpa using hfo
        simp only [List.find?_cons, hne]
        exact ih

theorem readBlob_removeBlob (st : Store) (name other : QString) :
    (st.removeBlob name).readBlob other
      = if other = name then none else st.readBlob other := by
  unfold Store.removeBlob Store.readBlob
  simp only []
  rw [find?_filter_ne]
  by_cases ho : other = name <;> simp [ho]

theorem foldl_removeBlob_rows (ids : List QString) :
    ∀ st : Store,
      (ids.foldl (fun files offer => files.removeBlob offer) st).selections = st.selections ∧
      (ids.foldl (fun files offer => files.removeBlob offer) st).offers = st.offers := by
  induction ids with
  | nil => intro st; exact ⟨rfl, rfl⟩
  | cons x xs ih =>
    intro st
    rw [List.foldl_cons]
    exact ⟨(ih _).1, (ih _).2⟩

theorem readBlob_foldl_removeBlob (ids : List QString) :
    ∀ (st : Store) (other : QString),
      (ids.foldl (fun files offer => files.removeBlob offer) st).readBlob other
        = if other ∈ ids then none else st.readBlob other := by
  induction ids with
  | nil => intro st other; simp
  | cons x xs ih =>
    intro st other
    rw [List.foldl_cons, ih, readBlob_removeBlob]
    by_cases h1 : other ∈ xs
    · simp [h1]
    · by_cases h2 : other = x
      · simp [h1, h2]
      · simp [h1, h2]

/-- C18. After `removeSelection(id)` the selection cannot be retrieved, no blob file bears
the id of an offer that belonged to it, the rows of every other selection are the rows
there were, and every blob file not named after an offer of the removed selection reads
as before. -/
theorem removeSelection_removes (svc : ClipboardService) (st : Store) (id : QString) :
    retrieveSelectionById svc (removeSelection st id).2.1 id = none ∧
    (∀ row ∈ st.offers, row.selectionId = id →
      (removeSelection st id).2.1.readBlob row.id = none) ∧
    (removeSelection st id).2.1.selections = st.selections.filter (fun row => row.id != id) ∧
    (removeSelection st id).2.1.offers
      = st.offers.filter (fun offer => offer.selectionId != id) ∧
    (∀ name, (∀ row ∈ st.offers, row.selectionId = id → row.id ≠ name) →
      (removeSelection st id).2.1.readBlob name = st.readBlob name) ∧
    (removeSelection st id).1 = true ∧
    (removeSelection st id).2.2 = [Signal.selectionRemoved id] := by
  have hrows := foldl_removeBlob_rows
    ((st.offers.filter (fun offer => offer.selectionId == id)).map InsertClipboardOfferPayload.id)
    (st.removeSelection id).1
  have hsel : (removeSelection st id).2.1.selections
      = st.selections.filter (fun row => row.id != id) := hrows.1
  have hoff : (removeSelection st id).2.1.offers
      = st.offers.filter (fun offer => offer.selectionId != id) := hrows.2
  have hread : ∀ other, (removeSelection st id).2.1.readBlob other
      = if other ∈ (st.offers.filter (fun offer => offer.selectionId == id)).map
          InsertClipboardOfferPayload.id then none else st.readBlob other := by
    intro other
    exact readBlob_foldl_removeBlob _ (st.removeSelection id).1 other
  refine ⟨?_, ?_, hsel, hoff, ?_, rfl, rfl⟩
  · have hfind : (removeSelection st id).2.1.findSelection id = none := by
      unfold Store.findSelection
      rw [hsel]
      simp
    simp [retrieveSelectionById, hfind]
  · intro row hrow hid
    rw [hread]
    have : row.id ∈ (st.offers.filter (fun offer => offer.selectionId == id)).map
        InsertClipboardOfferPayload.id :=
      List.mem_map.mpr ⟨row, List.mem_filter.mpr ⟨hrow, by simp [hid]⟩, rfl⟩
    simp [this]
  · intro name hname
    rw [hread]
    have : ¬ name ∈ (st.offers.filter (fun offer => offer.selectionId == id)).map
        InsertClipboardOfferPayload.id := by
      intro hmem
      obtain ⟨row, hrow, hrid⟩ := List.mem_map.mp hmem
      obtain ⟨hin, hsid⟩ := List.mem_filter.mp hrow
      exact hname row hin (by simpa using hsid) hrid
    simp [this]

/-- C18, witness: removing the selection `s` from the store that holds it. -/
theorem removeSelection_removes_witness :
    retrieveSelectionById demoService (removeSelection partialStore "s").2.1 "s" = none ∧
    (removeSelection partialStore "s").2.1.readBlob "offer-b" = none ∧
    partialStore.readBlob "offer-b" = some [97] :=
  ⟨(removeSelection_removes demoService partialStore "s").1,
    (removeSelection_removes demoService partialStore "s").2.1
      { id := "offer-b", selectionId := "s", mimeType := "text/plain", textPreview := "a",
        md5sum := "", encryption := ClipboardEncryptionType.None, size := 1 }
      (by decide) rfl,
    by decide⟩

/-! ## Offer rows and blob files written by ingestion -/

theorem readBlob_writeBlob (st : Store) (name other : QString) (content : QByteArray) :
    (st.writeBlob name content).readBlob other
      = if other = name then some content else st.readBlob other := by
  unfold Store.writeBlob Store.readBlob
  simp only [List.find?_append, find?_filter_ne]
  by_cases ho : other = name
  · simp [ho]
  · have hne : ((name == other) = false) := by simpa using fun h => ho h.symm
    simp [ho, List.find?_cons, hne]

theorem writeBlob_selections (st : Store) (name : QString) (content : QByteArray) :
    (st.writeBlob name content).selections = st.selections := rfl

theorem writeBlob_offers (st : Store) (name : QString) (content : QByteArray) :
    (st.writeBlob name content).offers = st.offers := rfl

theorem readBlob_insertOffer (st : Store) (dto : InsertClipboardOfferPayload) (name : QString) :
    (st.insertOffer dto).readBlob name = st.readBlob name := rfl

theorem indexed_db_rows (b : Bool) (st : Store) (selectionId : QString) (content : QByteArray) :
    (if b = true then st.indexSelectionContent selectionId content else st).selections
        = st.selections ∧
    (if b = true then st.indexSelectionContent selectionId content else st).offers
        = st.offers ∧
    (if b = true then st.indexSelectionContent selectionId content else st).blobs
        = st.blobs := by
  cases b <;> exact ⟨rfl, rfl, rfl⟩

theorem saveOffer_eq (P : Platform) (svc : ClipboardService) (o : Oracle)
    (selectionId preferredMimeType : QString) (i : Nat) (offer : ClipboardDataOffer)
    (s : OfferLoopState) :
    ∃ (db0 : Store) (entry : ClipboardHistoryEntry),
      db0.selections = s.db.selections ∧ db0.offers = s.db.offers ∧
      db0.blobs = s.db.blobs ∧
      saveOffer P svc o selectionId preferredMimeType i offer s
        = if ((getKind P offer == .Text || getKind P offer == .Link) && !offer.data.isEmpty)
              && !o.indexOk i then (false, s)
          else if !o.insertOfferOk i then (false, ⟨db0, s.insertedEntry⟩)
          else if !o.openOk i then
            (true, ⟨db0.insertOffer (offerRow P svc o selectionId i offer), s.insertedEntry⟩)
          else
            match svc.m_encrypter with
            | some encrypter =>
              match encrypter.encrypt offer.data with
              | some encrypted =>
                (true, ⟨(((db0.insertOffer (offerRow P svc o selectionId i offer)).writeBlob
                  (o.offerId i) []).writeBlob (o.offerId i) (o.written i encrypted)), entry⟩)
              | none =>
                (false, ⟨((db0.insertOffer (offerRow P svc o selectionId i offer)).writeBlob
                  (o.offerId i) []), s.insertedEntry⟩)
            | none =>
              (true, ⟨(((db0.insertOffer (offerRow P svc o selectionId i offer)).writeBlob
                (o.offerId i) []).writeBlob (o.offerId i) (o.written i offer.data)), entry⟩) := by
  have hdb := indexed_db_rows
    ((getKind P offer == .Text || getKind P offer == .Link) && !offer.data.isEmpty)
    s.db selectionId offer.data
  refine ⟨_,
    (if offer.mimeType == preferredMimeType then
      { id := selectionId, pinnedAt := 0, updatedAt := 0, mimeType := offer.mimeType,
        md5sum := QCryptographicHash.toHex (QCryptographicHash.md5 offer.data),
        textPreview := getOfferTextPreview P offer }
     else s.insertedEntry), hdb.1, hdb.2.1, hdb.2.2, ?_⟩
  unfold saveOffer offerRow
  rfl

theorem saveOffer_true (P : Platform) (svc : ClipboardService) (o : Oracle)
    (selectionId preferredMimeType : QString) (i : Nat) (offer : ClipboardDataOffer)
    (s s1 : OfferLoopState)
    (h : saveOffer P svc o selectionId preferredMimeType i offer s = (true, s1)) :
    s1.db.selections = s.db.selections ∧
    s1.db.offers = s.db.offers ++ [offerRow P svc o selectionId i offer] ∧
    (o.openOk i = true →
      s1.db.readBlob (o.offerId i) = (storedBytes svc offer.data).map (o.written i) ∧
      (storedBytes svc offer.data).isSome = true) ∧
    (o.openOk i = false → s1.db.blobs = s.db.blobs) ∧
    (∀ name, name ≠ o.offerId i → s1.db.readBlob name = s.db.readBlob name) := by
  obtain ⟨db0, entry, hsel, hoff, hblobs, heq⟩ :=
    saveOffer_eq P svc o selectionId preferredMimeType i offer s
  rw [heq] at h
  have hread : ∀ name, db0.readBlob name = s.db.readBlob name := by
    intro name
    unfold Store.readBlob
    rw [hblobs]
  split_ifs at h with h1 h2 h3
  · exact absurd (Prod.mk.inj h).1 (by simp)
  · exact absurd (Prod.mk.inj h).1 (by simp)
  · have hs1 := (Prod.mk.inj h).2
    subst hs1
    have hopen : o.openOk i = false := by simpa using h3
    refine ⟨hsel, ?_, ?_, ?_, ?_⟩
    · simp [Store.insertOffer, hoff]
    · intro hc; rw [hopen] at hc; exact absurd hc (by simp)
    · intro _; exact hblobs
    · intro name _; rw [readBlob_insertOffer]; exact hread name
  · have hopen : o.openOk i = true := by simpa using h3
    cases henc : svc.m_encrypter with
    | none =>
      rw [henc] at h
      have hs1 := (Prod.mk.inj h).2
      subst hs1
      refine ⟨hsel, ?_, ?_, ?_, ?_⟩
      · simp [writeBlob_offers, Store.insertOffer, hoff]
      · intro _
        simp [readBlob_writeBlob, storedBytes, henc]
      · intro hc; rw [hopen] at hc; exact absurd hc (by simp)
      · intro name hname
        simp [readBlob_writeBlob, hname, readBlob_insertOffer, hread]
    | some encrypter =>
      rw [henc] at h
      cases hcipher : encrypter.encrypt offer.data with
      | none =>
        simp only [hcipher] at h
        exact absurd (Prod.mk.inj h).1 (by simp)
      | some encrypted =>
        simp only [hcipher] at h
        have hs1 := (Prod.mk.inj h).2
        subst hs1
        refine ⟨hsel, ?_, ?_, ?_, ?_⟩
        · simp [writeBlob_offers, Store.insertOffer, hoff]
        · intro _
          simp [readBlob_writeBlob, storedBytes, henc, hcipher]
        · intro hc; rw [hopen] at hc; exact absurd hc (by simp)
        · intro name hname
          simp [readBlob_writeBlob, hname, readBlob_insertOffer, hread]

theorem offerRows_length (P : Platform) (svc : ClipboardService) (o : Oracle)
    (selectionId : QString) (offers : List ClipboardDataOffer) :
    ∀ i, (offerRows P svc o selectionId i offers).length = offers.length := by
  induction offers with
  | nil => intro i; rfl
  | cons offer rest ih => intro i; simp [offerRows, ih]

theorem offerRows_getElem? (P : Platform) (svc : ClipboardService) (o : Oracle)
    (selectionId : QString) (offers : List ClipboardDataOffer) :
    ∀ i j, (offerRows P svc o selectionId i offers)[j]?
      = offers[j]?.map (fun offer => offerRow P svc o selectionId (i + j) offer) := by
  induction offers with
  | nil => intro i j; simp [offerRows]
  | cons offer rest ih =>
    intro i j
    cases j with
    | zero => simp [offerRows]
    | succ j =>
      have harith : i + (j + 1) = i + 1 + j := by omega
      simp [offerRows, ih, harith]

theorem saveOffers_true (P : Platform) (svc : ClipboardService) (o : Oracle)
    (selectionId preferredMimeType : QString) (offers : List ClipboardDataOffer) :
    ∀ (i : Nat) (s s1 : OfferLoopState),
      saveOffers P svc o selectionId preferredMimeType i offers s = (true, s1) →
      (∀ j, j < offers.length → ∀ k, k < offers.length →
        o.offerId (i + j) = o.offerId (i + k) → j = k) →
      s1.db.selections = s.db.selections ∧
      s1.db.offers = s.db.offers ++ offerRows P svc o selectionId i offers ∧
      (∀ j offer, offers[j]? = some offer → o.openOk (i + j) = true →
        s1.db.readBlob (o.offerId (i + j))
          = (storedBytes svc offer.data).map (o.written (i + j)) ∧
        (storedBytes svc offer.data).isSome = true) ∧
      (∀ j, j < offers.length → o.openOk (i + j) = false →
        s1.db.readBlob (o.offerId (i + j)) = s.db.readBlob (o.offerId (i + j))) ∧
      (∀ name, (∀ j, j < offers.length → name ≠ o.offerId (i + j)) →
        s1.db.readBlob name = s.db.readBlob name) := by
  induction offers with
  | nil =>
    intro i s s1 h _
    simp only [saveOffers] at h
    have hs := (Prod.mk.inj h).2
    subst hs
    refine ⟨rfl, by simp [offerRows], ?_, ?_, ?_⟩
    · intro j offer hj; simp at hj
    · intro j hj; simp at hj
    · intro name _; rfl
  | cons offer rest ih =>
    intro i s s1 h hids
    unfold saveOffers at h
    split at h
    · rename_i s2 heq
      obtain ⟨hsel, hoff, hopen, hclosed, hother⟩ :=
        saveOffer_true P svc o selectionId preferredMimeType i offer s s2 heq
      have hids2 : ∀ j, j < rest.length → ∀ k, k < rest.length →
          o.offerId (i + 1 + j) = o.offerId (i + 1 + k) → j = k := by
        intro j hj k hk hjk
        have h1 : i + 1 + j = i + (j + 1) := by omega
        have h2 : i + 1 + k = i + (k + 1) := by omega
        rw [h1, h2] at hjk
        have := hids (j + 1) (by simpa using hj) (k + 1) (by simpa using hk) hjk
        omega
      have hfresh : ∀ j, j < rest.length → o.offerId i ≠ o.offerId (i + 1 + j) := by
        intro j hj hc
        have h1 : i + 1 + j = i + (j + 1) := by omega
        rw [h1] at hc
        have := hids 0 (by simp) (j + 1) (by simpa using hj) (by simpa using hc)
        omega
      obtain ⟨isel, ioff, iopen, iclosed, iother⟩ := ih (i + 1) s2 s1 h hids2
      refine ⟨isel.trans hsel, ?_, ?_, ?_, ?_⟩
      · rw [ioff, hoff]
        simp [offerRows]
      · intro j x hj hok
        cases j with
        | zero =>
          have hx : offer = x := by simpa using hj
          subst hx
          rw [Nat.add_zero] at hok ⊢
          rw [iother (o.offerId i) hfresh]
          exact hopen hok
        | succ j =>
          have h1 : i + (j + 1) = i + 1 + j := by omega
          rw [h1] at hok ⊢
          exact iopen j x (by simpa using hj) hok
      · intro j hj hok
        cases j with
        | zero =>
          rw [Nat.add_zero] at hok ⊢
          rw [iother (o.offerId i) hfresh]
          unfold Store.readBlob
          rw [hclosed hok]
        | succ j =>
          have h1 : i + (j + 1) = i + 1 + j := by omega
          rw [h1] at hok ⊢
          rw [iclosed j (by simpa using hj) hok]
          apply hother
          intro hc
          exact hfresh j (by simpa using hj) hc.symm
      · intro name hname
        have hrest : ∀ j, j < rest.length → name ≠ o.offerId (i + 1 + j) := by
          intro j hj
          have h1 : i + 1 + j = i + (j + 1) := by omega
          rw [h1]
          exact hname (j + 1) (by simpa using hj)
        rw [iother name hrest]
        exact hother name (by simpa using hname 0 (by simp))
    · exact absurd (Prod.mk.inj h).1 (by simp)

theorem saveSelection_stored (P : Platform) (svc : ClipboardService) (o : Oracle)
    (st : Store) (s : ClipboardSelection)
    (h : st.selections.length < (saveSelection P svc o st s).1.selections.length) :
    ∃ (db0 : Store) (s1 : OfferLoopState),
      db0.offers = st.offers ∧ db0.blobs = st.blobs ∧
      db0.selections.any (fun row => row.id == o.selectionId) = true ∧
      saveOffers P svc o o.selectionId
        (getSelectionPreferredMimeType (sanitizeSelection P svc.m_autoPathToUri s)) 0
        (sanitizeSelection P svc.m_autoPathToUri s).offers
        { db := db0, insertedEntry := {} } = (true, s1) ∧
      saveSelection P svc o st s = (s1.db, [Signal.itemInserted s1.insertedEntry]) := by
  unfold saveSelection at h ⊢
  simp only [] at h ⊢
  split_ifs at h ⊢
  · exact absurd h (by simp)
  · exact absurd h (by simp)
  · exact absurd h (by simp)
  · exact absurd h (by simp)
  · rcases hfind : (sanitizeSelection P svc.m_autoPathToUri s).offers.find?
        (fun offer => offer.mimeType
          == getSelectionPreferredMimeType (sanitizeSelection P svc.m_autoPathToUri s))
      with _ | p
    · simp only [hfind] at h
      exact absurd h (by simp)
    · simp only [hfind] at h ⊢
      split_ifs at h ⊢
      · exact absurd h (by simp)
      · exact absurd h (by simp)
      · simp only [Store.transaction, saveTransactionBody] at h ⊢
        have hlen := (tryBubbleUpSelection_blobs st o.now
          (QCryptographicHash.toHex (QCryptographicHash.md5 p.data))).2.2.2
        cases hb : (st.tryBubbleUpSelection o.now
            (QCryptographicHash.toHex (QCryptographicHash.md5 p.data))).2 with
        | true =>
          simp only [hb, if_true] at h
          split_ifs at h
          · simp only [] at h
            omega
          · simp only [] at h
            omega
        | false =>
          simp only [hb, Bool.false_eq_true, if_false] at h ⊢
          cases hi : o.insertSelectionOk with
          | false =>
            simp [hi] at h
          | true =>
            simp only [hi, Bool.not_true, Bool.false_eq_true, if_false] at h ⊢
            generalize hso : saveOffers P svc o o.selectionId _ 0 _ _ = res at h ⊢
            obtain ⟨ok, s1⟩ := res
            cases ok with
            | false => simp at h
            | true =>
              cases hc : o.commitOk with
              | false => simp [hc] at h
              | true =>
                refine ⟨_, s1, ?_, ?_, ?_, hso, ?_⟩
                · rfl
                · rfl
                · simp [Store.insertSelection]
                · simp [hc]

theorem offerRow_fields (P : Platform) (svc : ClipboardService) (o : Oracle)
    (selectionId : QString) (i : Nat) (offer : ClipboardDataOffer) :
    (offerRow P svc o selectionId i offer).id = o.offerId i ∧
    (offerRow P svc o selectionId i offer).selectionId = selectionId ∧
    (offerRow P svc o selectionId i offer).mimeType = offer.mimeType ∧
    (offerRow P svc o selectionId i offer).encryption
      = if svc.m_encrypter.isSome then .Local else .None := by
  unfold offerRow
  simp only []
  split_ifs <;> exact ⟨rfl, rfl, rfl, by simp [*]⟩

theorem decryptOffer_storedBytes (svc : ClipboardService) (data c : QByteArray)
    (hround : ∀ e, svc.m_encrypter = some e → ∀ b c, e.encrypt b = some c → e.decrypt c = some b)
    (hc : storedBytes svc data = some c) :
    decryptOffer svc c (if svc.m_encrypter.isSome then .Local else .None) = .ok data := by
  unfold storedBytes at hc
  cases henc : svc.m_encrypter with
  | none =>
    rw [henc] at hc
    have hcd : data = c := by simpa using hc
    subst hcd
    simp [decryptOffer]
  | some e =>
    rw [henc] at hc
    have hdec := hround e henc data c hc
    simp [decryptOffer, henc, hdec]

theorem retrieveOffers_offerRows (P : Platform) (svc : ClipboardService) (o : Oracle)
    (selectionId : QString) (st : Store) (offers : List ClipboardDataOffer) :
    ∀ (i : Nat) (populated : List ClipboardDataOffer),
      (∀ j offer, offers[j]? = some offer → ∃ c, st.readBlob (o.offerId (i + j)) = some c ∧
        decryptOffer svc c (offerRow P svc o selectionId (i + j) offer).encryption
          = .ok offer.data) →
      retrieveOffers svc st (offerRows P svc o selectionId i offers) populated
        = some (populated ++ offers) := by
  induction offers with
  | nil => intro i populated _; simp [offerRows, retrieveOffers]
  | cons offer rest ih =>
    intro i populated hall
    obtain ⟨c, hread, hdec⟩ := hall 0 offer (by simp)
    rw [Nat.add_zero] at hread hdec
    have hf := offerRow_fields P svc o selectionId i offer
    unfold offerRows retrieveOffers
    rw [hf.1, hread]
    simp only [hdec, hf.2.2.1]
    rw [ih (i + 1)]
    · simp
    · intro j x hj
      have h1 : i + 1 + j = i + (j + 1) := by omega
      rw [h1]
      exact hall (j + 1) x (by simpa using hj)

theorem filter_offerRows (P : Platform) (svc : ClipboardService) (o : Oracle)
    (selectionId : QString) (offers : List ClipboardDataOffer) :
    ∀ i, (offerRows P svc o selectionId i offers).filter
        (fun row => row.selectionId == selectionId)
      = offerRows P svc o selectionId i offers := by
  induction offers with
  | nil => intro i; rfl
  | cons offer rest ih =>
    intro i
    have hf := (offerRow_fields P svc o selectionId i offer).2.1
    simp [offerRows, List.filter_cons, hf, ih]

/-! ## Encryption marks and blob contents -/

set_option maxRecDepth 100000 in
/-- C14: a run of `saveSelection` with encryption disabled in which the blob file of the
first offer cannot be opened for writing stores the selection with both offer rows, marked
None, and the blob directory holds no file for the first row, where the claim has the blob
of every row hold the bytes of the offer. -/
theorem saveSelection_row_without_blob :
    (saveSelection demoPlatform demoService blockedOracle emptyStore
        letterHtmlSelection).1.selections.map SelectionRow.id = ["first-selection"] ∧
    (saveSelection demoPlatform demoService blockedOracle emptyStore
        letterHtmlSelection).1.offers.map
          (fun row => (row.id, row.mimeType, row.encryption))
      = [("first-offer-a", "text/html", ClipboardEncryptionType.None),
         ("first-offer-b", "text/plain", ClipboardEncryptionType.None)] ∧
    (saveSelection demoPlatform demoService blockedOracle emptyStore
        letterHtmlSelection).1.readBlob "first-offer-a" = none ∧
    (saveSelection demoPlatform demoService blockedOracle emptyStore
        letterHtmlSelection).1.readBlob "first-offer-b" = some [97] := by
  decide

/-- The runs without the failure: when `saveSelection` stores a new selection, the offer
ids drawn are pairwise distinct and every write stores the bytes it is given, it adds one
offer row per offer of the sanitized selection, in order, under the drawn id and with the
MIME type of the offer. With encryption disabled every row is marked None and the blob of
a row whose file was opened holds the bytes of the offer; with encryption enabled every
row is marked Local and the blob of a row whose file was opened holds the encryption of
the bytes of the offer. -/
theorem saveSelection_marks_and_writes (P : Platform) (svc : ClipboardService) (o : Oracle)
    (st : Store) (s : ClipboardSelection)
    (hstored : st.selections.length < (saveSelection P svc o st s).1.selections.length)
    (hids : ∀ i, i < (sanitizeSelection P svc.m_autoPathToUri s).offers.length →
      ∀ j, j < (sanitizeSelection P svc.m_autoPathToUri s).offers.length →
        o.offerId i = o.offerId j → i = j)
    (hwrite : ∀ i bytes, o.written i bytes = bytes) :
    ∃ rows : List InsertClipboardOfferPayload,
      (saveSelection P svc o st s).1.offers = st.offers ++ rows ∧
      rows.length = (sanitizeSelection P svc.m_autoPathToUri s).offers.length ∧
      ∀ i offer, (sanitizeSelection P svc.m_autoPathToUri s).offers[i]? = some offer →
        ∃ row, rows[i]? = some row ∧ row.id = o.offerId i ∧
          row.selectionId = o.selectionId ∧ row.mimeType = offer.mimeType ∧
          (svc.m_encrypter = none →
            row.encryption = ClipboardEncryptionType.None ∧
            (o.openOk i = true →
              (saveSelection P svc o st s).1.readBlob row.id = some offer.data)) ∧
          (∀ e, svc.m_encrypter = some e →
            row.encryption = ClipboardEncryptionType.Local ∧
            (o.openOk i = true → ∃ c, e.encrypt offer.data = some c ∧
              (saveSelection P svc o st s).1.readBlob row.id = some c)) := by
  obtain ⟨db0, s1, hoff0, _, _, hso, hsave⟩ := saveSelection_stored P svc o st s hstored
  obtain ⟨_, hoff, hopen, _, _⟩ := saveOffers_true P svc o o.selectionId _ _ 0 _ s1 hso
    (by simpa using hids)
  rw [hsave]
  refine ⟨offerRows P svc o o.selectionId 0 (sanitizeSelection P svc.m_autoPathToUri s).offers,
    ?_, offerRows_length P svc o o.selectionId _ 0, ?_⟩
  · rw [hoff, hoff0]
  · intro i offer hi
    have hf := offerRow_fields P svc o o.selectionId i offer
    refine ⟨offerRow P svc o o.selectionId i offer, ?_, hf.1, hf.2.1, hf.2.2.1, ?_, ?_⟩
    · rw [offerRows_getElem?, hi]
      simp
    · intro henc
      refine ⟨by rw [hf.2.2.2]; simp [henc], ?_⟩
      intro hok
      have hb := (hopen i offer hi (by simpa using hok)).1
      rw [Nat.zero_add] at hb
      rw [hf.1]
      simpa [storedBytes, henc, hwrite] using hb
    · intro e henc
      refine ⟨by rw [hf.2.2.2]; simp [henc], ?_⟩
      intro hok
      obtain ⟨hb, hsome⟩ := hopen i offer hi (by simpa using hok)
      rw [Nat.zero_add] at hb
      rw [hf.1]
      simp only [storedBytes, henc] at hb hsome
      obtain ⟨c, hc⟩ := Option.isSome_iff_exists.mp hsome
      exact ⟨c, hc, by rw [hb, hc]; simp [hwrite]⟩

set_option maxRecDepth 100000 in
/-- An instance of `saveSelection_marks_and_writes`: the selection with an HTML and a
plain-text offer, stored with encryption enabled. -/
theorem saveSelection_marks_and_writes_witness :
    emptyStore.selections.length
      < (saveSelection demoPlatform encryptingService (demoOracle 100 "first") emptyStore
          letterHtmlSelection).1.selections.length ∧
    ∃ rows : List InsertClipboardOfferPayload,
      (saveSelection demoPlatform encryptingService (demoOracle 100 "first") emptyStore
          letterHtmlSelection).1.offers = emptyStore.offers ++ rows ∧
      rows.length
        = (sanitizeSelection demoPlatform encryptingService.m_autoPathToUri
            letterHtmlSelection).offers.length ∧
      ∀ i offer,
        (sanitizeSelection demoPlatform encryptingService.m_autoPathToUri
            letterHtmlSelection).offers[i]? = some offer →
        ∃ row, rows[i]? = some row ∧ row.id = (demoOracle 100 "first").offerId i ∧
          row.selectionId = (demoOracle 100 "first").selectionId ∧
          row.mimeType = offer.mimeType ∧
          (encryptingService.m_encrypter = none →
            row.encryption = ClipboardEncryptionType.None ∧
            ((demoOracle 100 "first").openOk i = true →
              (saveSelection demoPlatform encryptingService (demoOracle 100 "first") emptyStore
                letterHtmlSelection).1.readBlob row.id = some offer.data)) ∧
          (∀ e, encryptingService.m_encrypter = some e →
            row.encryption = ClipboardEncryptionType.Local ∧
            ((demoOracle 100 "first").openOk i = true → ∃ c, e.encrypt offer.data = some c ∧
              (saveSelection demoPlatform encryptingService (demoOracle 100 "first") emptyStore
                letterHtmlSelection).1.readBlob row.id = some c)) :=
  ⟨by decide,
    saveSelection_marks_and_writes demoPlatform encryptingService (demoOracle 100 "first")
      emptyStore letterHtmlSelection (by decide) (by decide) (fun _ _ => rfl)⟩

/-! ## Round trip -/

set_option maxRecDepth 100000 in
/-- C15: in a run of `saveSelection` in which the blob file of the first offer cannot be
opened for writing, the selection is stored under `first-selection` with an encrypter that
decrypts what it encrypts, the sanitized selection has an HTML and a plain-text offer, and
`retrieveSelectionById` of that id yields the plain-text offer alone, where the claim has
it yield both offers. -/
theorem retrieveSelectionById_after_blocked_write :
    (saveSelection demoPlatform encryptingService blockedOracle emptyStore
        letterHtmlSelection).1.selections.map SelectionRow.id = ["first-selection"] ∧
    (sanitizeSelection demoPlatform encryptingService.m_autoPathToUri
        letterHtmlSelection).offers
      = [{ mimeType := "text/html", data := QString.toUtf8 "<b>a</b>" },
         { mimeType := "text/plain", data := [97] }] ∧
    retrieveSelectionById encryptingService
        (saveSelection demoPlatform encryptingService blockedOracle emptyStore
          letterHtmlSelection).1 "first-selection"
      = some { offers := [{ mimeType := "text/plain", data := [97] }] } := by
  decide

/-- The runs without the failure: when `saveSelection` stores a new selection under the id
drawn for it, every blob file could be opened for writing, every write stores the bytes it
is given, the offer ids drawn are pairwise distinct, no offer row held that selection id
before, and the encrypter (when there is one) decrypts what it encrypts, then
`retrieveSelectionById` of that id, with the same encryption setting, yields the offers of
the sanitized selection: the same MIME types and bytes, in the same order. -/
theorem saveSelection_round_trip (P : Platform) (svc : ClipboardService) (o : Oracle)
    (st : Store) (s : ClipboardSelection)
    (hstored : st.selections.length < (saveSelection P svc o st s).1.selections.length)
    (hopen : ∀ i, i < (sanitizeSelection P svc.m_autoPathToUri s).offers.length →
      o.openOk i = true)
    (hwrite : ∀ i bytes, o.written i bytes = bytes)
    (hids : ∀ i, i < (sanitizeSelection P svc.m_autoPathToUri s).offers.length →
      ∀ j, j < (sanitizeSelection P svc.m_autoPathToUri s).offers.length →
        o.offerId i = o.offerId j → i = j)
    (hfresh : ∀ row ∈ st.offers, row.selectionId ≠ o.selectionId)
    (hround : ∀ e, svc.m_encrypter = some e →
      ∀ b c, e.encrypt b = some c → e.decrypt c = some b) :
    retrieveSelectionById svc (saveSelection P svc o st s).1 o.selectionId
      = some { offers := (sanitizeSelection P svc.m_autoPathToUri s).offers } := by
  obtain ⟨db0, s1, hoff0, _, hany, hso, hsave⟩ := saveSelection_stored P svc o st s hstored
  obtain ⟨hsel, hoff, hblob, _, _⟩ := saveOffers_true P svc o o.selectionId _ _ 0 _ s1 hso
    (by simpa using hids)
  rw [hsave]
  have hold : st.offers.filter (fun row => row.selectionId == o.selectionId) = [] := by
    rw [List.filter_eq_nil_iff]
    intro row hrow
    simpa using hfresh row hrow
  have hfind : s1.db.findSelection o.selectionId
      = some (offerRows P svc o o.selectionId 0
          (sanitizeSelection P svc.m_autoPathToUri s).offers) := by
    unfold Store.findSelection
    rw [hsel]
    simp only [hany, if_true]
    rw [hoff, hoff0, List.filter_append, hold, filter_offerRows]
    simp
  have hall : ∀ j offer, (sanitizeSelection P svc.m_autoPathToUri s).offers[j]? = some offer →
      ∃ c, s1.db.readBlob (o.offerId (0 + j)) = some c ∧
        decryptOffer svc c (offerRow P svc o o.selectionId (0 + j) offer).encryption
          = .ok offer.data := by
    intro j offer hj
    have hlt : j < (sanitizeSelection P svc.m_autoPathToUri s).offers.length :=
      (List.getElem?_eq_some_iff.mp hj).1
    obtain ⟨hb, hsome⟩ := hblob j offer hj (by simpa using hopen j hlt)
    obtain ⟨c, hc⟩ := Option.isSome_iff_exists.mp hsome
    refine ⟨c, by rw [hb, hc]; simp [hwrite], ?_⟩
    rw [(offerRow_fields P svc o o.selectionId (0 + j) offer).2.2.2]
    exact decryptOffer_storedBytes svc offer.data c hround hc
  simp only [retrieveSelectionById, hfind]
  rw [retrieveOffers_offerRows P svc o o.selectionId s1.db _ 0 [] hall]
  simp

set_option maxRecDepth 100000 in
/-- An instance of `saveSelection_round_trip`: the selection with an HTML and a plain-text
offer, stored and retrieved with an encrypter that decrypts what it encrypts. -/
theorem saveSelection_round_trip_witness :
    retrieveSelectionById encryptingService
        (saveSelection demoPlatform encryptingService (demoOracle 100 "first") emptyStore
          letterHtmlSelection).1 "first-selection"
      = some { offers := [{ mimeType := "text/html", data := QString.toUtf8 "<b>a</b>" },
                          { mimeType := "text/plain", data := [97] }] } :=
  saveSelection_round_trip demoPlatform encryptingService (demoOracle 100 "first")
    emptyStore letterHtmlSelection (by decide) (by decide) (fun _ _ => rfl) (by decide)
    (by intro row hrow; simp [emptyStore] at hrow)
    (by
      intro e he b c hc
      have hx : xorEncrypter = e := by
        simpa [encryptingService, demoService] using he
      subst hx
      simp only [xorEncrypter, Option.some.injEq] at hc ⊢
      subst hc
      simp [List.map_map, Function.comp_def, Nat.xor_assoc])

/-! ## Atomicity of ingestion and the item-inserted notification -/

set_option maxRecDepth 100000 in
/-- C19: a run of `saveSelection` in which the blob file of the first offer cannot be opened
for writing commits the selection row and both offer rows, while the blob directory holds
a file for the second row only; a run in which the row of the second offer cannot be
inserted commits no row at all. -/
theorem saveSelection_commits_row_without_blob :
    (saveSelection demoPlatform encryptingService blockedOracle emptyStore
        letterHtmlSelection).1.selections.map SelectionRow.id = ["first-selection"] ∧
    (saveSelection demoPlatform encryptingService blockedOracle emptyStore
        letterHtmlSelection).1.offers.map InsertClipboardOfferPayload.id
      = ["first-offer-a", "first-offer-b"] ∧
    (saveSelection demoPlatform encryptingService blockedOracle emptyStore
        letterHtmlSelection).1.blobs = [("first-offer-b", [59])] ∧
    (saveSelection demoPlatform encryptingService rejectedOffer emptyStore
        letterHtmlSelection).1.selections = [] ∧
    (saveSelection demoPlatform encryptingService rejectedOffer emptyStore
        letterHtmlSelection).1.offers = [] := by
  decide

set_option maxRecDepth 100000 in
/-- C20: ingesting `text/plain: "a"` a second time adds no selection row, and yet emits
`itemInserted` with a default-constructed entry; a run whose commit fails stores no row,
and yet emits `itemInserted` with the entry of the selection that was rolled back. -/
theorem saveSelection_emits_without_insertion :
    (saveSelection demoPlatform demoService (demoOracle 200 "second")
        (saveSelection demoPlatform demoService (demoOracle 100 "first") emptyStore
          letterSelection).1 letterSelection).1.selections.map SelectionRow.id
      = ["first-selection"] ∧
    (saveSelection demoPlatform demoService (demoOracle 200 "second")
        (saveSelection demoPlatform demoService (demoOracle 100 "first") emptyStore
          letterSelection).1 letterSelection).2
      = [Signal.itemInserted {}] ∧
    (saveSelection demoPlatform demoService refusedCommit emptyStore letterSelection).1.selections
      = [] ∧
    (saveSelection demoPlatform demoService refusedCommit emptyStore letterSelection).2
      = [Signal.itemInserted
          { id := "first-selection", mimeType := "text/plain",
            md5sum := "0cc175b9c0f1b6a831c399e269772661", textPreview := "a" }] := by
  decide

/-! ## Validation failures of write-back -/

/-- C24. `copyContent` of NoData content and of an in-memory selection without offers
returns false without calling the backend. `copyMultipleSelections` returns false without
calling the backend when no id can be retrieved (an empty id list included); otherwise it
hands the backend the composite of exactly the selections that could be retrieved, in the
order of the id list, and returns what the backend returns. No such call changes the
store. -/
theorem copy_validation_failures (P : Platform) (server : AbstractClipboardServer)
    (svc : ClipboardService) (now : Nat) (st : Store) (options : CopyOptions) :
    copyContent P server svc now st Content.NoData options
      = { result := false, handed := none, store := st, signals := [] } ∧
    (∀ sourceApp, copyContent P server svc now st
        (Content.Selection { offers := [], sourceApp := sourceApp }) options
      = { result := false, handed := none, store := st, signals := [] }) ∧
    (∀ ids, (∀ id ∈ ids, retrieveSelectionById svc st id = none) →
      copyMultipleSelections P server svc st ids options
        = { result := false, handed := none, store := st, signals := [] }) ∧
    (∀ ids, (∃ id ∈ ids, retrieveSelectionById svc st id ≠ none) →
      copyMultipleSelections P server svc st ids options
        = copyQMimeData P server st
            (buildCompositeSelection P (ids.filterMap (retrieveSelectionById svc st)))
            options ∧
      (copyMultipleSelections P server svc st ids options).handed ≠ none ∧
      (copyMultipleSelections P server svc st ids options).store = st) := by
  refine ⟨rfl, fun _ => rfl, ?_, ?_⟩
  · intro ids hnone
    have hempty : retrieveAll svc st ids = [] := by
      unfold retrieveAll
      rw [List.filterMap_eq_nil_iff]
      exact hnone
    simp [copyMultipleSelections, hempty]
  · intro ids hsome
    have hne : (retrieveAll svc st ids).isEmpty = false := by
      obtain ⟨id, hid, hret⟩ := hsome
      cases hr : retrieveSelectionById svc st id with
      | none => exact absurd hr hret
      | some sel =>
        have hmem : sel ∈ retrieveAll svc st ids := by
          unfold retrieveAll
          exact List.mem_filterMap.mpr ⟨id, hid, hr⟩
        cases hl : retrieveAll svc st ids with
        | nil => rw [hl] at hmem; simp at hmem
        | cons x xs => rfl
    have heq : copyMultipleSelections P server svc st ids options
        = copyQMimeData P server st
            (buildCompositeSelection P (ids.filterMap (retrieveSelectionById svc st)))
            options := by
      simp only [copyMultipleSelections, hne]
      rfl
    refine ⟨heq, ?_, ?_⟩
    · rw [heq]; simp [copyQMimeData]
    · rw [heq]; rfl

/-- C24, witness: nothing can be retrieved from the empty store; from the store holding
the selection `s`, the ids `t`, `s` compose the selection `s` alone. -/
theorem copy_validation_failures_witness :
    copyMultipleSelections demoPlatform demoServer demoService emptyStore ["s", "t"] {}
      = { result := false, handed := none, store := emptyStore, signals := [] } ∧
    (copyMultipleSelections demoPlatform demoServer demoService partialStore ["t", "s"] {}).handed
      = some (buildCompositeSelection demoPlatform
          [{ offers := [{ mimeType := "text/plain", data := [97] }] }]) := by
  refine ⟨(copy_validation_failures demoPlatform demoServer demoService 0 emptyStore {}).2.2.1
      ["s", "t"] (by decide), ?_⟩
  rw [((copy_validation_failures demoPlatform demoServer demoService 0 partialStore {}).2.2.2
      ["t", "s"] ⟨"s", by decide, by decide⟩).1]
  decide

/-! ## Paste -/

/-- C25. `pasteContent` arms the paste timer (once) exactly when `copyContent` of the same
content succeeded and the window manager supports paste, and returns true exactly then;
when the copy fails nothing is armed and the result is false; without paste support
nothing is armed. The copy it makes is the one `copyContent` makes. -/
theorem pasteContent_schedules (P : Platform) (server : AbstractClipboardServer)
    (svc : ClipboardService) (wm : WindowManager) (pasteDelay now : Nat) (st : Store)
    (content : Content) (options : CopyOptions) :
    (pasteContent P server svc wm pasteDelay now st content options).copy
      = copyContent P server svc now st content options ∧
    ((pasteContent P server svc wm pasteDelay now st content options).timers = [pasteDelay] ↔
      (copyContent P server svc now st content options).result = true ∧
        wm.supportsPaste = true) ∧
    ((pasteContent P server svc wm pasteDelay now st content options).result = true ↔
      (copyContent P server svc now st content options).result = true ∧
        wm.supportsPaste = true) ∧
    ((copyContent P server svc now st content options).result = false →
      (pasteContent P server svc wm pasteDelay now st content options).timers = [] ∧
      (pasteContent P server svc wm pasteDelay now st content options).result = false) ∧
    (wm.supportsPaste = false →
      (pasteContent P server svc wm pasteDelay now st content options).timers = [] ∧
      (pasteContent P server svc wm pasteDelay now st content options).result = false) := by
  unfold pasteContent
  cases hc : (copyContent P server svc now st content options).result <;>
    cases hp : wm.supportsPaste <;> simp [hc, hp]

/-- C25, witness: pasting the text `a` with and without paste support, and pasting
NoData. -/
theorem pasteContent_schedules_witness :
    (pasteContent demoPlatform demoServer demoService pasteManager 100 0 emptyStore
        (Content.Text "a") {}).timers = [100] ∧
    (pasteContent demoPlatform demoServer demoService noPasteManager 100 0 emptyStore
        (Content.Text "a") {}).timers = [] ∧
    (pasteContent demoPlatform demoServer demoService pasteManager 100 0 emptyStore
        Content.NoData {}).timers = [] :=
  ⟨(pasteContent_schedules demoPlatform demoServer demoService pasteManager 100 0 emptyStore
      (Content.Text "a") {}).2.1.mpr ⟨rfl, rfl⟩,
    ((pasteContent_schedules demoPlatform demoServer demoService noPasteManager 100 0
      emptyStore (Content.Text "a") {}).2.2.2.2 rfl).1,
    ((pasteContent_schedules demoPlatform demoServer demoService pasteManager 100 0
      emptyStore Content.NoData {}).2.2.2.1 rfl).1⟩

/-! ## Clear selections and the preferred offer -/

theorem isClearSelection_of_sizes (mime : QString) (a b c d : QByteArray)
    (ha : a.length = 1073741824) (hb : b.length = 1073741824) (hc : c.length = 1073741824)
    (hd : d.length = 1073741824) :
    isClearSelection { offers := [{ mimeType := mime, data := a }, { mimeType := mime, data := b },
      { mimeType := mime, data := c }, { mimeType := mime, data := d }] } = true := by
  simp only [isClearSelection, List.foldl, ha, hb, hc, hd]
  decide

/-- C28: the four offers of `gigabytesSelection` hold 2^30 bytes each, 2^32 bytes in all,
and `isClearSelection` classifies the selection as clear: the sum kept in the 32-bit
accumulator is 0. -/
theorem isClearSelection_wraps :
    gigabytesSelection.offers.map (fun offer => offer.data.length)
      = [1073741824, 1073741824, 1073741824, 1073741824] ∧
    isClearSelection gigabytesSelection = true :=
  ⟨by simp only [gigabytesSelection, List.map, List.length_replicate],
    isClearSelection_of_sizes "application/octet-stream" _ _ _ _ (List.length_replicate _ _)
      (List.length_replicate _ _) (List.length_replicate _ _) (List.length_replicate _ _)⟩

/-- C29. The preferred MIME type of a selection with at least one offer is the MIME type
of one of its offers, so the lookup of the preferred offer finds an offer; a selection
that is not clear has at least one offer, so in `saveSelection` the lookup never fails
after the clear check. -/
theorem getSelectionPreferredMimeType_is_offered (selection : ClipboardSelection) :
    (selection.offers ≠ [] →
      (∃ offer ∈ selection.offers,
        offer.mimeType = getSelectionPreferredMimeType selection) ∧
      (preferredOffer selection).isSome = true) ∧
    (isClearSelection selection = false → selection.offers ≠ []) ∧
    (isClearSelection selection = false → (preferredOffer selection).isSome = true) := by
  have hmem : selection.offers ≠ [] →
      ∃ offer ∈ selection.offers,
        offer.mimeType = getSelectionPreferredMimeType selection := by
    intro hne
    unfold getSelectionPreferredMimeType
    split
    · rename_i it hit
      obtain ⟨mime, _, hfind⟩ := List.exists_of_findSome?_eq_some hit
      exact ⟨it, List.mem_of_find?_eq_some hfind, rfl⟩
    · split
      · rename_i it hit
        exact ⟨it, List.mem_of_find?_eq_some hit, rfl⟩
      · split
        · rename_i it hit
          exact ⟨it, List.mem_of_find?_eq_some hit, rfl⟩
        · split
          · rename_i it hit
            exact ⟨it, List.mem_of_find?_eq_some hit, rfl⟩
          · split
            · rename_i front rest hfront
              exact ⟨front, by rw [hfront]; exact List.mem_cons_self _ _, rfl⟩
            · rename_i hnil
              exact absurd hnil hne
  have hfound : selection.offers ≠ [] → (preferredOffer selection).isSome = true := by
    intro hne
    obtain ⟨offer, hin, hmime⟩ := hmem hne
    unfold preferredOffer
    rw [List.find?_isSome]
    exact ⟨offer, hin, by simp [hmime]⟩
  have hoffers : isClearSelection selection = false → selection.offers ≠ [] := by
    intro hclear hnil
    have : isClearSelection selection = true := by
      simp [isClearSelection, hnil]
    rw [this] at hclear
    exact absurd hclear (by simp)
  exact ⟨fun hne => ⟨hmem hne, hfound hne⟩, hoffers, fun h => hfound (hoffers h)⟩

/-- C29, witness: the selection with an empty text offer and an image offer. -/
theorem getSelectionPreferredMimeType_is_offered_witness :
    (∃ offer ∈ emptyTextSelection.offers,
      offer.mimeType = getSelectionPreferredMimeType emptyTextSelection) ∧
    (preferredOffer emptyTextSelection).isSome = true :=
  (getSelectionPreferredMimeType_is_offered emptyTextSelection).1 (by decide)

/-! ## Multi-selection of the history view -/

theorem filter_ne_erase (id : QString) (ids : List QString) :
    (ids.erase id).filter (fun other => other != id) = ids.filter (fun other => other != id) := by
  induction ids with
  | nil => rfl
  | cons x xs ih =>
    by_cases hx : x = id
    · subst hx
      simp
    · have hne : (x == id) = false := by simpa using hx
      rw [List.erase_cons, hne]
      simp [List.filter_cons, hx, ih]

theorem toggleItemSelection_ids (v : ClipboardHistoryView) (id : QString) :
    (toggleItemSelection v id).m_selectedIds
      = if id ∈ v.m_selectedIds then v.m_selectedIds.erase id else v.m_selectedIds ++ [id] := by
  simp [toggleItemSelection]

theorem clearMultiSelection_ids (v : ClipboardHistoryView) :
    (clearMultiSelection v).m_selectedIds = [] ∧
    (clearMultiSelection v).m_model.m_multiSelectedIds = [] := by
  unfold clearMultiSelection updateMultiSelectStatusText
  simp only []
  split_ifs <;> exact ⟨rfl, rfl⟩

theorem runCalls_snoc (v : ClipboardHistoryView) (calls : List SelectionCall)
    (call : SelectionCall) :
    runCalls v (calls ++ [call]) = SelectionCall.apply (runCalls v calls) call := by
  simp [runCalls, List.foldl_append]

theorem togglesSinceClear_snoc (calls : List SelectionCall) (call : SelectionCall)
    (id : QString) :
    togglesSinceClear (calls ++ [call]) id
      = match call with
        | .clear => 0
        | .toggle other =>
          if other == id then togglesSinceClear calls id + 1 else togglesSinceClear calls id := by
  simp [togglesSinceClear, List.foldl_append]

theorem runCalls_invariant (calls : List SelectionCall) :
    (runCalls emptyView calls).m_selectedIds.Nodup ∧
    (∀ id, id ∈ (runCalls emptyView calls).m_selectedIds ↔
      togglesSinceClear calls id % 2 = 1) ∧
    (runCalls emptyView calls).m_model.m_multiSelectedIds
      = (runCalls emptyView calls).m_selectedIds := by
  induction calls using List.reverseRecOn with
  | nil =>
    refine ⟨by simp [runCalls, emptyView], ?_, rfl⟩
    intro id
    simp [runCalls, emptyView, togglesSinceClear]
  | append_singleton calls call ih =>
    obtain ⟨hnodup, hmem, hmodel⟩ := ih
    rw [runCalls_snoc]
    cases call with
    | clear =>
      have hc := clearMultiSelection_ids (runCalls emptyView calls)
      refine ⟨?_, ?_, ?_⟩
      · simp [SelectionCall.apply, hc.1]
      · intro id
        simp [SelectionCall.apply, hc.1, togglesSinceClear_snoc]
      · simp [SelectionCall.apply, hc.1, hc.2]
    | toggle j =>
      have hids := toggleItemSelection_ids (runCalls emptyView calls) j
      refine ⟨?_, ?_, ?_⟩
      · simp only [SelectionCall.apply, hids]
        split_ifs with hj
        · exact hnodup.erase j
        · exact List.nodup_append.mpr ⟨hnodup, by simp, by simpa using hj⟩
      · intro id
        simp only [SelectionCall.apply, hids, togglesSinceClear_snoc]
        by_cases hid : j = id
        · subst hid
          have hcur := hmem j
          simp only [beq_self_eq_true, if_true]
          split_ifs with hj
          · have h1 : togglesSinceClear calls j % 2 = 1 := hcur.mp hj
            constructor
            · intro hin
              exact absurd hin (hnodup.not_mem_erase)
            · intro hodd
              omega
          · have h0 : ¬ togglesSinceClear calls j % 2 = 1 := fun h => hj (hcur.mpr h)
            constructor
            · intro _
              omega
            · intro _
              simp
        · have hne : (j == id) = false := by simpa using hid
          have hid2 : id ≠ j := fun h => hid h.symm
          simp only [hne, Bool.false_eq_true, if_false]
          rw [← hmem id]
          split_ifs with hj
          · exact List.mem_erase_of_ne hid2
          · simp [hid2]
      · rfl

/-- C30. Starting from the empty list, after any sequence of `toggleItemSelection` and
`clearMultiSelection` calls the list of selected ids has no duplicates and the model holds
the same list; an id is selected exactly when it was toggled an odd number of times since
the last clear; and one more toggle of an id changes neither the membership nor the
relative order of the other ids. -/
theorem toggleItemSelection_no_duplicates (calls : List SelectionCall) (id : QString) :
    (runCalls emptyView calls).m_selectedIds.Nodup ∧
    (isItemSelected (runCalls emptyView calls) id = true ↔
      togglesSinceClear calls id % 2 = 1) ∧
    ((runCalls emptyView calls).m_model.isMultiSelected id
      = isItemSelected (runCalls emptyView calls) id) ∧
    (∀ other, other ≠ id →
      isItemSelected (toggleItemSelection (runCalls emptyView calls) id) other
        = isItemSelected (runCalls emptyView calls) other) ∧
    (toggleItemSelection (runCalls emptyView calls) id).m_selectedIds.filter
        (fun other => other != id)
      = (runCalls emptyView calls).m_selectedIds.filter (fun other => other != id) := by
  obtain ⟨hnodup, hmem, hmodel⟩ := runCalls_invariant calls
  refine ⟨hnodup, ?_, ?_, ?_, ?_⟩
  · rw [← hmem id]
    simp [isItemSelected]
  · simp [ClipboardHistoryModel.isMultiSelected, isItemSelected, hmodel]
  · intro other hother
    simp only [isItemSelected, toggleItemSelection_ids]
    split_ifs with hj
    · have : other ∈ (runCalls emptyView calls).m_selectedIds.erase id ↔
          other ∈ (runCalls emptyView calls).m_selectedIds := List.mem_erase_of_ne hother
      simp [this]
    · simp [hother]
  · rw [toggleItemSelection_ids]
    split_ifs with hj
    · exact filter_ne_erase id _
    · simp

/-- C30, witness: after toggling `a`, `b`, `a`, `c`, `a` the selected ids are `b`, `c`,
`a`, and `a` was toggled three times. -/
theorem toggleItemSelection_no_duplicates_witness :
    (runCalls emptyView [SelectionCall.toggle "a", SelectionCall.toggle "b",
        SelectionCall.toggle "a", SelectionCall.toggle "c",
        SelectionCall.toggle "a"]).m_selectedIds = ["b", "c", "a"] ∧
    isItemSelected (runCalls emptyView [SelectionCall.toggle "a", SelectionCall.toggle "b",
        SelectionCall.toggle "a", SelectionCall.toggle "c", SelectionCall.toggle "a"]) "a"
      = true :=
  ⟨by decide,
    (toggleItemSelection_no_duplicates [SelectionCall.toggle "a", SelectionCall.toggle "b",
      SelectionCall.toggle "a", SelectionCall.toggle "c", SelectionCall.toggle "a"]
      "a").2.1.mpr (by decide)⟩

/-! ## The URL-host field of offer rows -/

theorem saveOffer_rows (P : Platform) (svc : ClipboardService) (o : Oracle)
    (selectionId preferredMimeType : QString) (i : Nat) (offer : ClipboardDataOffer)
    (s : OfferLoopState) :
    ∀ row ∈ (saveOffer P svc o selectionId preferredMimeType i offer s).2.db.offers,
      row ∈ s.db.offers ∨ row = offerRow P svc o selectionId i offer := by
  intro row hrow
  obtain ⟨db0, entry, _, hoff, _, heq⟩ :=
    saveOffer_eq P svc o selectionId preferredMimeType i offer s
  rw [heq] at hrow
  have hins : ∀ r ∈ (db0.insertOffer (offerRow P svc o selectionId i offer)).offers,
      r ∈ s.db.offers ∨ r = offerRow P svc o selectionId i offer := by
    intro r hr
    simp only [Store.insertOffer, List.mem_append, List.mem_singleton, hoff] at hr
    exact hr
  split_ifs at hrow
  · exact Or.inl hrow
  · exact Or.inl (by simpa [hoff] using hrow)
  · exact hins row hrow
  · cases henc : svc.m_encrypter with
    | none =>
      rw [henc] at hrow
      exact hins row (by simpa [writeBlob_offers] using hrow)
    | some encrypter =>
      rw [henc] at hrow
      cases hcipher : encrypter.encrypt offer.data with
      | none =>
        simp only [hcipher] at hrow
        exact hins row (by simpa [writeBlob_offers] using hrow)
      | some encrypted =>
        simp only [hcipher] at hrow
        exact hins row (by simpa [writeBlob_offers] using hrow)

theorem saveOffers_rows (P : Platform) (svc : ClipboardService) (o : Oracle)
    (selectionId preferredMimeType : QString) (offers : List ClipboardDataOffer) :
    ∀ (i : Nat) (s : OfferLoopState),
      ∀ row ∈ (saveOffers P svc o selectionId preferredMimeType i offers s).2.db.offers,
        row ∈ s.db.offers ∨
        ∃ k, ∃ offer ∈ offers, row = offerRow P svc o selectionId k offer := by
  induction offers with
  | nil => intro i s row hrow; exact Or.inl (by simpa [saveOffers] using hrow)
  | cons offer rest ih =>
    intro i s row hrow
    have hstep := saveOffer_rows P svc o selectionId preferredMimeType i offer s
    unfold saveOffers at hrow
    split at hrow
    · rename_i s2 heq
      rw [heq] at hstep
      rcases ih (i + 1) s2 row hrow with h | ⟨k, x, hx, hxr⟩
      · rcases hstep row h with h1 | h1
        · exact Or.inl h1
        · exact Or.inr ⟨i, offer, List.mem_cons_self _ _, h1⟩
      · exact Or.inr ⟨k, x, List.mem_cons_of_mem _ hx, hxr⟩
    · rename_i s2 heq
      rw [heq] at hstep
      rcases hstep row hrow with h1 | h1
      · exact Or.inl h1
      · exact Or.inr ⟨i, offer, List.mem_cons_self _ _, h1⟩

theorem saveSelection_rows (P : Platform) (svc : ClipboardService) (o : Oracle)
    (st : Store) (s : ClipboardSelection) :
    ∀ row ∈ (saveSelection P svc o st s).1.offers,
      row ∈ st.offers ∨
      ∃ k, ∃ offer ∈ (sanitizeSelection P svc.m_autoPathToUri s).offers,
        row = offerRow P svc o o.selectionId k offer := by
  intro row hrow
  unfold saveSelection at hrow
  simp only [] at hrow
  split_ifs at hrow
  · exact Or.inl hrow
  · exact Or.inl hrow
  · exact Or.inl hrow
  · exact Or.inl hrow
  · split at hrow
    · exact Or.inl hrow
    · rename_i p hp
      split_ifs at hrow
      · exact Or.inl hrow
      · exact Or.inl hrow
      · simp only [Store.transaction, saveTransactionBody] at hrow
        cases hb : (st.tryBubbleUpSelection o.now
            (QCryptographicHash.toHex (QCryptographicHash.md5 p.data))).2 with
        | true =>
          simp only [hb, if_true] at hrow
          split_ifs at hrow
          · rw [(tryBubbleUpSelection_blobs st o.now _).2.1] at hrow
            exact Or.inl hrow
          · exact Or.inl hrow
        | false =>
          simp only [hb, Bool.false_eq_true, if_false] at hrow
          split_ifs at hrow
          all_goals first
            | exact Or.inl hrow
            | (rcases saveOffers_rows P svc o _ _ _ _ _ row hrow with h | h
               · exact Or.inl (by simpa [Store.insertSelection] using h)
               · exact Or.inr h)

theorem offerRow_urlHost (P : Platform) (svc : ClipboardService) (o : Oracle)
    (selectionId : QString) (i : Nat) (offer : ClipboardDataOffer) :
    (offerRow P svc o selectionId i offer).urlHost
      = if getKind P offer == ClipboardOfferKind.Link &&
            QString.startsWith (P.urlFromEncoded offer.data).scheme "http"
        then some (P.urlFromEncoded offer.data).host else none := by
  unfold offerRow
  simp only []
  split_ifs <;> simp_all

set_option maxRecDepth 100000 in
/-- C27, as stated, fails for a scheme that only starts with `http`: the text
`httpx://example.org` is an offer of kind Link whose scheme is `httpx`, and the row
`saveSelection` inserts for it carries the URL host. -/
theorem saveSelection_urlHost_for_httpx :
    httpxSelection.offers.map (getKind schemePlatform) = [ClipboardOfferKind.Link] ∧
    httpxSelection.offers.map (fun offer => (schemePlatform.urlFromEncoded offer.data).scheme)
      = ["httpx"] ∧
    (saveSelection schemePlatform demoService (demoOracle 100 "first") emptyStore
        httpxSelection).1.offers.map InsertClipboardOfferPayload.urlHost
      = [some "example.org"] := by
  decide

/-- C27, amended. Every offer row that `saveSelection` adds to the store is the row of an
offer of the sanitized selection, and its URL-host field is set, to the host of the URL in
the offer's data, exactly when the kind of the offer is Link and the URL scheme starts
with `http`; for every other kind and every other scheme the field is unset. -/
theorem saveSelection_urlHost (P : Platform) (svc : ClipboardService) (o : Oracle)
    (st : Store) (s : ClipboardSelection) (row : InsertClipboardOfferPayload)
    (hrow : row ∈ (saveSelection P svc o st s).1.offers) :
    row ∈ st.offers ∨
    ∃ offer ∈ (sanitizeSelection P svc.m_autoPathToUri s).offers,
      row.mimeType = offer.mimeType ∧
      row.urlHost
        = (if getKind P offer == ClipboardOfferKind.Link &&
              QString.startsWith (P.urlFromEncoded offer.data).scheme "http"
          then some (P.urlFromEncoded offer.data).host else none) ∧
      (row.urlHost.isSome = true ↔
        getKind P offer = ClipboardOfferKind.Link ∧
          QString.startsWith (P.urlFromEncoded offer.data).scheme "http" = true) := by
  rcases saveSelection_rows P svc o st s row hrow with h | ⟨k, offer, hoffer, hr⟩
  · exact Or.inl h
  · refine Or.inr ⟨offer, hoffer, ?_, ?_, ?_⟩
    · rw [hr]
      exact (offerRow_fields P svc o o.selectionId k offer).2.2.1
    · rw [hr]
      exact offerRow_urlHost P svc o o.selectionId k offer
    · rw [hr, offerRow_urlHost]
      split_ifs with hc
      · simpa using hc
      · simp only [Option.isSome_none, Bool.false_eq_true, false_iff]
        intro hboth
        exact hc (by simp [hboth.1, hboth.2])

set_option maxRecDepth 100000 in
/-- C27, witness: the row stored for the text `https://example.org`. -/
theorem saveSelection_urlHost_witness :
    offerRow demoPlatform demoService (demoOracle 100 "first") "first-selection" 0
        { mimeType := "text/plain", data := QString.toUtf8 "https://example.org" }
      ∈ (saveSelection demoPlatform demoService (demoOracle 100 "first") emptyStore
          httpsSelection).1.offers ∧
    (offerRow demoPlatform demoService (demoOracle 100 "first") "first-selection" 0
        { mimeType := "text/plain", data := QString.toUtf8 "https://example.org" }).urlHost
      = some "example.org" ∧
    (offerRow demoPlatform demoService (demoOracle 100 "first") "first-selection" 0
          { mimeType := "text/plain", data := QString.toUtf8 "https://example.org" }
        ∈ emptyStore.offers ∨
      ∃ offer ∈ (sanitizeSelection demoPlatform demoService.m_autoPathToUri
          httpsSelection).offers,
        (offerRow demoPlatform demoService (demoOracle 100 "first") "first-selection" 0
            { mimeType := "text/plain", data := QString.toUtf8 "https://example.org" }).mimeType
          = offer.mimeType ∧
        (offerRow demoPlatform demoService (demoOracle 100 "first") "first-selection" 0
            { mimeType := "text/plain", data := QString.toUtf8 "https://example.org" }).urlHost
          = (if getKind demoPlatform offer == ClipboardOfferKind.Link &&
                QString.startsWith (demoPlatform.urlFromEncoded offer.data).scheme "http"
            then some (demoPlatform.urlFromEncoded offer.data).host else none) ∧
        ((offerRow demoPlatform demoService (demoOracle 100 "first") "first-selection" 0
            { mimeType := "text/plain",
              data := QString.toUtf8 "https://example.org" }).urlHost.isSome = true ↔
          getKind demoPlatform offer = ClipboardOfferKind.Link ∧
            QString.startsWith (demoPlatform.urlFromEncoded offer.data).scheme "http"
              = true)) :=
  ⟨by decide, by decide,
    saveSelection_urlHost demoPlatform demoService (demoOracle 100 "first") emptyStore
      httpsSelection _ (by decide)⟩

/-! ## Text previews -/

/-- C26, as stated, fails for text outside ASCII, because the preview is cut in bytes:
thirty letters `é` are sixty bytes, so the simplified data has 30 characters and the
preview only 25 of them; and when the fiftieth byte is the first byte of `é`, the preview
ends in U+FFFD and is no prefix of the simplified text. -/
theorem getOfferTextPreview_cuts_bytes :
    getKind utf8Platform accentedOffer = ClipboardOfferKind.Text ∧
    (utf8Platform.fromUtf8 (QByteArray.simplified accentedOffer.data)).length = 30 ∧
    (getOfferTextPreview utf8Platform accentedOffer).length = 25 ∧
    getKind utf8Platform cutOffer = ClipboardOfferKind.Text ∧
    (getOfferTextPreview utf8Platform cutOffer).data.getLast? = some (Char.ofNat 0xfffd) ∧
    (getOfferTextPreview utf8Platform cutOffer).data.isPrefixOf
      (utf8Platform.fromUtf8 (QByteArray.simplified cutOffer.data)).data = false := by
  decide

/-- C26, amended. For every offer of kind Text, Link or File, `getOfferTextPreview` is the
UTF-8 decoding of the first 50 bytes of the offer's whitespace-simplified data: these
bytes are at most 50, are a prefix of the simplified data, and are the whole simplified
data when that has at most 50 bytes. -/
theorem getOfferTextPreview_first_bytes (P : Platform) (offer : ClipboardDataOffer)
    (hkind : getKind P offer = ClipboardOfferKind.Text ∨
      getKind P offer = ClipboardOfferKind.Link ∨ getKind P offer = ClipboardOfferKind.File) :
    getOfferTextPreview P offer = P.fromUtf8 ((QByteArray.simplified offer.data).take 50) ∧
    ((QByteArray.simplified offer.data).take 50).length ≤ 50 ∧
    List.IsPrefix ((QByteArray.simplified offer.data).take 50)
      (QByteArray.simplified offer.data) ∧
    ((QByteArray.simplified offer.data).length ≤ 50 →
      getOfferTextPreview P offer = P.fromUtf8 (QByteArray.simplified offer.data)) := by
  have hpre : getOfferTextPreview P offer
      = P.fromUtf8 ((QByteArray.simplified offer.data).take 50) := by
    unfold getOfferTextPreview
    rcases hkind with h | h | h <;> rw [h]
  refine ⟨hpre, ?_, List.take_prefix _ _, ?_⟩
  · rw [List.length_take]
    exact Nat.min_le_left _ _
  · intro hlen
    rw [hpre, List.take_of_length_le hlen]

/-- C26, witness: the preview of the text `  a   b ` is `a b`. -/
theorem getOfferTextPreview_first_bytes_witness :
    getOfferTextPreview demoPlatform
        { mimeType := "text/plain", data := [32, 32, 97, 32, 32, 32, 98, 32] }
      = "a b" := by
  have h := (getOfferTextPreview_first_bytes demoPlatform
    { mimeType := "text/plain", data := [32, 32, 97, 32, 32, 32, 98, 32] }
    (Or.inl (by decide))).1
  rw [h]
  decide

/-! ## Composite payloads -/

theorem startsWith_image_ne (m : QString) (h : QString.startsWith m "image/" = true) :
    m ≠ "text/uri-list" ∧ m ≠ "text/html" ∧ m ≠ "application/x-qt-image" := by
  refine ⟨?_, ?_, ?_⟩ <;> (intro hm; subst hm; revert h; decide)

theorem scanLines_fields (lines : List QString) :
    ∀ s : SelectionScan,
      (lines.foldl (fun (s : SelectionScan) uri =>
          if QString.startsWith uri "file://" then
            { s with selectionFileUri := uri, fileUris := s.fileUris ++ [uri] }
          else s) s).fileUris
        = s.fileUris ++ lines.filter (fun uri => QString.startsWith uri "file://") ∧
      (lines.foldl (fun (s : SelectionScan) uri =>
          if QString.startsWith uri "file://" then
            { s with selectionFileUri := uri, fileUris := s.fileUris ++ [uri] }
          else s) s).selectionImageData = s.selectionImageData ∧
      (lines.foldl (fun (s : SelectionScan) uri =>
          if QString.startsWith uri "file://" then
            { s with selectionFileUri := uri, fileUris := s.fileUris ++ [uri] }
          else s) s).selectionImageMime = s.selectionImageMime ∧
      (lines.foldl (fun (s : SelectionScan) uri =>
          if QString.startsWith uri "file://" then
            { s with selectionFileUri := uri, fileUris := s.fileUris ++ [uri] }
          else s) s).selectionText = s.selectionText ∧
      (lines.foldl (fun (s : SelectionScan) uri =>
          if QString.startsWith uri "file://" then
            { s with selectionFileUri := uri, fileUris := s.fileUris ++ [uri] }
          else s) s).selectionHtml = s.selectionHtml := by
  induction lines with
  | nil => intro s; simp
  | cons uri rest ih =>
    intro s
    rw [List.foldl_cons]
    by_cases h : QString.startsWith uri "file://" = true
    · simp only [h, if_true, List.filter_cons]
      obtain ⟨h1, h2, h3, h4, h5⟩ := ih
        { s with selectionFileUri := uri, fileUris := s.fileUris ++ [uri] }
      exact ⟨by rw [h1]; simp, h2, h3, h4, h5⟩
    · simp only [h, if_false, List.filter_cons]
      exact ih s

theorem scanOffer_fields (P : Platform) (s : SelectionScan) (offer : ClipboardDataOffer) :
    (scanOffer P s offer).fileUris = s.fileUris ++ offerFileUris P offer ∧
    (scanOffer P s offer).selectionImageData
      = (if isImageOffer P offer then offer.data else s.selectionImageData) ∧
    (scanOffer P s offer).selectionImageMime
      = (if isImageOffer P offer then offer.mimeType else s.selectionImageMime) := by
  unfold scanOffer offerFileUris isImageOffer
  by_cases h1 : (offer.mimeType == "text/uri-list" && !offer.data.isEmpty) = true
  · have hm : offer.mimeType = "text/uri-list" := by
      simp only [Bool.and_eq_true, beq_iff_eq] at h1
      exact h1.1
    have himg : QString.startsWith offer.mimeType "image/" = false := by
      rw [hm]; decide
    simp only [h1, if_true, himg, Bool.false_and, Bool.false_eq_true, if_false]
    obtain ⟨f1, f2, f3, _, _⟩ := scanLines_fields
      (QString.splitLines (QString.trimmed (P.fromUtf8 offer.data))) s
    exact ⟨f1, f2, f3⟩
  · simp only [h1, if_false, Bool.false_eq_true, List.append_nil]
    by_cases h2 : (P.isTextMimeType offer.mimeType && !offer.data.isEmpty) = true
    · have hno : (QString.startsWith offer.mimeType "image/" && !offer.data.isEmpty &&
          !P.isTextMimeType offer.mimeType) = false := by
        simp only [Bool.and_eq_true] at h2
        simp [h2.1]
      simp only [h2, if_true, hno, Bool.false_eq_true, if_false]
      refine ⟨?_, ?_, ?_⟩ <;> simp
    · simp only [h2, if_false, Bool.false_eq_true]
      by_cases h3 : (offer.mimeType == "text/html" && !offer.data.isEmpty) = true
      · have hm : offer.mimeType = "text/html" := by
          simp only [Bool.and_eq_true, beq_iff_eq] at h3
          exact h3.1
        have himg : QString.startsWith offer.mimeType "image/" = false := by
          rw [hm]; decide
        simp only [h3, if_true, himg, Bool.false_and, Bool.false_eq_true, if_false]
        refine ⟨?_, ?_, ?_⟩ <;> simp
      · simp only [h3, if_false, Bool.false_eq_true]
        by_cases h4 : (QString.startsWith offer.mimeType "image/" && !offer.data.isEmpty) = true
        · have hnt : P.isTextMimeType offer.mimeType = false := by
            simp only [Bool.and_eq_true] at h4
            cases ht : P.isTextMimeType offer.mimeType with
            | false => rfl
            | true => exact absurd (by simp [ht, h4.2]) h2
          simp only [h4, if_true, hnt, Bool.not_false, Bool.and_true]
          refine ⟨?_, ?_, ?_⟩ <;> simp
        · have hno : (QString.startsWith offer.mimeType "image/" && !offer.data.isEmpty &&
              !P.isTextMimeType offer.mimeType) = false := by
            simp only [Bool.not_eq_true] at h4
            simp [h4]
          simp only [h4, if_false, Bool.false_eq_true, hno]
          refine ⟨?_, ?_, ?_⟩ <;> simp

theorem scanOffers_fields (P : Platform) (offers : List ClipboardDataOffer) :
    ∀ s : SelectionScan,
      (offers.foldl (scanOffer P) s).fileUris
        = s.fileUris ++ offers.flatMap (offerFileUris P) ∧
      (offers.foldl (scanOffer P) s).selectionImageData
        = (((offers.filter (isImageOffer P)).getLast?).map ClipboardDataOffer.data).getD
            s.selectionImageData ∧
      (offers.foldl (scanOffer P) s).selectionImageMime
        = (((offers.filter (isImageOffer P)).getLast?).map ClipboardDataOffer.mimeType).getD
            s.selectionImageMime := by
  induction offers with
  | nil => intro s; simp
  | cons offer rest ih =>
    intro s
    rw [List.foldl_cons]
    obtain ⟨i1, i2, i3⟩ := ih (scanOffer P s offer)
    obtain ⟨f1, f2, f3⟩ := scanOffer_fields P s offer
    refine ⟨?_, ?_, ?_⟩
    · rw [i1, f1]
      simp [List.flatMap_cons]
    · rw [i2, f2]
      by_cases himg : isImageOffer P offer = true
      · simp only [himg, if_true, List.filter_cons]
        cases hl : (rest.filter (isImageOffer P)).getLast? with
        | none =>
          have hnil : rest.filter (isImageOffer P) = [] := List.getLast?_eq_none_iff.mp hl
          simp [hnil]
        | some x =>
          have hne : rest.filter (isImageOffer P) ≠ [] := by
            intro hnil; rw [hnil] at hl; simp at hl
          obtain ⟨y, ys, hys⟩ := List.exists_cons_of_ne_nil hne
          rw [hys] at hl ⊢
          rw [List.getLast?_cons_cons, hl]
          simp
      · simp only [himg, Bool.false_eq_true, if_false, List.filter_cons]
    · rw [i3, f3]
      by_cases himg : isImageOffer P offer = true
      · simp only [himg, if_true, List.filter_cons]
        cases hl : (rest.filter (isImageOffer P)).getLast? with
        | none =>
          have hnil : rest.filter (isImageOffer P) = [] := List.getLast?_eq_none_iff.mp hl
          simp [hnil]
        | some x =>
          have hne : rest.filter (isImageOffer P) ≠ [] := by
            intro hnil; rw [hnil] at hl; simp at hl
          obtain ⟨y, ys, hys⟩ := List.exists_cons_of_ne_nil hne
          rw [hys] at hl ⊢
          rw [List.getLast?_cons_cons, hl]
          simp
      · simp only [himg, Bool.false_eq_true, if_false, List.filter_cons]

theorem keptImage_isImageOffer (P : Platform) (sel : ClipboardSelection)
    (img : ClipboardDataOffer) (h : keptImage P sel = some img) :
    img ∈ sel.offers ∧ QString.startsWith img.mimeType "image/" = true ∧
    img.data ≠ [] ∧ P.isTextMimeType img.mimeType = false := by
  unfold keptImage at h
  have hmem : img ∈ sel.offers.filter (isImageOffer P) := List.mem_of_getLast?_eq_some h
  obtain ⟨hin, hp⟩ := List.mem_filter.mp hmem
  simp only [isImageOffer, Bool.and_eq_true, Bool.not_eq_true', List.isEmpty_eq_false] at hp
  exact ⟨hin, hp.1.1, by simpa using hp.1.2, hp.2⟩

theorem scanSelection_image (P : Platform) (sel : ClipboardSelection) (uris : List QString) :
    (sel.offers.foldl (scanOffer P) { fileUris := uris }).fileUris
      = uris ++ sel.offers.flatMap (offerFileUris P) ∧
    (match keptImage P sel with
      | some img =>
        (sel.offers.foldl (scanOffer P) { fileUris := uris }).selectionImageData = img.data ∧
        (sel.offers.foldl (scanOffer P) { fileUris := uris }).selectionImageMime
          = img.mimeType ∧
        (sel.offers.foldl (scanOffer P) { fileUris := uris }).selectionImageData.isEmpty = false
      | none =>
        (sel.offers.foldl (scanOffer P) { fileUris := uris }).selectionImageData.isEmpty = true) := by
  obtain ⟨h1, h2, h3⟩ := scanOffers_fields P sel.offers { fileUris := uris }
  refine ⟨h1, ?_⟩
  cases hk : keptImage P sel with
  | none =>
    simp only []
    rw [h2]
    unfold keptImage at hk
    simp [hk]
  | some img =>
    simp only []
    have hne := (keptImage_isImageOffer P sel img hk).2.2.1
    unfold keptImage at hk
    rw [h2, h3, hk]
    simp [hne]

theorem compositeStep_fields (P : Platform) (c : CompositeState) (sel : ClipboardSelection) :
    (compositeStep P c sel).fileUris = c.fileUris ++ sel.offers.flatMap (offerFileUris P) ∧
    (compositeStep P c sel).imageCount
      = (if (keptImage P sel).isSome then c.imageCount + 1 else c.imageCount) ∧
    (compositeStep P c sel).singleImageData
      = (match keptImage P sel with
        | some img => if c.imageCount = 0 then img.data else c.singleImageData
        | none => c.singleImageData) ∧
    (compositeStep P c sel).singleImageMime
      = (match keptImage P sel with
        | some img => if c.imageCount = 0 then img.mimeType else c.singleImageMime
        | none => c.singleImageMime) := by
  obtain ⟨hu, hk⟩ := scanSelection_image P sel c.fileUris
  unfold compositeStep
  simp only []
  generalize sel.offers.foldl (scanOffer P) { fileUris := c.fileUris } = S at hu hk
  cases hkept : keptImage P sel with
  | none =>
    rw [hkept] at hk
    simp only [] at hk
    simp only [hk, Bool.not_true, Bool.false_eq_true, if_false, Option.isSome_none]
    split_ifs <;> exact ⟨hu, rfl, rfl, rfl⟩
  | some img =>
    rw [hkept] at hk
    simp only [] at hk
    obtain ⟨hd, hm, hne⟩ := hk
    simp only [hne, Bool.not_false, if_true, Option.isSome_some]
    by_cases h0 : c.imageCount = 0
    · simp only [h0, Nat.zero_add, beq_self_eq_true, if_true]
      split_ifs <;> exact ⟨hu, rfl, hd, hm⟩
    · have h1 : (c.imageCount + 1 == 1) = false := by
        simpa using h0
      simp only [h1, Bool.false_eq_true, if_false, h0]
      split_ifs <;> exact ⟨hu, rfl, rfl, rfl⟩

theorem foldl_compositeStep_fileUris (P : Platform) (selections : List ClipboardSelection) :
    ∀ c : CompositeState,
      (selections.foldl (compositeStep P) c).fileUris
        = c.fileUris ++ fileUrisOf P selections ∧
      (c.singleImageMime ≠ "text/uri-list" →
        (selections.foldl (compositeStep P) c).singleImageMime ≠ "text/uri-list") := by
  induction selections with
  | nil => intro c; simp [fileUrisOf]
  | cons sel rest ih =>
    intro c
    rw [List.foldl_cons]
    obtain ⟨i1, i2⟩ := ih (compositeStep P c sel)
    obtain ⟨f1, _, _, f4⟩ := compositeStep_fields P c sel
    refine ⟨?_, ?_⟩
    · rw [i1, f1]
      simp [fileUrisOf, List.flatMap_cons]
    · intro hc
      apply i2
      rw [f4]
      cases hk : keptImage P sel with
      | none => exact hc
      | some img =>
        simp only []
        split_ifs
        · exact (startsWith_image_ne img.mimeType (keptImage_isImageOffer P sel img hk).2.1).1
        · exact hc

theorem compositeScan_fileUris (P : Platform) (selections : List ClipboardSelection) :
    (compositeScan P selections).fileUris = fileUrisOf P selections ∧
    (compositeScan P selections).singleImageMime ≠ "text/uri-list" := by
  obtain ⟨h1, h2⟩ := foldl_compositeStep_fileUris P selections
    { combinedText := "", combinedHtml := "<div style=\"font-family: sans-serif;\">",
      fileUris := [], imageCount := 0, singleImageData := [], singleImageMime := "" }
  exact ⟨by simpa [compositeScan] using h1, h2 (by decide)⟩

theorem buildCompositeSelection_eq (P : Platform) (selections : List ClipboardSelection) :
    buildCompositeSelection P selections
      = ((if !(compositeScan P selections).fileUris.isEmpty then
            [MimeCall.setData "text/uri-list"
                (QString.toUtf8 (QString.join "\r\n" (compositeScan P selections).fileUris)),
              MimeCall.setUrls (compositeScan P selections).fileUris]
          else []) ++
        (if !(compositeScan P selections).combinedText.data.isEmpty then
            [MimeCall.setText (QString.trimmed (compositeScan P selections).combinedText)]
          else if !(compositeScan P selections).fileUris.isEmpty then
            [MimeCall.setText (QString.join "\n" (compositeScan P selections).fileUris)]
          else []) ++
        [MimeCall.setHtml ((compositeScan P selections).combinedHtml ++ "</div>")]) ++
        (if ((compositeScan P selections).imageCount == 1 &&
              (compositeScan P selections).combinedText.data.isEmpty &&
              selections.length == 1) &&
            P.imageValid (compositeScan P selections).singleImageData then
          [MimeCall.setImageData (compositeScan P selections).singleImageData,
            MimeCall.setData (compositeScan P selections).singleImageMime
              (compositeScan P selections).singleImageData]
        else []) := by
  unfold buildCompositeSelection compositeScan
  simp only []
  split_ifs <;> simp_all

/-- C22. The `text/uri-list` formats of the composite payload: when the selections hold
`file://` URIs (the lines of their non-empty `text/uri-list` offers that start with
`file://`, in selection and offer order), the payload sets `text/uri-list` to these URIs
joined by `\r\n` and the URL list to the same URIs in the same order; when they hold none,
the payload sets no `text/uri-list` at all. A URI that does not start with `file://` is
never included. -/
theorem buildCompositeSelection_uri_list (P : Platform) (selections : List ClipboardSelection) :
    (buildCompositeSelection P selections).filter
        (fun call => call.format == "text/uri-list")
      = (if (fileUrisOf P selections).isEmpty then []
        else [MimeCall.setData "text/uri-list"
                (QString.toUtf8 (QString.join "\r\n" (fileUrisOf P selections))),
              MimeCall.setUrls (fileUrisOf P selections)]) ∧
    ((fileUrisOf P selections).isEmpty = true →
      QMimeData.hasFormat (buildCompositeSelection P selections) "text/uri-list" = false) ∧
    (∀ uri ∈ fileUrisOf P selections, QString.startsWith uri "file://" = true) := by
  obtain ⟨hu, hm⟩ := compositeScan_fileUris P selections
  have hmime : ((compositeScan P selections).singleImageMime == "text/uri-list") = false := by
    simpa using hm
  have hfilter : (buildCompositeSelection P selections).filter
        (fun call => call.format == "text/uri-list")
      = (if (fileUrisOf P selections).isEmpty then []
        else [MimeCall.setData "text/uri-list"
                (QString.toUtf8 (QString.join "\r\n" (fileUrisOf P selections))),
              MimeCall.setUrls (fileUrisOf P selections)]) := by
    rw [buildCompositeSelection_eq, hu]
    simp only [List.filter_append]
    have h1 : ("text/plain" == "text/uri-list") = false := by decide
    have h2 : ("text/html" == "text/uri-list") = false := by decide
    have h3 : ("application/x-qt-image" == "text/uri-list") = false := by decide
    split_ifs <;> simp_all [List.filter_cons, MimeCall.format]
  refine ⟨hfilter, ?_, ?_⟩
  · intro hempty
    have hnone : (buildCompositeSelection P selections).filter
        (fun call => call.format == "text/uri-list") = [] := by
      rw [hfilter, hempty]; rfl
    unfold QMimeData.hasFormat
    rw [Bool.eq_false_iff]
    intro hany
    obtain ⟨call, hcall, hfmt⟩ := List.any_eq_true.mp hany
    have : call ∈ (buildCompositeSelection P selections).filter
        (fun call => call.format == "text/uri-list") := List.mem_filter.mpr ⟨hcall, hfmt⟩
    rw [hnone] at this
    simp at this
  · intro uri huri
    unfold fileUrisOf at huri
    obtain ⟨sel, _, h1⟩ := List.mem_flatMap.mp huri
    obtain ⟨offer, _, h2⟩ := List.mem_flatMap.mp h1
    unfold offerFileUris at h2
    split_ifs at h2
    · exact (List.mem_filter.mp h2).2
    · simp at h2

set_option maxRecDepth 100000 in
/-- C22, witness: two file URIs around a web URL in the first selection, a text in the
second. -/
theorem buildCompositeSelection_uri_list_witness :
    fileUrisOf imagePlatform [filesSelection, letterSelection] = ["file:///x", "file:///y"] ∧
    (buildCompositeSelection imagePlatform [filesSelection, letterSelection]).filter
        (fun call => call.format == "text/uri-list")
      = [MimeCall.setData "text/uri-list" (QString.toUtf8 "file:///x\r\nfile:///y"),
         MimeCall.setUrls ["file:///x", "file:///y"]] := by
  refine ⟨by decide, ?_⟩
  rw [(buildCompositeSelection_uri_list imagePlatform [filesSelection, letterSelection]).1]
  decide

theorem compositeScan_single (P : Platform) (sel : ClipboardSelection) :
    (compositeScan P [sel]).imageCount = (if (keptImage P sel).isSome then 1 else 0) ∧
    (compositeScan P [sel]).singleImageData
      = (match keptImage P sel with
        | some img => img.data
        | none => []) ∧
    (compositeScan P [sel]).singleImageMime
      = (match keptImage P sel with
        | some img => img.mimeType
        | none => "") := by
  obtain ⟨_, h2, h3, h4⟩ := compositeStep_fields P
    { combinedText := "", combinedHtml := "<div style=\"font-family: sans-serif;\">",
      fileUris := [], imageCount := 0, singleImageData := [], singleImageMime := "" } sel
  have hscan : compositeScan P [sel] = compositeStep P
    { combinedText := "", combinedHtml := "<div style=\"font-family: sans-serif;\">",
      fileUris := [], imageCount := 0, singleImageData := [], singleImageMime := "" } sel := rfl
  rw [hscan, h2, h3, h4]
  cases keptImage P sel <;> simp

theorem hasImage_buildCompositeSelection (P : Platform) (selections : List ClipboardSelection) :
    QMimeData.hasImage (buildCompositeSelection P selections)
      = (((compositeScan P selections).imageCount == 1 &&
            (compositeScan P selections).combinedText.data.isEmpty &&
            selections.length == 1) &&
          P.imageValid (compositeScan P selections).singleImageData) := by
  rw [buildCompositeSelection_eq]
  unfold QMimeData.hasImage QMimeData.hasFormat
  have h1 : ("text/plain" == "application/x-qt-image") = false := by decide
  have h2 : ("text/html" == "application/x-qt-image") = false := by decide
  have h3 : ("text/uri-list" == "application/x-qt-image") = false := by decide
  simp only [List.any_append]
  split_ifs <;> simp_all [MimeCall.format]

theorem foldl_keeps_last {σ α β : Type} (step : σ → α → σ) (field : σ → β) (p : α → Bool)
    (g : α → β) (hstep : ∀ s a, field (step s a) = if p a then g a else field s) :
    ∀ (l : List α) (s : σ),
      field (l.foldl step s) = (((l.filter p).getLast?).map g).getD (field s) := by
  intro l
  induction l with
  | nil => intro s; simp
  | cons a rest ih =>
    intro s
    rw [List.foldl_cons, ih, hstep]
    by_cases hp : p a = true
    · simp only [hp, if_true, List.filter_cons]
      cases hl : (rest.filter p).getLast? with
      | none =>
        have hnil : rest.filter p = [] := List.getLast?_eq_none_iff.mp hl
        simp [hnil]
      | some x =>
        have hne : rest.filter p ≠ [] := by
          intro hnil; rw [hnil] at hl; simp at hl
        obtain ⟨y, ys, hys⟩ := List.exists_cons_of_ne_nil hne
        rw [hys] at hl ⊢
        rw [List.getLast?_cons_cons, hl]
        simp
    · simp only [hp, Bool.false_eq_true, if_false, List.filter_cons]

theorem scanOffer_texts (P : Platform) (s : SelectionScan) (offer : ClipboardDataOffer) :
    (scanOffer P s offer).selectionText
      = (if isTextOffer P offer then P.fromUtf8 offer.data else s.selectionText) ∧
    (scanOffer P s offer).selectionHtml
      = (if isHtmlOffer P offer then P.fromUtf8 offer.data else s.selectionHtml) := by
  unfold scanOffer isTextOffer isHtmlOffer
  by_cases h1 : (offer.mimeType == "text/uri-list" && !offer.data.isEmpty) = true
  · have hm : offer.mimeType = "text/uri-list" := by
      simp only [Bool.and_eq_true, beq_iff_eq] at h1
      exact h1.1
    have hhtml : (offer.mimeType == "text/html") = false := by
      rw [hm]; decide
    have huri : (offer.mimeType != "text/uri-list") = false := by
      rw [hm]; decide
    simp only [h1, if_true, hhtml, huri, Bool.false_and, Bool.and_false, Bool.false_eq_true,
      if_false]
    obtain ⟨_, _, _, f4, f5⟩ := scanLines_fields
      (QString.splitLines (QString.trimmed (P.fromUtf8 offer.data))) s
    exact ⟨f4, f5⟩
  · simp only [h1, if_false, Bool.false_eq_true]
    by_cases h2 : (P.isTextMimeType offer.mimeType && !offer.data.isEmpty) = true
    · have htext : P.isTextMimeType offer.mimeType = true := by
        simp only [Bool.and_eq_true] at h2
        exact h2.1
      have hdata : (!offer.data.isEmpty) = true := by
        simp only [Bool.and_eq_true] at h2
        exact h2.2
      have huri : (offer.mimeType != "text/uri-list") = true := by
        cases hu : (offer.mimeType == "text/uri-list") with
        | false => simp [bne, hu]
        | true => exact absurd (by simp [hu, hdata]) h1
      simp only [h2, if_true, htext, hdata, huri, Bool.and_self, Bool.not_true, Bool.and_false,
        Bool.false_eq_true, if_false]
      exact ⟨trivial, trivial⟩
    · simp only [h2, if_false, Bool.false_eq_true]
      by_cases h3 : (offer.mimeType == "text/html" && !offer.data.isEmpty) = true
      · have hnt : P.isTextMimeType offer.mimeType = false := by
          simp only [Bool.and_eq_true] at h3
          cases ht : P.isTextMimeType offer.mimeType with
          | false => rfl
          | true => exact absurd (by simp [ht, h3.2]) h2
        have hhtml : (offer.mimeType == "text/html" && !offer.data.isEmpty &&
            !P.isTextMimeType offer.mimeType) = true := by
          simp [h3, hnt]
        rw [hhtml]
        simp only [h3, if_true, Bool.false_and, Bool.false_eq_true, if_false, and_self]
      · have hnohtml : (offer.mimeType == "text/html" && !offer.data.isEmpty &&
            !P.isTextMimeType offer.mimeType) = false := by
          simp only [Bool.not_eq_true] at h3
          simp [h3]
        rw [hnohtml]
        simp only [h3, if_false, Bool.false_and, Bool.false_eq_true]
        split_ifs <;> exact ⟨rfl, rfl⟩

theorem scanSelection_texts (P : Platform) (sel : ClipboardSelection) (uris : List QString) :
    (sel.offers.foldl (scanOffer P) { fileUris := uris }).selectionText = keptText P sel ∧
    (sel.offers.foldl (scanOffer P) { fileUris := uris }).selectionHtml = keptHtml P sel :=
  ⟨foldl_keeps_last (scanOffer P) SelectionScan.selectionText (isTextOffer P)
      (fun offer => P.fromUtf8 offer.data) (fun s a => (scanOffer_texts P s a).1)
      sel.offers { fileUris := uris },
    foldl_keeps_last (scanOffer P) SelectionScan.selectionHtml (isHtmlOffer P)
      (fun offer => P.fromUtf8 offer.data) (fun s a => (scanOffer_texts P s a).2)
      sel.offers { fileUris := uris }⟩

theorem compositeScan_single_text (P : Platform) (sel : ClipboardSelection) :
    (compositeScan P [sel]).combinedText.data.isEmpty = !contributesText P sel := by
  obtain ⟨ht, hh⟩ := scanSelection_texts P sel []
  have hscan : compositeScan P [sel] = compositeStep P
    { combinedText := "", combinedHtml := "<div style=\"font-family: sans-serif;\">",
      fileUris := [], imageCount := 0, singleImageData := [], singleImageMime := "" } sel := rfl
  rw [hscan]
  unfold compositeStep contributesText
  simp only []
  generalize sel.offers.foldl (scanOffer P) { fileUris := [] } = S at ht hh
  rw [← ht, ← hh]
  cases h1 : S.selectionText.data.isEmpty <;>
    cases h2 : QString.startsWith S.selectionText "file://" <;>
    cases h3 : S.selectionHtml.data.isEmpty <;>
    cases h4 : (QString.simplified (QString.removeTags S.selectionHtml)).data.isEmpty <;>
    cases h5 : S.selectionImageData.isEmpty <;>
    simp_all
set_option maxRecDepth 100000 in
/-- C23, as stated, fails in both directions: one selection that offers the same image in
two formats, so two image offers, gets raw image data (that of the last offer); one
selection whose single image offer does not decode gets none; and one selection with one
image next to file URIs gets raw image data although the payload has a text, the list of
the URIs. -/
theorem buildCompositeSelection_image_counts_selections :
    (twoFormatsSelection.offers.filter (isImageOffer imagePlatform)).length = 2 ∧
    buildCompositeSelection imagePlatform [twoFormatsSelection]
      = [MimeCall.setHtml ("<div style=\"font-family: sans-serif;\">" ++
            "<img src=\"data:image/jpeg;base64,Ag==\" style=\"max-width:100%;\"/></div>"),
          MimeCall.setImageData [2], MimeCall.setData "image/jpeg" [2]] ∧
    (brokenImageSelection.offers.filter (isImageOffer imagePlatform)).length = 1 ∧
    QMimeData.hasImage (buildCompositeSelection imagePlatform [brokenImageSelection]) = false ∧
    (buildCompositeSelection imagePlatform [filesSelection]).filter
        (fun call => call.format == "text/plain" || call.format == "application/x-qt-image")
      = [MimeCall.setText "file:///x\nfile:///y", MimeCall.setImageData [1]] := by
  decide

/-- C23, amended. `buildCompositeSelection` sets raw single-image data if and only if the
list holds exactly one selection, that selection has at least one non-empty image offer
(the last one is kept), the data of the kept offer decodes to a valid image, and the text
and HTML offers of the selection give no plain text: its last non-empty text offer, if
any, decodes to an empty text or to one that starts with `file://`, and its last non-empty
HTML offer, if any, leaves no text once the tags are removed. The raw data are then those
of the kept offer and end the payload; in every other case the payload only sets
`text/uri-list`, the plain text and the HTML. -/
theorem buildCompositeSelection_raw_image (P : Platform) (selections : List ClipboardSelection) :
    (QMimeData.hasImage (buildCompositeSelection P selections) = true ↔
      ∃ sel img, selections = [sel] ∧ keptImage P sel = some img ∧
        P.imageValid img.data = true ∧ contributesText P sel = false) ∧
    (∀ sel img, selections = [sel] → keptImage P sel = some img →
      P.imageValid img.data = true → contributesText P sel = false →
      List.IsSuffix [MimeCall.setImageData img.data, MimeCall.setData img.mimeType img.data]
        (buildCompositeSelection P selections)) ∧
    (QMimeData.hasImage (buildCompositeSelection P selections) = false →
      ∀ call ∈ buildCompositeSelection P selections,
        call.format = "text/uri-list" ∨ call.format = "text/plain" ∨
          call.format = "text/html") := by
  refine ⟨?_, ?_, ?_⟩
  · rw [hasImage_buildCompositeSelection]
    constructor
    · intro h
      simp only [Bool.and_eq_true, beq_iff_eq] at h
      obtain ⟨⟨⟨hcount, htext⟩, hlen⟩, hvalid⟩ := h
      obtain ⟨sel, hsel⟩ := List.length_eq_one.mp hlen
      subst hsel
      obtain ⟨c1, c2, _⟩ := compositeScan_single P sel
      rw [compositeScan_single_text] at htext
      cases hk : keptImage P sel with
      | none =>
        rw [c1, hk] at hcount
        simp at hcount
      | some img =>
        rw [c2, hk] at hvalid
        exact ⟨sel, img, rfl, hk, hvalid, by simpa using htext⟩
    · rintro ⟨sel, img, hsel, hk, hvalid, htext⟩
      subst hsel
      obtain ⟨c1, c2, _⟩ := compositeScan_single P sel
      rw [compositeScan_single_text, c1, c2, hk]
      simp [hvalid, htext]
  · intro sel img hsel hk hvalid htext
    subst hsel
    obtain ⟨c1, c2, c3⟩ := compositeScan_single P sel
    have hempty : (compositeScan P [sel]).combinedText.data.isEmpty = true := by
      rw [compositeScan_single_text, htext]
      rfl
    rw [buildCompositeSelection_eq, c1, c2, c3, hk]
    simp only [Option.isSome_some, if_true, beq_self_eq_true, hempty, List.length_singleton,
      Bool.and_self, hvalid]
    exact List.suffix_append _ _
  · intro hno call hcall
    rw [hasImage_buildCompositeSelection] at hno
    rw [buildCompositeSelection_eq, hno] at hcall
    simp only [Bool.false_eq_true, if_false, List.append_nil, List.mem_append] at hcall
    rcases hcall with (hc | hc) | hc
    · split_ifs at hc
      · simp only [List.mem_cons, List.mem_singleton, List.not_mem_nil, or_false] at hc
        rcases hc with h | h <;> subst h <;> exact Or.inl rfl
      · simp at hc
    · split_ifs at hc
      · simp only [List.mem_singleton] at hc
        subst hc
        exact Or.inr (Or.inl rfl)
      · simp only [List.mem_singleton] at hc
        subst hc
        exact Or.inr (Or.inl rfl)
      · simp at hc
    · simp only [List.mem_singleton] at hc
      subst hc
      exact Or.inr (Or.inr rfl)

set_option maxRecDepth 100000 in
/-- C23, witness: the selection that offers one image in two formats gets raw image data;
an image next to HTML with text gets none; an image next to HTML that is a mere tag gets
raw image data. -/
theorem buildCompositeSelection_raw_image_witness :
    QMimeData.hasImage (buildCompositeSelection imagePlatform [twoFormatsSelection]) = true ∧
    QMimeData.hasImage (buildCompositeSelection imagePlatform [imageAndHtmlSelection]) = false ∧
    QMimeData.hasImage (buildCompositeSelection imagePlatform [imageAndTagSelection]) = true :=
  ⟨(buildCompositeSelection_raw_image imagePlatform [twoFormatsSelection]).1.mpr
      ⟨twoFormatsSelection, { mimeType := "image/jpeg", data := [2] }, rfl, by decide,
        by decide, by decide⟩,
    Bool.eq_false_iff.mpr (fun h => by
      obtain ⟨sel, img, hsel, _, _, htext⟩ :=
        (buildCompositeSelection_raw_image imagePlatform [imageAndHtmlSelection]).1.mp h
      have hs : imageAndHtmlSelection = sel := by simpa using hsel
      subst hs
      exact absurd htext (by decide)),
    (buildCompositeSelection_raw_image imagePlatform [imageAndTagSelection]).1.mpr
      ⟨imageAndTagSelection, { mimeType := "image/png", data := [1] }, rfl, by decide,
        by decide, by decide⟩⟩

theorem compositeStep_text (P : Platform) (c : CompositeState) (sel : ClipboardSelection)
    (offer : ClipboardDataOffer) (hsel : sel.offers = [offer])
    (htext : P.isTextMimeType offer.mimeType = true)
    (hmime : offer.mimeType ≠ "text/uri-list") (hdata : offer.data ≠ [])
    (ht : (P.fromUtf8 offer.data).data ≠ [])
    (hfile : QString.startsWith (P.fromUtf8 offer.data) "file://" = false) :
    (compositeStep P c sel).combinedText
      = (if c.combinedText.data.isEmpty then c.combinedText else c.combinedText ++ "\n")
          ++ P.fromUtf8 offer.data ∧
    (compositeStep P c sel).combinedHtml
      = c.combinedHtml ++ "<p>" ++ QString.toHtmlEscaped (P.fromUtf8 offer.data) ++ "</p>" ∧
    (compositeStep P c sel).fileUris = c.fileUris ∧
    (compositeStep P c sel).imageCount = c.imageCount := by
  have h1 : (offer.mimeType == "text/uri-list") = false := by simpa using hmime
  have h2 : offer.data.isEmpty = false := by simpa using hdata
  have h3 : (P.fromUtf8 offer.data).data.isEmpty = false := by simpa using ht
  unfold compositeStep
  simp only [hsel, List.foldl, scanOffer, h1, h2, htext, h3, hfile, Bool.false_and,
    Bool.false_eq_true, if_false, Bool.not_false, Bool.and_self, if_true, List.isEmpty_nil,
    Bool.not_true]
  cases hc : c.combinedText.data.isEmpty <;> simp

theorem intercalate_cons_cons (sep a b : List Char) (l : List (List Char)) :
    List.intercalate sep (a :: b :: l) = a ++ sep ++ List.intercalate sep (b :: l) := by
  simp [List.intercalate]

theorem foldl_compositeStep_texts (P : Platform) (selections : List ClipboardSelection)
    (hall : ∀ sel ∈ selections, ∃ offer, sel.offers = [offer] ∧
      P.isTextMimeType offer.mimeType = true ∧ offer.mimeType ≠ "text/uri-list" ∧
      offer.data ≠ [] ∧ (P.fromUtf8 offer.data).data ≠ [] ∧
      QString.startsWith (P.fromUtf8 offer.data) "file://" = false) :
    ∀ c : CompositeState,
      (selections.foldl (compositeStep P) c).combinedText.data
        = (match offeredTexts P selections with
          | [] => c.combinedText.data
          | t :: ts =>
            (if c.combinedText.data.isEmpty then [] else c.combinedText.data ++ ['\n'])
              ++ List.intercalate ['\n'] ((t :: ts).map String.data)) ∧
      (selections.foldl (compositeStep P) c).combinedHtml.data
        = c.combinedHtml.data ++ (paragraphs (offeredTexts P selections)).data ∧
      (selections.foldl (compositeStep P) c).fileUris = c.fileUris ∧
      (selections.foldl (compositeStep P) c).imageCount = c.imageCount := by
  induction selections with
  | nil => intro c; simp [offeredTexts, paragraphs]
  | cons sel rest ih =>
    intro c
    obtain ⟨offer, hsel, htext, hmime, hdata, ht, hfile⟩ := hall sel (List.mem_cons_self _ _)
    obtain ⟨s1, s2, s3, s4⟩ := compositeStep_text P c sel offer hsel htext hmime hdata ht hfile
    obtain ⟨i1, i2, i3, i4⟩ := ih (fun x hx => hall x (List.mem_cons_of_mem _ hx))
      (compositeStep P c sel)
    have htexts : offeredTexts P (sel :: rest)
        = P.fromUtf8 offer.data :: offeredTexts P rest := by
      simp [offeredTexts, List.flatMap_cons, hsel]
    rw [List.foldl_cons]
    refine ⟨?_, ?_, i3.trans s3, i4.trans s4⟩
    · rw [i1, htexts, s1]
      have hne : ((if c.combinedText.data.isEmpty then c.combinedText
          else c.combinedText ++ "\n") ++ P.fromUtf8 offer.data).data.isEmpty = false := by
        simp [ht]
      cases hrest : offeredTexts P rest with
      | nil =>
        simp only []
        cases hc : c.combinedText.data.isEmpty with
        | true =>
          have : c.combinedText.data = [] := by simpa using hc
          simp [List.intercalate, this]
        | false => simp [List.intercalate]
      | cons u us =>
        simp only [] at hne ⊢
        rw [hne]
        simp only [Bool.false_eq_true, if_false, List.map_cons, intercalate_cons_cons]
        cases hc : c.combinedText.data.isEmpty with
        | true =>
          have : c.combinedText.data = [] := by simpa using hc
          simp [this]
        | false => simp
    · rw [i2, htexts, s2]
      simp [paragraphs, String.data_join, List.append_assoc]

/-- C21, as stated, fails for a text with white space at an end: the single selection
`text/plain: " a"` gives the plain text `a`, not ` a`, while the paragraph keeps the
blank. -/
theorem buildCompositeSelection_trims_text :
    offeredTexts demoPlatform [indentedSelection] = [" a"] ∧
    buildCompositeSelection demoPlatform [indentedSelection]
      = [MimeCall.setText "a",
         MimeCall.setHtml "<div style=\"font-family: sans-serif;\"><p> a</p></div>"] := by
  decide

/-- C21, amended. For every non-empty list of selections each made of one non-empty
plain-text offer whose text `t_i` is not empty and does not start with `file://`, the
payload of `buildCompositeSelection` consists of the plain text `t_1..t_n` joined by a
single `\n`, with the white space at both ends of the joined text trimmed, and of the HTML
that is the wrapping div around the n paragraph fragments `<p>escaped t_i</p>`, in list
order. -/
theorem buildCompositeSelection_texts (P : Platform) (selections : List ClipboardSelection)
    (hne : selections ≠ [])
    (hall : ∀ sel ∈ selections, ∃ offer, sel.offers = [offer] ∧
      P.isTextMimeType offer.mimeType = true ∧ offer.mimeType ≠ "text/uri-list" ∧
      offer.data ≠ [] ∧ (P.fromUtf8 offer.data).data ≠ [] ∧
      QString.startsWith (P.fromUtf8 offer.data) "file://" = false) :
    buildCompositeSelection P selections
      = [MimeCall.setText (QString.trimmed (QString.join "\n" (offeredTexts P selections))),
         MimeCall.setHtml ("<div style=\"font-family: sans-serif;\">" ++
           paragraphs (offeredTexts P selections) ++ "</div>")] := by
  obtain ⟨h1, h2, h3, h4⟩ := foldl_compositeStep_texts P selections hall
    { combinedText := "", combinedHtml := "<div style=\"font-family: sans-serif;\">",
      fileUris := [], imageCount := 0, singleImageData := [], singleImageMime := "" }
  have hscan : selections.foldl (compositeStep P)
      { combinedText := "", combinedHtml := "<div style=\"font-family: sans-serif;\">",
        fileUris := [], imageCount := 0, singleImageData := [], singleImageMime := "" }
      = compositeScan P selections := rfl
  rw [hscan] at h1 h2 h3 h4
  obtain ⟨sel, rest, hcons⟩ := List.exists_cons_of_ne_nil hne
  obtain ⟨offer, hsel, _, _, _, ht, _⟩ := hall sel (by rw [hcons]; exact List.mem_cons_self _ _)
  have htexts : offeredTexts P selections
      = P.fromUtf8 offer.data :: offeredTexts P rest := by
    simp [offeredTexts, hcons, List.flatMap_cons, hsel]
  have htext : (compositeScan P selections).combinedText
      = QString.join "\n" (offeredTexts P selections) := by
    apply String.ext
    rw [h1, htexts]
    simp [QString.join]
  have hhtml : (compositeScan P selections).combinedHtml
      = "<div style=\"font-family: sans-serif;\">" ++ paragraphs (offeredTexts P selections) := by
    apply String.ext
    rw [h2]
    simp
  have hnonempty : (QString.join "\n" (offeredTexts P selections)).data.isEmpty = false := by
    rw [htexts]
    cases hrest : offeredTexts P rest with
    | nil => simp [QString.join, List.intercalate, ht]
    | cons u us => simp [QString.join, intercalate_cons_cons, ht]
  rw [buildCompositeSelection_eq, h3, h4, htext, hhtml]
  simp [hnonempty]

/-- C21, witness: the texts `a` and `b`. -/
theorem buildCompositeSelection_texts_witness :
    buildCompositeSelection demoPlatform [letterSelection, secondLetterSelection]
      = [MimeCall.setText "a\nb",
         MimeCall.setHtml "<div style=\"font-family: sans-serif;\"><p>a</p><p>b</p></div>"] := by
  have h := buildCompositeSelection_texts demoPlatform [letterSelection, secondLetterSelection]
    (by decide)
    (by
      intro sel hsel
      simp only [List.mem_cons, List.mem_singleton, List.not_mem_nil, or_false] at hsel
      rcases hsel with h | h <;> subst h
      · exact ⟨{ mimeType := "text/plain", data := [97] }, rfl, by decide, by decide,
          by decide, by decide, by decide⟩
      · exact ⟨{ mimeType := "text/plain", data := [98] }, rfl, by decide, by decide,
          by decide, by decide, by decide⟩)
  rw [h]
  decide


end Vicinae
